import Mathlib

/-!
# btop terminal input pipeline (`src/btop_input.cpp`)

A shallow embedding of `Input::poll`, `Input::get`, `Input::clear` and
`Input::process`.

Conventions of the embedding:

* a C++ `std::string` is a Lean `String` whose characters stand for the bytes
  of the C++ string (one `Char` below 256 per byte);
* `int` values are `Int`; the arithmetic of the source on them never leaves the
  `int` range on the paths that are studied (signed overflow is undefined
  behaviour in C++), `size_t`/`uint64_t` values are `Nat` reduced modulo `2^64`
  where the source can wrap;
* global variables of the program are the fields of `Input.State`;
* calls to collaborators that live outside `btop_input.cpp` are recorded in a
  trace (`State.calls`), and their results are supplied by an `Env`;
* `Input::process` is embedded twice. In `Input.process` the configuration
  store is a total function of the state, and the calls of `Call` are the
  collaborators that can fail. In `Input.Traced.process` every read and write of
  the store, every reading of the clock and every other call that leaves the
  file is a step that is traced and can fail. The second one is the first one
  when the store does not fail (`traced_process_untraced`).
-/

namespace Input

/-! ## `std::string` / `std::string_view` operations used by the source -/

/-- The value `std::string::npos`, the largest `size_t`. -/
def npos : Nat := 2 ^ 64 - 1

/-- The C++ test `s.empty()`. -/
def empty (s : String) : Bool := s.data.isEmpty

/-- The C++ call `s.size()`. -/
def size (s : String) : Nat := s.data.length

/-- The C++ call `s.substr(pos, count)` for `pos <= s.size()`;
`std::out_of_range` (here `none`) for `pos > s.size()`. -/
def substr (s : String) (pos count : Nat) : Option String :=
  if pos > size s then none else some ⟨(s.data.drop pos).take count⟩

/-- The C++ call `s.erase(pos, count)` for `pos <= s.size()`. -/
def erase (s : String) (pos count : Nat) : String :=
  ⟨s.data.take pos ++ s.data.drop (pos + count)⟩

/-- The C++ call `s.starts_with(p)`. -/
def starts_with (s p : String) : Bool := p.data.isPrefixOf s.data

/-- The C++ call `s.ends_with(c)` for a character `c`. -/
def ends_with (s : String) (c : Char) : Bool := s.data.getLast? == some c

/-- The C++ call `v.remove_prefix(n)` on a view, for `n <= v.size()`. -/
def remove_prefix (v : String) (n : Nat) : String := ⟨v.data.drop n⟩

/-- Index of the first occurrence of `c` in a list, counted from `i`. -/
def findFrom (c : Char) : List Char → Nat → Option Nat
  | [], _ => none
  | x :: xs, i => if x = c then some i else findFrom c xs (i + 1)

/-- The C++ call `v.find(c, pos)`: the first index `>= pos` holding `c`,
`npos` when there is none. -/
def find (v : String) (c : Char) (pos : Nat) : Nat :=
  match findFrom c (v.data.drop pos) pos with
  | some i => i
  | none => npos

/-! ## `std::stoi` -/

/-- The two exceptions `std::stoi` can raise. -/
inductive StoiError
  | invalid_argument
  | out_of_range
  deriving DecidableEq, Repr

/-- The C `isspace` test in the "C" locale. -/
def isspace (c : Char) : Bool :=
  c = ' ' || c = '\t' || c = '\n' || c = '\x0b' || c = '\x0c' || c = '\r'

/-- Value of the longest prefix of decimal digits, continuing from `acc`. -/
def scanDigits : List Char → Nat → Nat
  | [], acc => acc
  | c :: cs, acc =>
    if c.isDigit then scanDigits cs (acc * 10 + (c.toNat - '0'.toNat)) else acc

def INT_MAX : Int := 2147483647
def INT_MIN : Int := -2147483648

/-- Digits part of `std::stoi`: at least one digit is required, and the value
has to fit an `int`. -/
def stoiDigits (neg : Bool) (ds : List Char) : Except StoiError Int :=
  match ds with
  | [] => .error .invalid_argument
  | d :: _ =>
    if d.isDigit then
      let n : Int := scanDigits ds 0
      let v : Int := if neg then -n else n
      if INT_MIN ≤ v ∧ v ≤ INT_MAX then .ok v else .error .out_of_range
    else .error .invalid_argument

/-- The C++ call `std::stoi(s)` (base 10): leading white space is skipped, an
optional sign is read, then the longest run of digits; what follows the digits
is ignored. -/
def stoi (s : String) : Except StoiError Int :=
  match s.data.dropWhile isspace with
  | '-' :: r => stoiDigits true r
  | '+' :: r => stoiDigits false r
  | cs => stoiDigits false cs

/-- The C++ call `std::to_string(n)` for an `int`: the decimal digits, after a
minus sign when `n` is negative. -/
def to_string (n : Int) : String :=
  match n with
  | Int.ofNat m => ⟨Nat.toDigits 10 m⟩
  | Int.negSucc m => ⟨'-' :: Nat.toDigits 10 (m + 1)⟩

/-! ## Constants and helpers of `btop_tools.hpp` -/

/-- Modelled from the spec: the constant `Fx::e` of btop_tools.hpp (not under
src/), the two-byte sequence made of the escape byte and an opening square
bracket. -/
def Fx.e : String := "\x1b["

/-- Modelled from the spec: the helper `Tools::ulen` of btop_tools.hpp (not
under src/), the number of Unicode code points of a UTF-8 byte string, that is
the number of bytes that are not continuation bytes `10xxxxxx`. -/
def ulen (s : String) : Nat :=
  (s.data.filter (fun c => c.toNat &&& 0xC0 != 0x80)).length

/-- Modelled from the spec: the helper `Tools::v_index` of btop_tools.hpp (not
under src/), the index of a value in a vector, the size of the vector when the
value is absent. -/
def v_index (v : List String) (x : String) : Nat :=
  match v with
  | [] => 0
  | y :: ys => if y = x then 0 else v_index ys x + 1

/-! ## The named-key table -/

/-- The table `Key_escapes`, in the order of the source. -/
def Key_escapes : List (String × String) :=
  [ ("\x1b", "escape"),
    ("\n", "enter"),
    (" ", "space"),
    ("\x7f", "backspace"),
    ("\x08", "backspace"),
    ("[A", "up"),
    ("OA", "up"),
    ("[B", "down"),
    ("OB", "down"),
    ("[D", "left"),
    ("OD", "left"),
    ("[C", "right"),
    ("OC", "right"),
    ("[2~", "insert"),
    ("[3~", "delete"),
    ("[H", "home"),
    ("[F", "end"),
    ("[5~", "page_up"),
    ("[6~", "page_down"),
    ("\t", "tab"),
    ("[Z", "shift_tab"),
    ("OP", "f1"),
    ("OQ", "f2"),
    ("OR", "f3"),
    ("OS", "f4"),
    ("[15~", "f5"),
    ("[17~", "f6"),
    ("[18~", "f7"),
    ("[19~", "f8"),
    ("[20~", "f9"),
    ("[21~", "f10"),
    ("[23~", "f11"),
    ("[24~", "f12") ]

/-- Lookup in an `unordered_flat_map<string, string>` given by its entries
(`contains` is `isSome` of the result, `at` its value). -/
def lookup (m : List (String × String)) (k : String) : Option String :=
  match m with
  | [] => none
  | (a, b) :: rest => if a = k then some b else lookup rest k

/-! ## Program state -/

/-- The struct `Mouse_loc` of btop_input.hpp: a rectangle of the screen. -/
structure Mouse_loc where
  line : Int
  col : Int
  height : Int
  width : Int
  deriving DecidableEq, Repr

/-- Modelled from the spec: the configuration store `Config` (btop_config.cpp,
not under src/), "typed get/set/flip by name", together with the set of boxes
that are shown. -/
structure Config where
  bools : String → Bool
  ints : String → Int
  strings : String → String
  current_boxes : List String

namespace Config

def getB (c : Config) (name : String) : Bool := c.bools name
def getI (c : Config) (name : String) : Int := c.ints name
def getS (c : Config) (name : String) : String := c.strings name

def setB (c : Config) (name : String) (v : Bool) : Config :=
  { c with bools := fun k => if k = name then v else c.bools k }

def setI (c : Config) (name : String) (v : Int) : Config :=
  { c with ints := fun k => if k = name then v else c.ints k }

def setS (c : Config) (name : String) (v : String) : Config :=
  { c with strings := fun k => if k = name then v else c.strings k }

/-- The call `Config::flip(name)`: boolean negation of the stored value. -/
def flip (c : Config) (name : String) : Config :=
  c.setB name (!c.getB name)

/-- Visibility of a box. -/
def box_shown (c : Config) (box : String) : Bool := decide (box ∈ c.current_boxes)

/-- Modelled from the spec: `Config::toggle_box` (btop_config.cpp, not under
src/) toggles the visibility of the named box: a shown box is removed from the
shown boxes, a hidden one is added. -/
def toggle_box (c : Config) (box : String) : Config :=
  if box ∈ c.current_boxes then
    { c with current_boxes := c.current_boxes.filter (fun b => b != box) }
  else
    { c with current_boxes := c.current_boxes ++ [box] }

end Config

/-- Modelled from the spec: the class `Draw::TextEdit` (btop_draw.hpp, not under
src/), the line editor holding the filter text that is being edited, and its
cursor. -/
structure TextEdit where
  pos : Nat
  upos : Nat
  text : String
  deriving DecidableEq, Repr

/-- Modelled from the spec: the constructor `TextEdit(string)`, which seeds the
edit buffer from the given text, the cursor at its end. -/
def TextEdit.ofText (text : String) : TextEdit :=
  { pos := size text, upos := ulen text, text := text }

/-- A call to a collaborator outside btop_input.cpp, as recorded in the trace. -/
inductive Call
  | toggle_box (box : String)
  | term_resize (force : Bool)
  | filter_command (key : String)
  | run (box : String) (no_update : Bool) (force_redraw : Bool)
  | selection (cmd : String)
  | atomic_wait
  | debug (msg : String)
  deriving DecidableEq, Repr

/-- The global variables read or written by btop_input.cpp. -/
structure State where
  /-- The store `Config`. -/
  config : Config
  /-- `Input::mouse_pos`: column, line. -/
  mouse_pos : Int × Int
  /-- `Input::mouse_mappings`, as the sequence of its entries in iteration order. -/
  mouse_mappings : List (String × Mouse_loc)
  /-- `Input::history`. -/
  history : List String
  /-- `Input::old_filter`. -/
  old_filter : String
  /-- The static local `last_press` of `Input::process`. -/
  last_press : Nat
  /-- `Menu::active`. -/
  menu_active : Bool
  /-- `Proc::shown`, `Cpu::shown`, `Mem::shown`. -/
  proc_shown : Bool
  cpu_shown : Bool
  mem_shown : Bool
  /-- `Proc::x`, `Proc::y`, `Proc::width`, `Proc::height`. -/
  proc_x : Int
  proc_y : Int
  proc_width : Int
  proc_height : Int
  /-- `Proc::filter`. -/
  proc_filter : TextEdit
  /-- `Proc::sort_vector`. -/
  sort_vector : List String
  /-- `Proc::expand`, `Proc::collapse`. -/
  proc_expand : Int
  proc_collapse : Int
  /-- `Global::overlay`. -/
  overlay : String
  /-- `Term::width`, `Term::height`. -/
  term_width : Int
  term_height : Int
  /-- Calls made to collaborators, oldest first. -/
  calls : List Call

/-- The initial value `deque<string> history(50, "")`. -/
def history_init : List String := List.replicate 50 ""

/-! ## `Input::get` -/

/-- The pair `history.push_back(key); history.pop_front();`. -/
def push_history (st : State) (key : String) : State :=
  { st with history := (st.history ++ [key]).tail }

/-- The rectangle test of the loop over `mouse_mappings`. -/
def in_rect (col line : Int) (pos : Mouse_loc) : Bool :=
  decide (col ≥ pos.col ∧ col < pos.col + pos.width ∧ line ≥ pos.line ∧ line < pos.line + pos.height)

/-- The loop over `mouse_mappings`: the key of the first rectangle holding the
position replaces `key`. -/
def map_click (mappings : List (String × Mouse_loc)) (col line : Int) (key : String) : String :=
  match mappings with
  | [] => key
  | (mapped_key, pos) :: rest =>
    if in_rect col line pos then mapped_key else map_click rest col line key

/-- The classification of a mouse burst: the event name, the view left after
`remove_prefix`, and the key (cleared when no pattern matches). -/
def classify_mouse (key : String) : String × String × String :=
  if starts_with key "[<0;" && ends_with key 'M' then
    ("mouse_click", remove_prefix key 4, key)
  else if starts_with key "[<0;" && ends_with key 'm' then
    ("mouse_release", remove_prefix key 4, key)
  else if starts_with key "[<64;" then
    ("mouse_scroll_up", remove_prefix key 5, key)
  else if starts_with key "[<65;" then
    ("mouse_scroll_down", remove_prefix key 5, key)
  else
    ("", key, "")

/-- The `try` block of `Input::get`: both coordinates are read with `stoi`, the
column is stored before the line is read; either exception clears
`mouse_event`. The result is the event and the new `mouse_pos`. -/
def parse_mouse_pos (key_view mouse_event : String) (mouse_pos : Int × Int) :
    String × (Int × Int) :=
  let delim := find key_view ';' 0
  match substr key_view 0 delim with
  | none => ("", mouse_pos)
  | some s0 =>
    match stoi s0 with
    | .error _ => ("", mouse_pos)
    | .ok c =>
      let mouse_pos := (c, mouse_pos.2)
      match substr key_view ((delim + 1) % 2 ^ 64) (find key_view 'M' delim) with
      | none => ("", mouse_pos)
      | some s1 =>
        match stoi s1 with
        | .error _ => ("", mouse_pos)
        | .ok l => (mouse_event, (mouse_pos.1, l))

/-- The reading loop of `Input::get`: at most 100 bytes of the pending input
are appended to `key`. -/
def read_key (pending : String) : String := ⟨pending.data.take 100⟩

/-- The step "Remove escape code prefix if present" of `Input::get`. -/
def strip_escape (key : String) : String :=
  if substr key 0 2 = some Fx.e then erase key 0 1 else key

/-- The branch "Detect if input is an mouse event" of `Input::get`, entered
with a key that starts with `[<`. In filter editing the function returns at once
(the history is not touched); otherwise the position is read and a click goes
through the mapped rectangles, and the key is pushed on the history. -/
def get_mouse (st : State) (key : String) : String × State :=
  let (mouse_event, key_view, key) := classify_mouse key
  if st.config.getB "proc_filtering" then
    if mouse_event = "mouse_click" then (mouse_event, st) else ("", st)
  else if !empty key then
    let (mouse_event, mouse_pos) := parse_mouse_pos key_view mouse_event st.mouse_pos
    let st := { st with mouse_pos := mouse_pos }
    let key := mouse_event
    let key :=
      if !st.menu_active && key = "mouse_click" then
        map_click st.mouse_mappings st.mouse_pos.1 st.mouse_pos.2 key
      else key
    (key, push_history st key)
  else
    (key, push_history st key)

/-- The branches of `Input::get` for a key that is no mouse event: the key is
translated by `Key_escapes`, or cleared when it holds more than one code point,
and pushed on the history. -/
def get_key (st : State) (key : String) : String × State :=
  match lookup Key_escapes key with
  | some name => (name, push_history st name)
  | none =>
    let key := if ulen key > 1 then "" else key
    (key, push_history st key)

/-- The function `Input::get`. `pending` is the content of the input buffer of
`cin` at the call: at most 100 bytes of it are read, the rest is discarded.
The result is the returned key and the state after the call. -/
def get (st : State) (pending : String) : String × State :=
  let key : String := read_key pending
  if !empty key then
    let key := strip_escape key
    if starts_with key "[<" then get_mouse st key
    else get_key st key
  else
    (key, st)

/-- The function `Input::clear`: pending input is discarded and
`history.clear()` empties the deque. -/
def clear (st : State) : State :=
  { st with history := [] }

/-- A state to evaluate the functions on: nothing shown, every configuration
value at its zero, the history as initialised by the program. -/
def State.init : State :=
  { config := { bools := fun _ => false, ints := fun _ => 0, strings := fun _ => "",
                current_boxes := [] },
    mouse_pos := (0, 0), mouse_mappings := [], history := history_init, old_filter := "",
    last_press := 0, menu_active := false, proc_shown := false, cpu_shown := false,
    mem_shown := false, proc_x := 0, proc_y := 0, proc_width := 0, proc_height := 0,
    proc_filter := TextEdit.ofText "", sort_vector := [], proc_expand := 0,
    proc_collapse := 0, overlay := "", term_width := 0, term_height := 0, calls := [] }

/-- What the rest of the program does while `Input::poll` runs: whether bytes
are available at the pass of the loop that comes next (`in_avail 0`) and at the
later ones, and whether another thread sets the flag `interrupt` during the
sleep of each pass. -/
structure World where
  in_avail : Nat → Bool
  raise : Nat → Bool

/-- The world as seen after one pass of the loop. -/
def World.shift (w : World) : World :=
  { in_avail := fun j => w.in_avail (j + 1), raise := fun j => w.raise (j + 1) }

/-- Outcome of `Input::poll`: the returned value, the value of the flag
`interrupt` at the return, and the arguments of the calls of `sleep_ms`. -/
structure PollResult where
  ret : Bool
  interrupt : Bool
  sleeps : List Int
  deriving DecidableEq, Repr

/-- The loop `while (timeout > 0)` of `Input::poll`. `return interrupt = false;`
stores `false` in the flag and returns the stored value, `false`. The first
argument bounds the number of passes; `none` when it is used up. -/
def poll_loop : Nat → World → Int → Bool → List Int → Option PollResult
  | 0, _, timeout, interrupt, sleeps =>
    if timeout > 0 then none else some { ret := false, interrupt := interrupt, sleeps := sleeps }
  | fuel + 1, w, timeout, interrupt, sleeps =>
    if timeout > 0 then
      if interrupt then some { ret := false, interrupt := false, sleeps := sleeps }
      else if w.in_avail 0 then some { ret := true, interrupt := interrupt, sleeps := sleeps }
      else
        poll_loop fuel w.shift (timeout - 10) (interrupt || w.raise 0)
          (sleeps ++ [if timeout < 10 then timeout else 10])
    else some { ret := false, interrupt := interrupt, sleeps := sleeps }

/-- The function `Input::poll`, started with the given value of the flag
`interrupt`. Each pass lowers `timeout` by 10, so `timeout` passes are enough. -/
def poll (w : World) (interrupt : Bool) (timeout : Int) : Option PollResult :=
  if timeout < 1 then some { ret := w.in_avail 0, interrupt := interrupt, sleeps := [] }
  else poll_loop timeout.toNat w timeout interrupt []

/-- The value of the flag `interrupt` that the `k`-th pass of the loop reads:
the starting value, or `true` once another thread has set it. -/
def flag_at (w : World) (interrupt : Bool) : Nat → Bool
  | 0 => interrupt
  | k + 1 => flag_at w.shift (interrupt || w.raise 0) k

/-! ## `Input::process` -/

/-- The collaborators of `Input::process` that return a value, the clock, and
the failures of collaborators. -/
structure Env where
  /-- The call `Proc::filter.command(key)` of the line editor: whether the key
  was handled, and the editor after the call. -/
  filter_command : TextEdit → String → Bool × TextEdit
  /-- The call `Proc::selection(cmd)`: the returned index (`-1` when nothing
  moves) and the configuration after the call. -/
  selection : Config → String → Int × Config
  /-- The value of `time_ms()` at its first, second, ... call of one run of
  `Input::process`. -/
  time_ms : Nat → Nat
  /-- The call `Mv::to(line, col)`. -/
  mv_to : Int → Int → String
  /-- Whether a call of a collaborator raises an exception, and its `what()`. -/
  fault : Call → Option String
  /-- The `what()` of the `std::out_of_range` raised by `at`. -/
  what_out_of_range : String
  /-- The `what()` of the exceptions raised by `std::stoi`. -/
  what_stoi : String

/-- How a block of `Input::process` ends: control goes on after the block, the
function returns, the program exits, or an exception travels to the `catch`
clause. The state reached is kept in each case. -/
inductive Res (α : Type)
  | next (a : α) (st : State)
  | ret (st : State)
  | exit (code : Int) (st : State)
  | throw (what : String) (st : State)

/-- Sequencing of blocks. -/
def Res.bind {α β : Type} (r : Res α) (f : α → State → Res β) : Res β :=
  match r with
  | .next a st => f a st
  | .ret st => .ret st
  | .exit code st => .exit code st
  | .throw what st => .throw what st

/-- A call of a collaborator: it raises its exception, or is added to the trace. -/
def call (env : Env) (c : Call) (st : State) : Res Unit :=
  match env.fault c with
  | some what => .throw what st
  | none => .next () { st with calls := st.calls ++ [c] }

/-- The value of a `uint64_t` reading of the clock. -/
def clock (env : Env) (n : Nat) : Nat := env.time_ms n % 2 ^ 64

/-- The call `v.at(i)` with an `int` index: `none` stands for `std::out_of_range`
(a negative index converts to a huge `size_t`). -/
def vec_at (v : List String) (i : Int) : Option String :=
  if 0 ≤ i then v.get? i.toNat else none

/-- The array `boxes` of the global input actions. -/
def boxes : List String := ["cpu", "mem", "net", "proc"]

/-- The block "Global input actions" for a key that is one of `1`, `2`, `3`,
`4`: the box is toggled and the terminal geometry recomputed. -/
def global_toggle (env : Env) (st : State) (key : String) : Res Unit :=
  match stoi key with
  | .error _ => .throw env.what_stoi st
  | .ok n =>
    match vec_at boxes (n - 1) with
    | none => .throw env.what_out_of_range st
    | some box =>
      (call env (.toggle_box box) st).bind fun _ st =>
      call env (.term_resize true) { st with config := st.config.toggle_box box }

/-- The body at the label `proc_mouse_enter`, shared by the key `enter` and by a
click on the selected row. The result is `keep_going` and `redraw`. -/
def proc_enter (st : State) (redraw : Bool) : Res (Bool × Bool) :=
  let c := st.config
  if c.getI "proc_selected" = 0 ∧ c.getB "show_detailed" = false then
    .ret st
  else if c.getI "proc_selected" > 0 ∧ c.getI "detailed_pid" ≠ c.getI "selected_pid" then
    let c := c.setI "detailed_pid" (c.getI "selected_pid")
    let c := c.setI "proc_last_selected" (c.getI "proc_selected")
    let c := c.setI "proc_selected" 0
    let c := c.setB "show_detailed" true
    .next (false, redraw) { st with config := c }
  else if c.getB "show_detailed" then
    let c := if c.getI "proc_last_selected" > 0 then
        c.setI "proc_selected" (c.getI "proc_last_selected") else c
    let c := c.setI "proc_last_selected" 0
    let c := c.setI "detailed_pid" 0
    let c := c.setB "show_detailed" false
    .next (false, redraw) { st with config := c }
  else
    .next (false, redraw) st

/-- A call of `Proc::selection(cmd)`: the returned index and the state after it. -/
def proc_selection (env : Env) (st : State) (cmd : String) : Res Int :=
  (call env (.selection cmd) st).bind fun _ st =>
  .next (env.selection st.config cmd).1 { st with config := (env.selection st.config cmd).2 }

/-- The body at the label `proc_mouse_scroll`, shared by the movement keys and
by the mouse events inside the list that are no click. -/
def proc_scroll (env : Env) (st : State) (key : String) : Res (Bool × Bool) :=
  let old_selected := st.config.getI "proc_selected"
  (proc_selection env st key).bind fun new_selected st =>
  if new_selected = -1 then .ret st
  else .next (false, decide (old_selected ≠ new_selected ∧ (old_selected = 0 ∨ new_selected = 0))) st

/-- The branch `key.starts_with("mouse_")` of the process box. -/
def proc_mouse (env : Env) (st : State) (key : String) : Res (Bool × Bool) :=
  let col := st.mouse_pos.1
  let line := st.mouse_pos.2
  let y := if st.config.getB "show_detailed" then st.proc_y + 8 else st.proc_y
  let height := if st.config.getB "show_detailed" then st.proc_height - 8 else st.proc_height
  if col ≥ st.proc_x + 1 ∧ col < st.proc_x + st.proc_width ∧ line ≥ y + 1 ∧ line < y + height - 1 then
    if key = "mouse_click" then
      if col < st.proc_x + st.proc_width - 2 then
        let current_selection := st.config.getI "proc_selected"
        if current_selection = line - y - 1 then
          proc_enter st true
        else
          let redraw := decide (current_selection = 0 ∨ line - y - 1 = 0)
          .next (false, redraw) { st with config := st.config.setI "proc_selected" (line - y - 1) }
      else if line = y + 1 then
        (proc_selection env st "page_up").bind fun r st =>
        if r = -1 then .ret st else .next (false, false) st
      else if line = y + height - 2 then
        (proc_selection env st "page_down").bind fun r st =>
        if r = -1 then .ret st else .next (false, false) st
      else
        (proc_selection env st ("mousey" ++ to_string (line - y - 2))).bind fun r st =>
        if r = -1 then .ret st else .next (false, false) st
    else
      proc_scroll env st key
  else if key = "mouse_click" ∧ st.config.getI "proc_selected" > 0 then
    .next (false, true) { st with config := st.config.setI "proc_selected" 0 }
  else
    .next (true, false) st

/-- The branch `if (filtering)` of the process box. -/
def proc_filtering (env : Env) (st : State) (key : String) : Res (Bool × Bool) :=
  if key = "enter" then
    let c := st.config.setS "proc_filter" st.proc_filter.text
    let c := c.setB "proc_filtering" false
    .next (false, true) { st with config := c, old_filter := "" }
  else if key = "escape" ∨ key = "mouse_click" then
    let c := st.config.setS "proc_filter" st.old_filter
    let c := c.setB "proc_filtering" false
    .next (false, true) { st with config := c, old_filter := "" }
  else
    (call env (.filter_command key) st).bind fun _ st =>
    let handled := (env.filter_command st.proc_filter key).1
    let st := { st with proc_filter := (env.filter_command st.proc_filter key).2 }
    if handled then
      if st.config.getS "proc_filter" ≠ st.proc_filter.text then
        .next (false, true) { st with config := st.config.setS "proc_filter" st.proc_filter.text }
      else .next (false, true) st
    else .ret st

/-- The chain of branches of the block "Input actions for proc box". The result
is `keep_going` and `redraw`. -/
def proc_chain (env : Env) (st : State) (key : String) : Res (Bool × Bool) :=
  if st.config.getB "proc_filtering" then
    proc_filtering env st key
  else if key = "left" then
    let cur_i : Int := (v_index st.sort_vector (st.config.getS "proc_sorting") : Int) - 1
    let cur_i : Int := if cur_i < 0 then (st.sort_vector.length : Int) - 1 else cur_i
    match vec_at st.sort_vector cur_i with
    | none => .throw env.what_out_of_range st
    | some v => .next (false, true) { st with config := st.config.setS "proc_sorting" v }
  else if key = "right" then
    let cur_i : Int := (v_index st.sort_vector (st.config.getS "proc_sorting") : Int) + 1
    let cur_i : Int :=
      if cur_i > (((st.sort_vector.length + 2 ^ 64 - 1) % 2 ^ 64 : Nat) : Int) then 0 else cur_i
    match vec_at st.sort_vector cur_i with
    | none => .throw env.what_out_of_range st
    | some v => .next (false, true) { st with config := st.config.setS "proc_sorting" v }
  else if key = "f" then
    let c := st.config.flip "proc_filtering"
    let filter := TextEdit.ofText (c.getS "proc_filter")
    .next (false, true) { st with config := c, proc_filter := filter, old_filter := filter.text }
  else if key = "e" then
    .next (false, true) { st with config := st.config.flip "proc_tree" }
  else if key = "r" then
    .next (false, true) { st with config := st.config.flip "proc_reversed" }
  else if key = "c" then
    .next (false, true) { st with config := st.config.flip "proc_per_core" }
  else if key = "delete" ∧ empty (st.config.getS "proc_filter") = false then
    .next (false, true) { st with config := st.config.setS "proc_filter" "" }
  else if key = "\xc3\xb6" then
    let st :=
      if empty st.overlay then
        { st with overlay := env.mv_to (Int.tdiv st.term_height 2) (Int.tdiv st.term_width 2)
                    ++ "\x1b[1;32mTESTING" }
      else { st with overlay := "" }
    (call env (.run "all" true true) st).bind fun _ st => .next (false, true) st
  else if starts_with key "mouse_" then
    proc_mouse env st key
  else if key = "enter" then
    proc_enter st true
  else if (key = "+" ∨ key = "-" ∨ key = "space") ∧ st.config.getB "proc_tree" = true
      ∧ st.config.getI "proc_selected" > 0 then
    (call env .atomic_wait st).bind fun _ st =>
    let pid := st.config.getI "selected_pid"
    let st := if key = "+" ∨ key = "space" then { st with proc_expand := pid } else st
    let st := if key = "-" ∨ key = "space" then { st with proc_collapse := pid } else st
    .next (false, true) st
  else if key = "t" ∨ key = "k" ∨ key = "s" then
    (call env (.debug key) st).bind fun _ st => .ret st
  else if key = "up" ∨ key = "down" ∨ key = "page_up" ∨ key = "page_down" ∨ key = "home"
      ∨ key = "end" then
    proc_scroll env st key
  else
    .next (true, true) st

/-- The block "Input actions for proc box": a key that was taken ends with
`Runner::run("proc", no_update, redraw)` and a return. -/
def proc_box (env : Env) (st : State) (key : String) : Res Unit :=
  if st.proc_shown then
    (proc_chain env st key).bind fun (keep_going, redraw) st =>
    if !keep_going then
      (call env (.run "proc" true redraw) st).bind fun _ st => .ret st
    else .next () st
  else .next () st

/-- The test `rng::all_of(Input::history, ...)` that every entry is `k`. -/
def history_all (st : State) (k : String) : Bool := st.history.all (fun str => str == k)

/-- The block "Input actions for cpu box". The clock is read once in the test
for the large step, when the test gets that far, and once to store
`last_press`. -/
def cpu_box (env : Env) (st : State) (key : String) : Res Unit :=
  if st.cpu_shown then
    let update_ms := st.config.getI "update_ms"
    if key = "+" ∧ update_ms ≤ 86399900 then
      let reads : Nat := if update_ms ≤ 86399000 then 1 else 0
      let fast : Bool := decide (update_ms ≤ 86399000)
        && decide (st.last_press ≥ (clock env 0 + 2 ^ 64 - 200) % 2 ^ 64)
        && history_all st "+"
      let add : Int := if fast then 1000 else 100
      let st := { st with config := st.config.setI "update_ms" (update_ms + add),
                          last_press := clock env reads }
      (call env (.run "cpu" true true) st).bind fun _ st => .ret st
    else if key = "-" ∧ update_ms ≥ 200 then
      let reads : Nat := if update_ms ≥ 2000 then 1 else 0
      let fast : Bool := decide (update_ms ≥ 2000)
        && decide (st.last_press ≥ (clock env 0 + 2 ^ 64 - 200) % 2 ^ 64)
        && history_all st "-"
      let sub : Int := if fast then 1000 else 100
      let st := { st with config := st.config.setI "update_ms" (update_ms - sub),
                          last_press := clock env reads }
      (call env (.run "cpu" true true) st).bind fun _ st => .ret st
    else .next () st
  else .next () st

/-- The block "Input actions for mem box": `keep_going` stays `false`, so the
block always ends with `Runner::run("mem", ...)` and a return. -/
def mem_box (env : Env) (st : State) (key : String) : Res Unit :=
  if st.mem_shown then
    let st := if key = "i" then { st with config := st.config.flip "io_mode" } else st
    (call env (.run "mem" true true) st).bind fun _ st => .ret st
  else .next () st

/-- The block "Global input actions", entered when `filtering` is false. -/
def global_box (env : Env) (st : State) (key : String) : Res Unit :=
  if st.config.getB "proc_filtering" = false then
    if key = "1" ∨ key = "2" ∨ key = "3" ∨ key = "4" then
      (global_toggle env st key).bind fun _ st => .ret st
    else .next () st
  else .next () st

/-- The `try` block of `Input::process`. -/
def process_try (env : Env) (st : State) (key : String) : Res Unit :=
  if st.config.getB "proc_filtering" = false ∧ key = "q" then .exit 0 st
  else
    (global_box env st key).bind fun _ st =>
    (proc_box env st key).bind fun _ st =>
    (cpu_box env st key).bind fun _ st =>
    mem_box env st key

/-- How a call of `Input::process` ends. -/
inductive Outcome
  | returned (st : State)
  | exited (code : Int) (st : State)
  | runtime_error (what : String) (st : State)

/-- The function `Input::process`: nothing is done for an empty key; an
exception of the `try` block is thrown again as a `std::runtime_error` that
names the key. -/
def process (env : Env) (st : State) (key : String) : Outcome :=
  if empty key then .returned st
  else
    match process_try env st key with
    | .next _ st => .returned st
    | .ret st => .returned st
    | .exit code st => .exited code st
    | .throw what st => .runtime_error ("Input::process(\"" ++ key ++ "\") : " ++ what) st

/-- The state in which a call of `Input::process` leaves the program. -/
def Outcome.state : Outcome → State
  | .returned st => st
  | .exited _ st => st
  | .runtime_error _ st => st

/-- Collaborators that never fail, a line editor that appends a key of one
code point to its text, a selection that does not move, a clock at 1000 ms. -/
def Env.quiet : Env :=
  { filter_command := fun ed key =>
      if ulen key = 1 then (true, { ed with text := ed.text ++ key }) else (false, ed),
    selection := fun c _ => (-1, c),
    time_ms := fun _ => 1000,
    mv_to := fun _ _ => "",
    fault := fun _ => none,
    what_out_of_range := "out_of_range",
    what_stoi := "stoi" }

/-- The initial state with the process box and the memory box shown. -/
def State.shown : State := { State.init with proc_shown := true, mem_shown := true }

/-- A state of the cpu box after `+` was held down: `update_ms` at 86,399,000,
fifty `+` in the history, the last press at 900 ms. -/
def State.held_plus : State :=
  { State.init with
      cpu_shown := true,
      config := State.init.config.setI "update_ms" 86399000,
      history := List.replicate 50 "+",
      last_press := 900 }

/-- The state after a call of a collaborator, whether it fails or not: a call
that does not fail is added to the trace. -/
def after_call (env : Env) (c : Call) (st : State) : State :=
  match env.fault c with
  | some _ => st
  | none => { st with calls := st.calls ++ [c] }

/-- Successive calls of `Input::process`, each with its key and with the
collaborators as they are at that call; the state is handed on. -/
def process_all (st : State) : List (Env × String) → State
  | [] => st
  | (env, key) :: rest => process_all (process env st key).state rest

/-- The condition under which the process box leaves the key `+` to the next
boxes: the box is not shown, or filter editing is off and the tree view has no
selected row. -/
def plus_passes_proc (st : State) : Prop :=
  st.proc_shown = false ∨
    (st.config.getB "proc_filtering" = false ∧
      ¬ (st.config.getB "proc_tree" = true ∧ st.config.getI "proc_selected" > 0))

/-- A non-empty run of decimal digits `s` whose value, as read by the digit loop
of `stoi`, is `n`. -/
structure IsDec (s : List Char) (n : Nat) : Prop where
  ne_nil : s ≠ []
  digits : ∀ c ∈ s, c.isDigit = true
  scan : ∀ rest acc, scanDigits (s ++ rest) acc = scanDigits rest (acc * 10 ^ s.length + n)

/-- The initial state with the process box shown and filter editing on. -/
def State.filtering : State :=
  { State.init with proc_shown := true, config := State.init.config.setB "proc_filtering" true }

/-- The sorting state the keys `left` and `right` work on: the process box is
shown, filter editing is off, and `proc_sorting` is the entry `j` of the sort
vector `v`. -/
def sorting_at (st : State) (v : List String) (j : Nat) : Prop :=
  st.proc_shown = true ∧ st.config.getB "proc_filtering" = false ∧ st.sort_vector = v ∧
    v[j]? = some (st.config.getS "proc_sorting")

/-- The initial state with the process box shown, three sort keys, and the
processes sorted by the last of them. -/
def State.sorting : State :=
  { State.init with
      proc_shown := true,
      sort_vector := ["pid", "program", "cpu"],
      config := State.init.config.setS "proc_sorting" "cpu" }

/-- The initial state with the process box shown and the third row selected,
the process of that row being 42. -/
def State.selected : State :=
  { State.init with
      proc_shown := true,
      config := (State.init.config.setI "proc_selected" 3).setI "selected_pid" 42 }

/-- The state that a block of `Input::process` ends in. -/
def Res.state {α : Type} : Res α → State
  | .next _ st => st
  | .ret st => st
  | .exit _ st => st
  | .throw _ st => st

/-- The change of `update_ms` that a key of the interval may make: none, or one
step of 100 or 1000 in the direction of the key, inside the bounds tested by the
cpu box. -/
def interval_step (key : String) (u u' : Int) : Prop :=
  u' = u ∨
  (key = "+" ∧ ((u' = u + 100 ∧ u ≤ 86399900) ∨ (u' = u + 1000 ∧ u ≤ 86399000))) ∨
  (key = "-" ∧ ((u' = u - 100 ∧ u ≥ 200) ∨ (u' = u - 1000 ∧ u ≥ 2000)))

/-! ## `Input::process`, with every use of a collaborator traced

The blocks of `Input::process` once more, statement by statement: each read
and each write of the configuration store, each reading of the clock and each
other call that leaves btop_input.cpp is a step of its own, which is added to
a trace or fails with an exception. The operands of `and` are steps in the
order of the source, the right one only when the left one holds; the order of
the two operands of the one `!=` between two reads of the store is left open. -/

namespace Traced

/-- A use of a collaborator by `Input::process`: `Config::getB`, `getI`, `getS`,
`set` (by type of the value), `flip`, `time_ms()`, `Mv::to`, the constructor of
`Draw::TextEdit`, or one of the calls of `Call`. -/
inductive Access
  | getB (name : String)
  | getI (name : String)
  | getS (name : String)
  | setB (name : String) (value : Bool)
  | setI (name : String) (value : Int)
  | setS (name : String) (value : String)
  | flip (name : String)
  | time_ms
  | mv_to (line col : Int)
  | text_edit (text : String)
  | call (c : Call)
  deriving DecidableEq, Repr

/-- The global variables, and the uses of collaborators so far, oldest first. -/
structure State extends Input.State where
  accesses : List Access

/-- The collaborators: what they return, and which of their uses fails. -/
structure Env where
  /-- The call `Proc::filter.command(key)`, as in `Input.Env`. -/
  filter_command : TextEdit → String → Bool × TextEdit
  /-- The call `Proc::selection(cmd)`, as in `Input.Env`. -/
  selection : Config → String → Int × Config
  /-- The value of `time_ms()` at its first, second, ... call of one run. -/
  time_ms : Nat → Nat
  /-- The call `Mv::to(line, col)`. -/
  mv_to : Int → Int → String
  /-- Whether a use of a collaborator raises an exception, and its `what()`. -/
  fault : Access → Option String
  /-- Whether the left operand of `!=` is evaluated first (the language leaves
  the order of the two operands open). -/
  left_first : Bool
  /-- The `what()` of the `std::out_of_range` raised by `at`. -/
  what_out_of_range : String
  /-- The `what()` of the exceptions raised by `std::stoi`. -/
  what_stoi : String

/-- How a block ends, as `Input.Res`. -/
inductive Res (α : Type)
  | next (a : α) (s : State)
  | ret (s : State)
  | exit (code : Int) (s : State)
  | throw (what : String) (s : State)

/-- A block of statements: from the state before it to the way it ends. -/
def Block (α : Type) : Type := State → Res α

/-- Sequencing of blocks: the second one runs when control leaves the first
one at its end. -/
def Block.bind {α β : Type} (b : Block α) (f : α → Block β) : Block β := fun s =>
  match b s with
  | .next a s => f a s
  | .ret s => .ret s
  | .exit code s => .exit code s
  | .throw what s => .throw what s

instance : Monad Block where
  pure a := fun s => .next a s
  bind := Block.bind

/-- The global variables as they are. -/
def globals : Block Input.State := fun s => .next s.toState s

/-- An assignment to global variables. -/
def update (f : Input.State → Input.State) : Block Unit := fun s =>
  .next () { s with toState := f s.toState }

/-- The statement `return;`. -/
def leave {α : Type} : Block α := fun s => .ret s

/-- The call `exit(code)`. -/
def quit {α : Type} (code : Int) : Block α := fun s => .exit code s

/-- An exception raised by the standard library. -/
def raise {α : Type} (what : String) : Block α := fun s => .throw what s

/-- One use of a collaborator: it raises its exception, or is added to the trace. -/
def access (env : Env) (a : Access) : Block Unit := fun s =>
  match env.fault a with
  | some what => .throw what s
  | none => .next () { s with accesses := s.accesses ++ [a] }

/-- A call of `Call`: it is also added to the trace `calls`. -/
def call (env : Env) (c : Call) : Block Unit := do
  access env (.call c)
  update fun st => { st with calls := st.calls ++ [c] }

/-- The call `Config::getB(name)`. -/
def getB (env : Env) (name : String) : Block Bool := do
  access env (.getB name)
  let st ← globals
  pure (st.config.getB name)

/-- The call `Config::getI(name)`. -/
def getI (env : Env) (name : String) : Block Int := do
  access env (.getI name)
  let st ← globals
  pure (st.config.getI name)

/-- The call `Config::getS(name)`. -/
def getS (env : Env) (name : String) : Block String := do
  access env (.getS name)
  let st ← globals
  pure (st.config.getS name)

/-- The call `Config::set(name, value)` with a `bool`. -/
def setB (env : Env) (name : String) (value : Bool) : Block Unit := do
  access env (.setB name value)
  update fun st => { st with config := st.config.setB name value }

/-- The call `Config::set(name, value)` with an `int`. -/
def setI (env : Env) (name : String) (value : Int) : Block Unit := do
  access env (.setI name value)
  update fun st => { st with config := st.config.setI name value }

/-- The call `Config::set(name, value)` with a `string`. -/
def setS (env : Env) (name : String) (value : String) : Block Unit := do
  access env (.setS name value)
  update fun st => { st with config := st.config.setS name value }

/-- The call `Config::flip(name)`. -/
def flip (env : Env) (name : String) : Block Unit := do
  access env (.flip name)
  update fun st => { st with config := st.config.flip name }

/-- The call `time_ms()`, the `n`-th of the run, read as a `uint64_t`. -/
def time_ms (env : Env) (n : Nat) : Block Nat := do
  access env .time_ms
  pure (env.time_ms n % 2 ^ 64)

/-- The call `Mv::to(line, col)`. -/
def mv_to (env : Env) (line col : Int) : Block String := do
  access env (.mv_to line col)
  pure (env.mv_to line col)

/-- The assignment `Proc::filter = { text }`. -/
def text_edit (env : Env) (text : String) : Block Unit := do
  access env (.text_edit text)
  update fun st => { st with proc_filter := TextEdit.ofText text }

/-- The call `Proc::filter.command(key)`: whether the key was handled. -/
def filter_command (env : Env) (key : String) : Block Bool := do
  call env (.filter_command key)
  let st ← globals
  update fun st => { st with proc_filter := (env.filter_command st.proc_filter key).2 }
  pure (env.filter_command st.proc_filter key).1

/-- The call `Proc::selection(cmd)`: the returned index. -/
def selection (env : Env) (cmd : String) : Block Int := do
  call env (.selection cmd)
  let st ← globals
  update fun st => { st with config := (env.selection st.config cmd).2 }
  pure (env.selection st.config cmd).1

/-- The block "Global input actions" inside `if (not filtering)`. -/
def global_box (env : Env) (key : String) : Block Unit :=
  if key = "1" ∨ key = "2" ∨ key = "3" ∨ key = "4" then
    match stoi key with
    | .error _ => raise env.what_stoi
    | .ok n =>
      match vec_at boxes (n - 1) with
      | none => raise env.what_out_of_range
      | some box => do
        call env (.toggle_box box)
        update fun st => { st with config := st.config.toggle_box box }
        call env (.term_resize true)
        leave
  else pure ()

/-- The test `Config::getI("proc_selected") == 0 and not Config::getB("show_detailed")`:
the second operand is read when the first one holds. -/
def enter_at_root (env : Env) : Block Bool := do
  let selected ← getI env "proc_selected"
  if selected = 0 then do
    let detailed ← getB env "show_detailed"
    pure (!detailed)
  else pure false

/-- The test `Config::getI("proc_selected") > 0 and
Config::getI("detailed_pid") != Config::getI("selected_pid")`, the operands of
`!=` read in the order that `left_first` tells. -/
def enter_opens (env : Env) : Block Bool := do
  let selected ← getI env "proc_selected"
  if selected > 0 then
    if env.left_first then do
      let detailed_pid ← getI env "detailed_pid"
      let selected_pid ← getI env "selected_pid"
      pure (decide (detailed_pid ≠ selected_pid))
    else do
      let selected_pid ← getI env "selected_pid"
      let detailed_pid ← getI env "detailed_pid"
      pure (decide (detailed_pid ≠ selected_pid))
  else pure false

/-- The body at the label `proc_mouse_enter`. The result is `keep_going` and
`redraw`. -/
def proc_enter (env : Env) (redraw : Bool) : Block (Bool × Bool) := do
  let root ← enter_at_root env
  if root then leave
  else do
    let opens ← enter_opens env
    if opens then do
      let selected_pid ← getI env "selected_pid"
      setI env "detailed_pid" selected_pid
      let selected ← getI env "proc_selected"
      setI env "proc_last_selected" selected
      setI env "proc_selected" 0
      setB env "show_detailed" true
      pure (false, redraw)
    else do
      let detailed ← getB env "show_detailed"
      if detailed then do
        let last ← getI env "proc_last_selected"
        (if last > 0 then do
          let last ← getI env "proc_last_selected"
          setI env "proc_selected" last
        else pure ())
        setI env "proc_last_selected" 0
        setI env "detailed_pid" 0
        setB env "show_detailed" false
        pure (false, redraw)
      else pure (false, redraw)

/-- The body at the label `proc_mouse_scroll`. -/
def proc_scroll (env : Env) (key : String) : Block (Bool × Bool) := do
  let old_selected ← getI env "proc_selected"
  let new_selected ← selection env key
  if new_selected = -1 then leave
  else pure (false, decide (old_selected ≠ new_selected ∧ (old_selected = 0 ∨ new_selected = 0)))

/-- A call `Proc::selection(cmd)` of a click on the scroll bar. -/
def selection_move (env : Env) (cmd : String) : Block (Bool × Bool) := do
  let r ← selection env cmd
  if r = -1 then leave else pure (false, false)

/-- The test `key == "mouse_click" and Config::getI("proc_selected") > 0`. -/
def click_deselects (env : Env) (key : String) : Block Bool :=
  if key = "mouse_click" then do
    let selected ← getI env "proc_selected"
    pure (decide (selected > 0))
  else pure false

/-- The branch `key.starts_with("mouse_")` of the process box. -/
def proc_mouse (env : Env) (key : String) : Block (Bool × Bool) := do
  let st ← globals
  let col := st.mouse_pos.1
  let line := st.mouse_pos.2
  let detailed ← getB env "show_detailed"
  let y := if detailed then st.proc_y + 8 else st.proc_y
  let detailed ← getB env "show_detailed"
  let height := if detailed then st.proc_height - 8 else st.proc_height
  if col ≥ st.proc_x + 1 ∧ col < st.proc_x + st.proc_width ∧ line ≥ y + 1 ∧ line < y + height - 1 then
    if key = "mouse_click" then
      if col < st.proc_x + st.proc_width - 2 then do
        let current_selection ← getI env "proc_selected"
        if current_selection = line - y - 1 then proc_enter env true
        else do
          setI env "proc_selected" (line - y - 1)
          pure (false, decide (current_selection = 0 ∨ line - y - 1 = 0))
      else if line = y + 1 then selection_move env "page_up"
      else if line = y + height - 2 then selection_move env "page_down"
      else selection_move env ("mousey" ++ to_string (line - y - 2))
    else proc_scroll env key
  else do
    let deselects ← click_deselects env key
    if deselects then do
      setI env "proc_selected" 0
      pure (false, true)
    else pure (true, false)

/-- The branch `if (filtering)` of the process box. -/
def proc_filtering (env : Env) (key : String) : Block (Bool × Bool) :=
  if key = "enter" then do
    let st ← globals
    setS env "proc_filter" st.proc_filter.text
    setB env "proc_filtering" false
    update fun st => { st with old_filter := "" }
    pure (false, true)
  else if key = "escape" ∨ key = "mouse_click" then do
    let st ← globals
    setS env "proc_filter" st.old_filter
    setB env "proc_filtering" false
    update fun st => { st with old_filter := "" }
    pure (false, true)
  else do
    let handled ← filter_command env key
    if handled then do
      let filter ← getS env "proc_filter"
      let st ← globals
      (if filter ≠ st.proc_filter.text then setS env "proc_filter" st.proc_filter.text
      else pure ())
      pure (false, true)
    else leave

/-- The branches `left` and `right` of the process box, from the index `cur_i`
reached: `Config::set("proc_sorting", Proc::sort_vector.at(cur_i))`. -/
def set_sorting (env : Env) (cur_i : Int) : Block (Bool × Bool) := do
  let st ← globals
  match vec_at st.sort_vector cur_i with
  | none => raise env.what_out_of_range
  | some v => do
    setS env "proc_sorting" v
    pure (false, true)

/-- The test `key == "delete" and not Config::getS("proc_filter").empty()`. -/
def delete_clears (env : Env) (key : String) : Block Bool :=
  if key = "delete" then do
    let filter ← getS env "proc_filter"
    pure (!empty filter)
  else pure false

/-- The test `is_in(key, "+", "-", "space") and Config::getB("proc_tree") and
Config::getI("proc_selected") > 0`. -/
def tree_key (env : Env) (key : String) : Block Bool :=
  if key = "+" ∨ key = "-" ∨ key = "space" then do
    let tree ← getB env "proc_tree"
    if tree then do
      let selected ← getI env "proc_selected"
      pure (decide (selected > 0))
    else pure false
  else pure false

/-- The branches of the process box from the test of the tree keys on. -/
def proc_chain_tree (env : Env) (key : String) : Block (Bool × Bool) := do
  let tree ← tree_key env key
  if tree then do
    call env .atomic_wait
    let pid ← getI env "selected_pid"
    (if key = "+" ∨ key = "space" then update fun st => { st with proc_expand := pid }
    else pure ())
    (if key = "-" ∨ key = "space" then update fun st => { st with proc_collapse := pid }
    else pure ())
    pure (false, true)
  else if key = "t" ∨ key = "k" ∨ key = "s" then do
    call env (.debug key)
    leave
  else if key = "up" ∨ key = "down" ∨ key = "page_up" ∨ key = "page_down" ∨ key = "home"
      ∨ key = "end" then
    proc_scroll env key
  else pure (true, true)

/-- The branches of the process box from the test of the key `delete` on. -/
def proc_chain_delete (env : Env) (key : String) : Block (Bool × Bool) := do
  let clears ← delete_clears env key
  if clears then do
    setS env "proc_filter" ""
    pure (false, true)
  else if key = "\xc3\xb6" then do
    let st ← globals
    (if empty st.overlay then do
      let centre ← mv_to env (Int.tdiv st.term_height 2) (Int.tdiv st.term_width 2)
      update fun st => { st with overlay := centre ++ "\x1b[1;32mTESTING" }
    else update fun st => { st with overlay := "" })
    call env (.run "all" true true)
    pure (false, true)
  else if starts_with key "mouse_" then proc_mouse env key
  else if key = "enter" then proc_enter env true
  else proc_chain_tree env key

/-- The chain of branches of the block "Input actions for proc box". The
variable `filtering` is a reference into the store, read without a call. The
result is `keep_going` and `redraw`. -/
def proc_chain (env : Env) (key : String) : Block (Bool × Bool) := do
  let st ← globals
  if st.config.getB "proc_filtering" then proc_filtering env key
  else if key = "left" then do
    let sorting ← getS env "proc_sorting"
    let cur_i : Int := (v_index st.sort_vector sorting : Int) - 1
    set_sorting env (if cur_i < 0 then (st.sort_vector.length : Int) - 1 else cur_i)
  else if key = "right" then do
    let sorting ← getS env "proc_sorting"
    let cur_i : Int := (v_index st.sort_vector sorting : Int) + 1
    set_sorting env
      (if cur_i > (((st.sort_vector.length + 2 ^ 64 - 1) % 2 ^ 64 : Nat) : Int) then 0 else cur_i)
  else if key = "f" then do
    flip env "proc_filtering"
    let filter ← getS env "proc_filter"
    text_edit env filter
    update fun st => { st with old_filter := st.proc_filter.text }
    pure (false, true)
  else if key = "e" then do
    flip env "proc_tree"
    pure (false, true)
  else if key = "r" then do
    flip env "proc_reversed"
    pure (false, true)
  else if key = "c" then do
    flip env "proc_per_core"
    pure (false, true)
  else proc_chain_delete env key

/-- The block "Input actions for proc box". -/
def proc_box (env : Env) (key : String) : Block Unit := do
  let st ← globals
  if st.proc_shown then do
    let r ← proc_chain env key
    if !r.1 then do
      call env (.run "proc" true r.2)
      leave
    else pure ()
  else pure ()

/-- The test `key == k and Config::getI("update_ms") <= bound` of the cpu box for
the key `+`, and the one with `>=` for the key `-`. -/
def interval_key (env : Env) (key k : String) (ok : Int → Bool) : Block Bool :=
  if key = k then do
    let update_ms ← getI env "update_ms"
    pure (ok update_ms)
  else pure false

/-- The test for the large step of the cpu box: `Config::getI("update_ms")` within
the inner bound `and last_press >= time_ms() - 200 and rng::all_of(...)`. The
result is the outcome of the test and the number of readings of the clock. -/
def fast_step (env : Env) (k : String) (inner : Int → Bool) : Block (Bool × Nat) := do
  let update_ms ← getI env "update_ms"
  if inner update_ms then do
    let now ← time_ms env 0
    let st ← globals
    pure (decide (st.last_press ≥ (now + 2 ^ 64 - 200) % 2 ^ 64) && history_all st k, 1)
  else pure (false, 0)

/-- The body of a step of the interval: `Config::set("update_ms",
Config::getI("update_ms") + add); last_press = time_ms();` and the redraw. -/
def interval_set (env : Env) (add : Int) (reads : Nat) : Block Unit := do
  let update_ms ← getI env "update_ms"
  setI env "update_ms" (update_ms + add)
  let now ← time_ms env reads
  update fun st => { st with last_press := now }
  call env (.run "cpu" true true)
  leave

/-- The block "Input actions for cpu box". -/
def cpu_box (env : Env) (key : String) : Block Unit := do
  let st ← globals
  if st.cpu_shown then do
    let plus ← interval_key env key "+" (fun u => decide (u ≤ 86399900))
    if plus then do
      let fast ← fast_step env "+" (fun u => decide (u ≤ 86399000))
      interval_set env (if fast.1 then 1000 else 100) fast.2
    else do
      let minus ← interval_key env key "-" (fun u => decide (u ≥ 200))
      if minus then do
        let fast ← fast_step env "-" (fun u => decide (u ≥ 2000))
        interval_set env (if fast.1 then -1000 else -100) fast.2
      else pure ()
  else pure ()

/-- The block "Input actions for mem box". -/
def mem_box (env : Env) (key : String) : Block Unit := do
  let st ← globals
  if st.mem_shown then do
    (if key = "i" then flip env "io_mode" else pure ())
    call env (.run "mem" true true)
    leave
  else pure ()

/-- The `try` block of `Input::process`. -/
def process_try (env : Env) (key : String) : Block Unit := do
  let filtering ← getB env "proc_filtering"
  if filtering = false ∧ key = "q" then quit 0
  else do
    (if filtering = false then global_box env key else pure ())
    proc_box env key
    cpu_box env key
    mem_box env key

/-- How a call of `Input::process` ends. -/
inductive Outcome
  | returned (s : State)
  | exited (code : Int) (s : State)
  | runtime_error (what : String) (s : State)

/-- The function `Input::process`. -/
def process (env : Env) (s : State) (key : String) : Outcome :=
  if empty key then .returned s
  else
    match process_try env key s with
    | .next _ s => .returned s
    | .ret s => .returned s
    | .exit code s => .exited code s
    | .throw what s => .runtime_error ("Input::process(\"" ++ key ++ "\") : " ++ what) s

/-- The state that a block ends in. -/
def Res.state {α : Type} : Res α → State
  | .next _ s => s
  | .ret s => s
  | .exit _ s => s
  | .throw _ s => s

/-- The state in which a call of `Input::process` leaves the program. -/
def Outcome.state : Outcome → State
  | .returned s => s
  | .exited _ s => s
  | .runtime_error _ s => s

/-- The same collaborators, no use of which fails. -/
def Env.reliable (env : Env) : Env := { env with fault := fun _ => none }

/-- The exception of the first use of a sequence that fails. -/
def first_fault (env : Env) : List Access → Option String
  | [] => none
  | a :: rest =>
    match env.fault a with
    | some what => some what
    | none => first_fault env rest

/-- A block run with collaborators that may fail beside the same block run
with collaborators that do not: as long as none of the uses that the second run
adds to the trace fails, both end alike; otherwise the first run ends with the
exception of the first use that fails. -/
def Sim (env : Env) {α : Type} (b b0 : Block α) : Prop :=
  ∀ s, ∃ new, (b0 s).state.accesses = s.accesses ++ new ∧
    (first_fault env new = none → b s = b0 s) ∧
    (∀ what, first_fault env new = some what → ∃ s', b s = .throw what s')

/-- The collaborators of `Input.Env.quiet`, none of which fails. -/
def Env.quiet : Env :=
  { filter_command := Input.Env.quiet.filter_command,
    selection := Input.Env.quiet.selection,
    time_ms := Input.Env.quiet.time_ms,
    mv_to := Input.Env.quiet.mv_to,
    fault := fun _ => none,
    left_first := true,
    what_out_of_range := Input.Env.quiet.what_out_of_range,
    what_stoi := Input.Env.quiet.what_stoi }

/-- Collaborators that do not fail, except a store whose `proc_selected`
cannot be read: `Config::getI("proc_selected")` throws `no such key`. -/
def Env.broken_store : Env :=
  { Env.quiet with
      fault := fun a => if a = Access.getI "proc_selected" then some "no such key" else none }

/-- Collaborators that do not fail, except `Runner::run("proc", true, true)`,
which throws `boom`. -/
def Env.broken_redraw : Env :=
  { Env.quiet with
      fault := fun a => if a = Access.call (Call.run "proc" true true) then some "boom" else none }

/-- The initial state with the process box and the memory box shown, before
any use of a collaborator. -/
def State.shown : State := { toState := Input.State.shown, accesses := [] }

/-! ### The traced blocks beside the blocks of `Input.process` -/

/-- The collaborators as the untraced blocks see them: a call of `Call` fails as
the traced one does. -/
def Env.untraced (env : Env) : Input.Env :=
  { filter_command := env.filter_command,
    selection := env.selection,
    time_ms := env.time_ms,
    mv_to := env.mv_to,
    fault := fun c => env.fault (.call c),
    what_out_of_range := env.what_out_of_range,
    what_stoi := env.what_stoi }

/-- The uses of a collaborator that are no call of `Call` do not fail. -/
def Env.store_works (env : Env) : Prop := ∀ a, (∀ c, a ≠ Access.call c) → env.fault a = none

/-- The end of a block without the trace of uses. -/
def Res.untraced {α : Type} : Res α → Input.Res α
  | .next a s => .next a s.toState
  | .ret s => .ret s.toState
  | .exit code s => .exit code s.toState
  | .throw what s => .throw what s.toState

/-- The end of `Input::process` without the trace of uses. -/
def Outcome.untraced : Outcome → Input.Outcome
  | .returned s => .returned s.toState
  | .exited code s => .exited code s.toState
  | .runtime_error what s => .runtime_error what s.toState

/-- A traced block does, apart from the trace, what the block `r` does. -/
structure Refines {α : Type} (b : Block α) (r : Input.State → Input.Res α) : Prop where
  run : ∀ s, (b s).untraced = r s.toState

/-- The branches of `Input.proc_chain` from the test of the tree keys on. -/
def untraced_chain_tree (env : Input.Env) (st : Input.State) (key : String) :
    Input.Res (Bool × Bool) :=
  if (key = "+" ∨ key = "-" ∨ key = "space") ∧ st.config.getB "proc_tree" = true
      ∧ st.config.getI "proc_selected" > 0 then
    (Input.call env .atomic_wait st).bind fun _ st =>
    let pid := st.config.getI "selected_pid"
    let st := if key = "+" ∨ key = "space" then { st with proc_expand := pid } else st
    let st := if key = "-" ∨ key = "space" then { st with proc_collapse := pid } else st
    .next (false, true) st
  else if key = "t" ∨ key = "k" ∨ key = "s" then
    (Input.call env (.debug key) st).bind fun _ st => .ret st
  else if key = "up" ∨ key = "down" ∨ key = "page_up" ∨ key = "page_down" ∨ key = "home"
      ∨ key = "end" then
    Input.proc_scroll env st key
  else
    .next (true, true) st

/-- The branches of `Input.proc_chain` from the test of the key `delete` on. -/
def untraced_chain_delete (env : Input.Env) (st : Input.State) (key : String) :
    Input.Res (Bool × Bool) :=
  if key = "delete" ∧ empty (st.config.getS "proc_filter") = false then
    .next (false, true) { st with config := st.config.setS "proc_filter" "" }
  else if key = "\xc3\xb6" then
    let st :=
      if empty st.overlay then
        { st with overlay := env.mv_to (Int.tdiv st.term_height 2) (Int.tdiv st.term_width 2)
                    ++ "\x1b[1;32mTESTING" }
      else { st with overlay := "" }
    (Input.call env (.run "all" true true) st).bind fun _ st => .next (false, true) st
  else if starts_with key "mouse_" then
    Input.proc_mouse env st key
  else if key = "enter" then
    Input.proc_enter st true
  else untraced_chain_tree env st key

end Traced

end Input

/-! # Lemmas -/

namespace Input

/-! ### Decimal notation read back by `stoi` -/

theorem digitChar_isDigit (k : Nat) (hk : k < 10) :
    (Nat.digitChar k).isDigit = true ∧ (Nat.digitChar k).toNat - '0'.toNat = k := by
  interval_cases k <;> decide

theorem toDigitsCore_isDec (fuel : Nat) : ∀ (n : Nat) (ds : List Char), n < fuel →
    ∃ pre, Nat.toDigitsCore 10 fuel n ds = pre ++ ds ∧ IsDec pre n := by
  induction fuel with
  | zero => intro n ds h; omega
  | succ fuel ih =>
    intro n ds hn
    obtain ⟨hd, hv⟩ := digitChar_isDigit (n % 10) (Nat.mod_lt _ (by decide))
    by_cases h0 : n / 10 = 0
    · refine ⟨[Nat.digitChar (n % 10)], by simp [Nat.toDigitsCore, h0], ?_, ?_, ?_⟩
      · simp
      · intro c hc
        simp only [List.mem_singleton] at hc
        rw [hc]; exact hd
      · intro rest acc
        have hlt : n % 10 = n := by omega
        rw [List.singleton_append, scanDigits, if_pos hd, hv, List.length_singleton, pow_one, hlt]
    · obtain ⟨pre, hpre, hdec⟩ := ih (n / 10) (Nat.digitChar (n % 10) :: ds) (by omega)
      refine ⟨pre ++ [Nat.digitChar (n % 10)], ?_, ?_, ?_, ?_⟩
      · simp [Nat.toDigitsCore, h0, hpre]
      · simp
      · intro c hc
        rcases List.mem_append.1 hc with h | h
        · exact hdec.digits c h
        · simp only [List.mem_singleton] at h
          rw [h]; exact hd
      · intro rest acc
        rw [List.append_assoc, hdec.scan, List.singleton_append, scanDigits, if_pos hd, hv,
          List.length_append, List.length_singleton]
        congr 1
        rw [pow_succ]
        nlinarith [Nat.div_add_mod n 10]

theorem toDigits_isDec (n : Nat) : IsDec (Nat.toDigits 10 n) n := by
  obtain ⟨pre, hpre, hdec⟩ := toDigitsCore_isDec (n + 1) n [] (by omega)
  simp only [List.append_nil] at hpre
  rw [Nat.toDigits, hpre]
  exact hdec

theorem toDigits_length_le (n : Nat) (h : n < 10 ^ 10) : (Nat.toDigits 10 n).length ≤ 10 :=
  Nat.toDigitsCore_length 10 (by decide) (n + 1) n 10 h (by decide)

theorem isDigit_props (c : Char) (h : c.isDigit = true) :
    isspace c = false ∧ c ≠ '-' ∧ c ≠ '+' ∧ c ≠ ';' ∧ c ≠ 'M' := by
  refine ⟨?_, ?_, ?_, ?_, ?_⟩
  · simp only [isspace, Bool.or_eq_false_iff, decide_eq_false_iff_not]
    refine ⟨⟨⟨⟨⟨?_, ?_⟩, ?_⟩, ?_⟩, ?_⟩, ?_⟩ <;> (rintro rfl; revert h; decide)
  all_goals (rintro rfl; revert h; decide)

theorem scanDigits_stop (rest : List Char) (n : Nat)
    (hrest : ∀ c ∈ rest.head?, c.isDigit = false) : scanDigits rest n = n := by
  cases rest with
  | nil => rfl
  | cons x xs =>
    have hx : x.isDigit = false := hrest x (by simp)
    simp [scanDigits, hx]

theorem stoiDigits_isDec {s : List Char} {n : Nat} (h : IsDec s n) (neg : Bool)
    (rest : List Char) (hrest : ∀ c ∈ rest.head?, c.isDigit = false) :
    stoiDigits neg (s ++ rest) =
      if INT_MIN ≤ (if neg then -(n : Int) else n) ∧ (if neg then -(n : Int) else n) ≤ INT_MAX
      then .ok (if neg then -(n : Int) else n) else .error .out_of_range := by
  obtain ⟨hne, hdig, hscan⟩ := h
  cases s with
  | nil => exact absurd rfl hne
  | cons d s' =>
    have hd : d.isDigit = true := hdig d (by simp)
    have hval : scanDigits (d :: s' ++ rest) 0 = n := by
      rw [hscan rest 0, scanDigits_stop rest _ hrest]; simp
    simp only [List.cons_append] at hval ⊢
    simp only [stoiDigits, hd, if_true, hval]

theorem stoi_isDec {s : List Char} {n : Nat} (h : IsDec s n) (rest : List Char) :
    stoi ⟨s ++ rest⟩ = stoiDigits false (s ++ rest) := by
  obtain ⟨hne, hdig, _⟩ := h
  cases s with
  | nil => exact absurd rfl hne
  | cons d s' =>
    obtain ⟨h1, h2, h3, _, _⟩ := isDigit_props d (hdig d (by simp))
    simp only [stoi, List.cons_append, List.dropWhile_cons, h1]
    split
    · rename_i heq; simp only [Bool.false_eq_true, if_false, List.cons.injEq] at heq
      exact absurd heq.1 h2
    · rename_i heq; simp only [Bool.false_eq_true, if_false, List.cons.injEq] at heq
      exact absurd heq.1 h3
    · simp

theorem stoi_neg_isDec {s : List Char} {n : Nat} (_h : IsDec s n) (rest : List Char) :
    stoi ⟨'-' :: (s ++ rest)⟩ = stoiDigits true (s ++ rest) := by
  have h1 : isspace '-' = false := by decide
  simp only [stoi, List.dropWhile_cons, h1]
  simp

/-- Reading back with `std::stoi` what `std::to_string` wrote, whatever follows
the digits. -/
theorem stoi_to_string (c : Int) (hlo : INT_MIN ≤ c) (hhi : c ≤ INT_MAX)
    (rest : List Char) (hrest : ∀ x ∈ rest.head?, x.isDigit = false) :
    stoi ⟨(to_string c).data ++ rest⟩ = .ok c := by
  cases c with
  | ofNat m =>
    have hd := toDigits_isDec m
    simp only [to_string]
    rw [stoi_isDec hd rest, stoiDigits_isDec hd false rest hrest]
    simp only [Bool.false_eq_true, if_false]
    rw [if_pos]
    · rfl
    · exact ⟨hlo, hhi⟩
  | negSucc m =>
    have hd := toDigits_isDec (m + 1)
    simp only [to_string, List.cons_append]
    rw [stoi_neg_isDec hd rest, stoiDigits_isDec hd true rest hrest]
    simp only [if_true]
    have e : -((m + 1 : Nat) : Int) = Int.negSucc m := by
      rw [Int.negSucc_eq]; push_cast; ring
    rw [e, if_pos ⟨hlo, hhi⟩]

/-- The characters of `std::to_string` of an `int` in range: at most 11, none of
them a semicolon or an `M`. -/
theorem to_string_chars (c : Int) (hlo : INT_MIN ≤ c) (hhi : c ≤ INT_MAX) :
    (to_string c).data.length ≤ 11 ∧ ';' ∉ (to_string c).data ∧ 'M' ∉ (to_string c).data := by
  cases c with
  | ofNat m =>
    have hd := toDigits_isDec m
    have hm : m < 10 ^ 10 := by
      simp only [INT_MAX, Int.ofNat_eq_coe] at hhi
      omega
    refine ⟨?_, ?_, ?_⟩
    · simp only [to_string]
      exact le_trans (toDigits_length_le m hm) (by decide)
    · intro hmem
      exact (isDigit_props _ (hd.digits _ hmem)).2.2.2.1 rfl
    · intro hmem
      exact (isDigit_props _ (hd.digits _ hmem)).2.2.2.2 rfl
  | negSucc m =>
    have hd := toDigits_isDec (m + 1)
    have hm : m + 1 < 10 ^ 10 := by
      simp only [INT_MIN] at hlo
      have := Int.negSucc_eq m
      omega
    refine ⟨?_, ?_, ?_⟩
    · simp only [to_string, List.length_cons]
      have := toDigits_length_le (m + 1) hm
      omega
    · intro hmem
      simp only [to_string, List.mem_cons] at hmem
      rcases hmem with h | h
      · exact absurd h (by decide)
      · exact (isDigit_props _ (hd.digits _ h)).2.2.2.1 rfl
    · intro hmem
      simp only [to_string, List.mem_cons] at hmem
      rcases hmem with h | h
      · exact absurd h (by decide)
      · exact (isDigit_props _ (hd.digits _ h)).2.2.2.2 rfl

theorem findFrom_append (c : Char) (l r : List Char) (i : Nat) (h : c ∉ l) :
    findFrom c (l ++ c :: r) i = some (i + l.length) := by
  induction l generalizing i with
  | nil => simp [findFrom]
  | cons x xs ih =>
    have hx : x ≠ c := fun e => h (by simp [e])
    have hxs : c ∉ xs := fun e => h (by simp [e])
    rw [List.cons_append, findFrom, if_neg hx, ih (i + 1) hxs, List.length_cons]
    exact congrArg some (by omega)

theorem map_click_none (m : List (String × Mouse_loc)) (c l : Int) (key : String)
    (h : ∀ e ∈ m, in_rect c l e.2 = false) : map_click m c l key = key := by
  induction m with
  | nil => rfl
  | cons e rest ih =>
    obtain ⟨k, pos⟩ := e
    have h1 : in_rect c l pos = false := h (k, pos) (by simp)
    simp only [map_click, h1, Bool.false_eq_true, if_false]
    exact ih (fun e he => h e (by simp [he]))

theorem map_click_some (m : List (String × Mouse_loc)) (c l : Int) (key : String)
    (h : ∃ e ∈ m, in_rect c l e.2 = true) :
    ∃ e ∈ m, in_rect c l e.2 = true ∧ map_click m c l key = e.1 := by
  induction m with
  | nil => simp at h
  | cons e rest ih =>
    obtain ⟨k, pos⟩ := e
    by_cases h1 : in_rect c l pos = true
    · exact ⟨(k, pos), by simp, h1, by simp [map_click, h1]⟩
    · have hrest : ∃ e ∈ rest, in_rect c l e.2 = true := by
        obtain ⟨e, he, hin⟩ := h
        rcases List.mem_cons.1 he with rfl | he
        · exact absurd hin h1
        · exact ⟨e, he, hin⟩
      obtain ⟨e, he, hin, hmap⟩ := ih hrest
      exact ⟨e, by simp [he], hin, by simp [map_click, h1, hmap]⟩

/-- The `try` block on the view `<col>;<line>M` of a click burst. -/
theorem parse_mouse_pos_click (c l : Int) (hc : INT_MIN ≤ c ∧ c ≤ INT_MAX)
    (hl : INT_MIN ≤ l ∧ l ≤ INT_MAX) (ev : String) (mp : Int × Int) :
    parse_mouse_pos ⟨(to_string c).data ++ ';' :: ((to_string l).data ++ ['M'])⟩ ev mp
      = (ev, (c, l)) := by
  obtain ⟨hclen, hcsemi, _⟩ := to_string_chars c hc.1 hc.2
  obtain ⟨hllen, _, hlM⟩ := to_string_chars l hl.1 hl.2
  have hdelim : find ⟨(to_string c).data ++ ';' :: ((to_string l).data ++ ['M'])⟩ ';' 0
      = (to_string c).data.length := by
    simp only [find, List.drop_zero, findFrom_append _ _ _ 0 hcsemi, Nat.zero_add]
  have hM : find ⟨(to_string c).data ++ ';' :: ((to_string l).data ++ ['M'])⟩ 'M'
      (to_string c).data.length
      = (to_string c).data.length + 1 + (to_string l).data.length := by
    simp only [find, List.drop_left]
    rw [findFrom, if_neg (by decide), findFrom_append _ _ _ _ hlM]
  have hs0 : substr ⟨(to_string c).data ++ ';' :: ((to_string l).data ++ ['M'])⟩ 0
      (to_string c).data.length = some ⟨(to_string c).data ++ []⟩ := by
    simp [substr, size]
  have hmod : ((to_string c).data.length + 1) % 2 ^ 64 = (to_string c).data.length + 1 :=
    Nat.mod_eq_of_lt (by omega)
  have hs1 : substr ⟨(to_string c).data ++ ';' :: ((to_string l).data ++ ['M'])⟩
      ((to_string c).data.length + 1)
      ((to_string c).data.length + 1 + (to_string l).data.length)
      = some ⟨(to_string l).data ++ ['M']⟩ := by
    have hd : List.drop ((to_string c).data.length + 1)
        ((to_string c).data ++ ';' :: ((to_string l).data ++ ['M']))
        = (to_string l).data ++ ['M'] := by
      rw [← List.drop_drop, List.drop_left]
      rfl
    have hsz : ¬ ((to_string c).data.length + 1 >
        size ⟨(to_string c).data ++ ';' :: ((to_string l).data ++ ['M'])⟩) := by
      simp [size]
    rw [substr, if_neg hsz]
    simp only [hd]
    rw [List.take_of_length_le]
    simp only [List.length_append, List.length_singleton]
    omega
  have hstoi0 := stoi_to_string c hc.1 hc.2 [] (by simp)
  have hstoi1 := stoi_to_string l hl.1 hl.2 ['M'] (by simp)
  simp only [parse_mouse_pos, hdelim, hs0, hstoi0, hmod, hM, hs1, hstoi1]

/-- The bytes of a click burst. -/
theorem click_burst_data (c l : Int) :
    ("\x1b[<0;" ++ to_string c ++ ";" ++ to_string l ++ "M").data
      = '\x1b' :: '[' :: '<' :: '0' :: ';' ::
          ((to_string c).data ++ ';' :: ((to_string l).data ++ ['M'])) := by
  simp only [String.data_append]
  show (['\x1b', '[', '<', '0', ';'] ++ (to_string c).data ++ [';'] ++ (to_string l).data
    ++ ['M']) = _
  simp

/-- The result of `Input::get` on a click burst, outside filter editing and
menus: the position is stored and the click goes through the mapped
rectangles. -/
theorem get_click (st : State) (c l : Int)
    (hf : st.config.getB "proc_filtering" = false) (hm : st.menu_active = false)
    (hc : INT_MIN ≤ c ∧ c ≤ INT_MAX) (hl : INT_MIN ≤ l ∧ l ≤ INT_MAX) :
    get st ("\x1b[<0;" ++ to_string c ++ ";" ++ to_string l ++ "M")
      = (map_click st.mouse_mappings c l "mouse_click",
         push_history { st with mouse_pos := (c, l) }
           (map_click st.mouse_mappings c l "mouse_click")) := by
  obtain ⟨hclen, _, _⟩ := to_string_chars c hc.1 hc.2
  obtain ⟨hllen, _, _⟩ := to_string_chars l hl.1 hl.2
  have htake : List.take 100 ('\x1b' :: '[' :: '<' :: '0' :: ';' ::
      ((to_string c).data ++ ';' :: ((to_string l).data ++ ['M'])))
      = '\x1b' :: '[' :: '<' :: '0' :: ';' ::
      ((to_string c).data ++ ';' :: ((to_string l).data ++ ['M'])) := by
    apply List.take_of_length_le
    simp only [List.length_cons, List.length_append, List.length_singleton, List.length_nil]
    omega
  have hcls : classify_mouse ⟨'[' :: '<' :: '0' :: ';' ::
      ((to_string c).data ++ ';' :: ((to_string l).data ++ ['M']))⟩
      = ("mouse_click", ⟨(to_string c).data ++ ';' :: ((to_string l).data ++ ['M'])⟩,
         ⟨'[' :: '<' :: '0' :: ';' ::
          ((to_string c).data ++ ';' :: ((to_string l).data ++ ['M']))⟩) := by
    have h1 : starts_with ⟨'[' :: '<' :: '0' :: ';' ::
      ((to_string c).data ++ ';' :: ((to_string l).data ++ ['M']))⟩ "[<0;" = true := by
      show List.isPrefixOf ['[', '<', '0', ';'] _ = true
      simp [List.isPrefixOf]
    have h2 : ends_with ⟨'[' :: '<' :: '0' :: ';' ::
      ((to_string c).data ++ ';' :: ((to_string l).data ++ ['M']))⟩ 'M' = true := by
      have : '[' :: '<' :: '0' :: ';' ::
          ((to_string c).data ++ ';' :: ((to_string l).data ++ ['M']))
          = ('[' :: '<' :: '0' :: ';' :: ((to_string c).data ++ ';' :: (to_string l).data))
            ++ ['M'] := by simp
      simp only [ends_with, this, List.getLast?_append, List.getLast?_singleton]
      simp
    simp only [classify_mouse, h1, h2, Bool.and_self, if_true, remove_prefix]
    rfl
  have hpre : starts_with ⟨'[' :: '<' :: '0' :: ';' ::
      ((to_string c).data ++ ';' :: ((to_string l).data ++ ['M']))⟩ "[<" = true := by
    show List.isPrefixOf ['[', '<'] _ = true
    simp [List.isPrefixOf]
  have hsub : substr ⟨'\x1b' :: '[' :: '<' :: '0' :: ';' ::
      ((to_string c).data ++ ';' :: ((to_string l).data ++ ['M']))⟩ 0 2 = some Fx.e := by
    simp [substr, size]
    rfl
  have herase : erase ⟨'\x1b' :: '[' :: '<' :: '0' :: ';' ::
      ((to_string c).data ++ ';' :: ((to_string l).data ++ ['M']))⟩ 0 1
      = ⟨'[' :: '<' :: '0' :: ';' ::
      ((to_string c).data ++ ';' :: ((to_string l).data ++ ['M']))⟩ := by
    simp [erase]
  have hne1 : empty ⟨'\x1b' :: '[' :: '<' :: '0' :: ';' ::
      ((to_string c).data ++ ';' :: ((to_string l).data ++ ['M']))⟩ = false := rfl
  have hne2 : empty ⟨'[' :: '<' :: '0' :: ';' ::
      ((to_string c).data ++ ';' :: ((to_string l).data ++ ['M']))⟩ = false := rfl
  unfold get get_mouse read_key strip_escape
  rw [click_burst_data, htake]
  simp only [hne1, Bool.not_false, if_true, hsub, herase, hpre, hcls, hf, hne2,
    Bool.false_eq_true, if_false, parse_mouse_pos_click c l hc hl, hm, Bool.true_and,
    decide_True]

theorem get_mouse_frame (st : State) (key : String) :
    (st.config.getB "proc_filtering" = true →
      (get_mouse st key).2.history = st.history ∧
      (get_mouse st key).2.mouse_pos = st.mouse_pos) ∧
    (st.config.getB "proc_filtering" = false →
      (get_mouse st key).2.history = (st.history ++ [(get_mouse st key).1]).tail) := by
  unfold get_mouse
  rcases classify_mouse key with ⟨ev, kv, k⟩
  rcases hp : parse_mouse_pos kv ev st.mouse_pos with ⟨ev2, mp⟩
  cases hb : st.config.getB "proc_filtering" with
  | true =>
    refine ⟨fun _ => ?_, fun h => absurd h (by simp)⟩
    simp only [if_true]
    split_ifs <;> exact ⟨rfl, rfl⟩
  | false =>
    refine ⟨fun h => absurd h (by simp), fun _ => ?_⟩
    simp only [hp, Bool.false_eq_true, if_false]
    split_ifs <;> rfl

theorem get_key_frame (st : State) (key : String) :
    (get_key st key).2.history = (st.history ++ [(get_key st key).1]).tail ∧
    (get_key st key).2.mouse_pos = st.mouse_pos := by
  unfold get_key
  generalize lookup Key_escapes key = r
  cases r with
  | none => simp [push_history]
  | some name => simp [push_history]

/-- The body of `Input::get` with its local variables written out. -/
theorem get_eq (st : State) (pending : String) :
    get st pending =
      if (!empty (read_key pending)) = true then
        (if starts_with (strip_escape (read_key pending)) "[<" = true then
          get_mouse st (strip_escape (read_key pending))
        else get_key st (strip_escape (read_key pending)))
      else (read_key pending, st) := rfl

/-- What every call of `Input::get` does to the history and to `mouse_pos`: the
history is left alone for an empty burst and for a mouse burst in filter
editing, otherwise the returned key is pushed and the oldest entry popped;
`mouse_pos` is left alone in filter editing and for a burst that is not a mouse
burst. -/
theorem get_frame (st : State) (pending : String) :
    ((empty (read_key pending) = true ∨
        (starts_with (strip_escape (read_key pending)) "[<" = true ∧
          st.config.getB "proc_filtering" = true)) →
      (get st pending).2.history = st.history) ∧
    (¬ (empty (read_key pending) = true ∨
        (starts_with (strip_escape (read_key pending)) "[<" = true ∧
          st.config.getB "proc_filtering" = true)) →
      (get st pending).2.history = (st.history ++ [(get st pending).1]).tail) ∧
    ((st.config.getB "proc_filtering" = true ∨
        starts_with (strip_escape (read_key pending)) "[<" = false) →
      (get st pending).2.mouse_pos = st.mouse_pos) := by
  rw [get_eq]
  generalize strip_escape (read_key pending) = key
  generalize read_key pending = key0
  obtain ⟨m1, m2⟩ := get_mouse_frame st key
  obtain ⟨k1, k2⟩ := get_key_frame st key
  cases h1 : empty key0 with
  | true => simp
  | false =>
    cases h2 : starts_with key "[<" with
    | true =>
      simp only [Bool.not_false, if_true]
      refine ⟨?_, ?_, ?_⟩
      · rintro (h | ⟨_, h⟩)
        · exact absurd h (by simp)
        · exact (m1 h).1
      · intro h
        apply m2
        cases hb : st.config.getB "proc_filtering" with
        | false => rfl
        | true => exact absurd (Or.inr ⟨trivial, hb⟩) h
      · rintro (h | h)
        · exact (m1 h).2
        · exact absurd h (by simp)
    | false =>
      simp only [Bool.not_false, if_true, Bool.false_eq_true, if_false]
      refine ⟨?_, fun _ => k1, fun _ => k2⟩
      rintro (h | ⟨h, _⟩) <;> exact absurd h (by simp)

/-! ### What `Input::get` does to `mouse_pos` -/

/-- The pass of `Input::poll` that ends the wait before the time is over: when
the first `k` passes saw neither the flag nor bytes, and pass `k` sees the flag
or bytes, the function returns there, after `k` sleeps of 10 ms, with the flag
cleared; the returned value is `false` when the flag was seen. -/
theorem poll_loop_wake (k : Nat) : ∀ (fuel : Nat) (w : World) (timeout : Int) (flag : Bool)
    (sleeps : List Int), 10 * (k : Int) < timeout → timeout ≤ fuel →
    (∀ j < k, w.in_avail j = false) → (∀ j < k, flag_at w flag j = false) →
    (flag_at w flag k = true ∨ w.in_avail k = true) →
    poll_loop fuel w timeout flag sleeps
      = some { ret := !(flag_at w flag k), interrupt := false,
               sleeps := sleeps ++ List.replicate k 10 } := by
  induction k with
  | zero =>
    intro fuel w timeout flag sleeps ht hfuel _ _ hk
    cases fuel with
    | zero => simp at ht hfuel; omega
    | succ f =>
      have hpos : timeout > 0 := by simpa using ht
      simp only [flag_at] at hk ⊢
      cases flag with
      | true => simp [poll_loop, hpos]
      | false =>
        have hav : w.in_avail 0 = true := by simpa using hk
        simp [poll_loop, hpos, hav]
  | succ k ih =>
    intro fuel w timeout flag sleeps ht hfuel hav hno hk
    have hpos : timeout > 0 := by push_cast at ht; omega
    have h10 : ¬ timeout < 10 := by push_cast at ht; omega
    cases fuel with
    | zero => simp at hfuel; omega
    | succ f =>
      have hflag : flag = false := by simpa [flag_at] using hno 0 (Nat.succ_pos k)
      have hav0 : w.in_avail 0 = false := hav 0 (Nat.succ_pos k)
      have hrec := ih f w.shift (timeout - 10) (flag || w.raise 0)
        (sleeps ++ [if timeout < 10 then timeout else 10])
        (by push_cast at ht; omega) (by push_cast at hfuel; omega)
        (fun j hj => hav (j + 1) (Nat.succ_lt_succ hj))
        (fun j hj => hno (j + 1) (Nat.succ_lt_succ hj)) hk
      rw [poll_loop, if_pos hpos, hflag, if_neg (by simp), hav0, if_neg (by simp)]
      rw [hflag] at hrec
      rw [hrec]
      simp only [flag_at, if_neg h10, List.append_assoc, List.singleton_append,
        List.replicate_succ]

/-! ### `Input::process`, key by key -/

theorem process_flip_proc_tree (env : Env) (st : State)
    (hf : st.config.getB "proc_filtering" = false) (hp : st.proc_shown = true) :
    (process env st "e").state
      = after_call env (.run "proc" true true) { st with config := st.config.flip "proc_tree" } := by
  simp only [after_call]
  simp [process, process_try, global_box, proc_box, proc_chain, hf, hp, empty, Res.bind, call]
  cases env.fault (.run "proc" true true) <;> simp [Outcome.state, ← hp]

theorem process_flip_proc_reversed (env : Env) (st : State)
    (hf : st.config.getB "proc_filtering" = false) (hp : st.proc_shown = true) :
    (process env st "r").state
      = after_call env (.run "proc" true true)
          { st with config := st.config.flip "proc_reversed" } := by
  simp only [after_call]
  simp [process, process_try, global_box, proc_box, proc_chain, hf, hp, empty, Res.bind, call]
  cases env.fault (.run "proc" true true) <;> simp [Outcome.state, ← hp]

theorem process_flip_proc_per_core (env : Env) (st : State)
    (hf : st.config.getB "proc_filtering" = false) (hp : st.proc_shown = true) :
    (process env st "c").state
      = after_call env (.run "proc" true true)
          { st with config := st.config.flip "proc_per_core" } := by
  simp only [after_call]
  simp [process, process_try, global_box, proc_box, proc_chain, hf, hp, empty, Res.bind, call]
  cases env.fault (.run "proc" true true) <;> simp [Outcome.state, ← hp]

theorem process_filter_on (env : Env) (st : State)
    (hf : st.config.getB "proc_filtering" = false) (hp : st.proc_shown = true) :
    (process env st "f").state
      = after_call env (.run "proc" true true)
          { st with config := st.config.flip "proc_filtering",
                    proc_filter := TextEdit.ofText (st.config.getS "proc_filter"),
                    old_filter := st.config.getS "proc_filter" } := by
  simp only [after_call]
  simp [process, process_try, global_box, proc_box, proc_chain, hf, hp, empty, Res.bind, call]
  cases env.fault (.run "proc" true true) <;>
    simp [Outcome.state, ← hp, TextEdit.ofText, Config.flip, Config.getS, Config.setB]

theorem process_flip_io_mode (env : Env) (st : State)
    (hf : st.config.getB "proc_filtering" = false) (hm : st.mem_shown = true) :
    (process env st "i").state
      = after_call env (.run "mem" true true) { st with config := st.config.flip "io_mode" } := by
  have hs : starts_with "i" "mouse_" = false := by decide
  simp only [after_call]
  cases hp : st.proc_shown <;> cases hc : st.cpu_shown <;>
    simp [process, process_try, global_box, proc_box, proc_chain, cpu_box, mem_box, hf, hp, hc,
      hm, hs, empty, Res.bind, call] <;>
    cases env.fault (.run "mem" true true) <;> simp [Outcome.state, ← hp, ← hc, ← hm]

@[simp]
theorem after_call_config (env : Env) (c : Call) (st : State) :
    (after_call env c st).config = st.config := by
  unfold after_call; cases env.fault c <;> rfl

@[simp]
theorem after_call_proc_shown (env : Env) (c : Call) (st : State) :
    (after_call env c st).proc_shown = st.proc_shown := by
  unfold after_call; cases env.fault c <;> rfl

@[simp]
theorem after_call_cpu_shown (env : Env) (c : Call) (st : State) :
    (after_call env c st).cpu_shown = st.cpu_shown := by
  unfold after_call; cases env.fault c <;> rfl

@[simp]
theorem after_call_mem_shown (env : Env) (c : Call) (st : State) :
    (after_call env c st).mem_shown = st.mem_shown := by
  unfold after_call; cases env.fault c <;> rfl

@[simp]
theorem after_call_old_filter (env : Env) (c : Call) (st : State) :
    (after_call env c st).old_filter = st.old_filter := by
  unfold after_call; cases env.fault c <;> rfl

@[simp]
theorem after_call_history (env : Env) (c : Call) (st : State) :
    (after_call env c st).history = st.history := by
  unfold after_call; cases env.fault c <;> rfl

/-- In filter editing with the process box shown, a key other than `enter`,
`escape` and `mouse_click` goes to the line editor: the box stays shown, filter
editing stays on, the remembered filter text and every boolean of the
configuration stay as they are. -/
theorem process_filter_edit (env : Env) (st : State) (key : String)
    (hp : st.proc_shown = true) (hf : st.config.getB "proc_filtering" = true)
    (h1 : key ≠ "enter") (h2 : key ≠ "escape") (h3 : key ≠ "mouse_click") :
    (process env st key).state.proc_shown = true ∧
    (process env st key).state.config.bools = st.config.bools ∧
    (process env st key).state.old_filter = st.old_filter := by
  by_cases he : empty key = true
  · simp [process, he, Outcome.state, hp]
  · simp only [process, he, process_try, global_box, proc_box, proc_chain, proc_filtering, hf, hp,
      h1, h2, h3, Res.bind, call, if_true, if_false, false_and, or_self, Bool.true_eq_false,
      Bool.false_eq_true]
    cases env.fault (.filter_command key) with
    | some what => simp [Outcome.state, hp]
    | none =>
      simp only []
      cases (env.filter_command st.proc_filter key).1 with
      | false => simp [Outcome.state, hp]
      | true =>
        simp only [if_true]
        split_ifs <;> simp only [Bool.not_false, if_true] <;>
          cases env.fault (.run "proc" true true) <;> simp [Outcome.state, hp, Config.setS]

/-- In filter editing with the process box shown, `escape` and `mouse_click`
leave filter editing and put the remembered filter text back. -/
theorem process_filter_cancel (env : Env) (st : State) (key : String)
    (hp : st.proc_shown = true) (hf : st.config.getB "proc_filtering" = true)
    (hk : key = "escape" ∨ key = "mouse_click") :
    (process env st key).state.config.getB "proc_filtering" = false ∧
    (process env st key).state.config.getS "proc_filter" = st.old_filter := by
  rcases hk with rfl | rfl <;>
    simp [process, process_try, global_box, proc_box, proc_chain, proc_filtering, hf, hp,
      Res.bind, call, empty] <;>
    cases env.fault (.run "proc" true true) <;>
    simp [Outcome.state, Config.getB, Config.getS, Config.setB, Config.setS]

theorem toggle_box_frame (c : Config) (box : String) :
    (c.toggle_box box).box_shown box = !c.box_shown box ∧
    (∀ other, other ≠ box → (c.toggle_box box).box_shown other = c.box_shown other) ∧
    (c.toggle_box box).bools = c.bools ∧ (c.toggle_box box).ints = c.ints ∧
    (c.toggle_box box).strings = c.strings := by
  by_cases h : box ∈ c.current_boxes
  · rw [Config.toggle_box, if_pos h]
    refine ⟨?_, ?_, rfl, rfl, rfl⟩
    · simp [Config.box_shown, h]
    · intro other ho
      simp [Config.box_shown, List.mem_filter, ho]
  · rw [Config.toggle_box, if_neg h]
    refine ⟨?_, ?_, rfl, rfl, rfl⟩
    · simp [Config.box_shown, h]
    · intro other ho
      simp [Config.box_shown, ho]

/-- A digit key outside filter editing, when neither collaborator fails. -/
theorem process_digit (env : Env) (st : State) (key box : String)
    (hf : st.config.getB "proc_filtering" = false)
    (hk : (key, box) ∈ [("1", "cpu"), ("2", "mem"), ("3", "net"), ("4", "proc")])
    (h1 : env.fault (.toggle_box box) = none) (h2 : env.fault (.term_resize true) = none) :
    process env st key
      = .returned { st with config := st.config.toggle_box box,
                            calls := st.calls ++ [.toggle_box box, .term_resize true] } := by
  simp only [List.mem_cons, Prod.mk.injEq, List.mem_singleton, List.not_mem_nil, or_false] at hk
  rcases hk with ⟨rfl, rfl⟩ | ⟨rfl, rfl⟩ | ⟨rfl, rfl⟩ | ⟨rfl, rfl⟩
  · have hs : stoi "1" = .ok 1 := rfl
    simp [process, process_try, global_box, global_toggle, hs, vec_at, boxes, hf, empty,
      Res.bind, call, h1, h2]
  · have hs : stoi "2" = .ok 2 := rfl
    simp [process, process_try, global_box, global_toggle, hs, vec_at, boxes, hf, empty,
      Res.bind, call, h1, h2]
  · have hs : stoi "3" = .ok 3 := rfl
    simp [process, process_try, global_box, global_toggle, hs, vec_at, boxes, hf, empty,
      Res.bind, call, h1, h2]
  · have hs : stoi "4" = .ok 4 := rfl
    simp [process, process_try, global_box, global_toggle, hs, vec_at, boxes, hf, empty,
      Res.bind, call, h1, h2]

theorem history_all_of (st : State) (k : String) (h : ∀ e ∈ st.history, e = k) :
    history_all st k = true := by
  simp only [history_all, List.all_eq_true, beq_iff_eq]
  exact h

/-- The key `+` in the cpu box at 86,399,000 ms with a history made of `+` only
and a previous press less than 200 ms old: the step is 1000 ms. -/
theorem process_plus_fast (env : Env) (st : State) (hc : st.cpu_shown = true)
    (hproc : plus_passes_proc st) (hu : st.config.getI "update_ms" = 86399000)
    (hh : ∀ e ∈ st.history, e = "+") (hnow : env.time_ms 0 < 2 ^ 64)
    (h200 : 200 ≤ env.time_ms 0) (hlt : env.time_ms 0 < st.last_press + 200) :
    (process env st "+").state
      = after_call env (.run "cpu" true true)
          { st with config := st.config.setI "update_ms" 86400000,
                    last_press := clock env 1 } := by
  have hs : starts_with "+" "mouse_" = false := by decide
  have hall := history_all_of st "+" hh
  have hclk : (clock env 0 + 18446744073709551416) % 18446744073709551616 ≤ st.last_press := by
    have : clock env 0 = env.time_ms 0 := Nat.mod_eq_of_lt hnow
    rw [this]
    norm_num at hnow
    omega
  simp only [after_call]
  rcases hproc with hp | ⟨hf, hsel⟩
  · cases hf : st.config.getB "proc_filtering" <;>
      simp [process, process_try, global_box, proc_box, cpu_box, hf, hp, hc, hu, hall, hclk,
        empty, Res.bind, call] <;>
      cases env.fault (.run "cpu" true true) <;> simp [Outcome.state, ← hp, ← hc]
  · have hsel' : ¬ (st.config.getB "proc_tree" = true ∧ 0 < st.config.getI "proc_selected") :=
      hsel
    cases hp : st.proc_shown <;>
      simp [process, process_try, global_box, proc_box, proc_chain, cpu_box, hf, hp, hc, hu,
        hall, hclk, hs, hsel', empty, Res.bind, call] <;>
      cases env.fault (.run "cpu" true true) <;> simp [Outcome.state, ← hp, ← hc]

/-- The key `+` in the cpu box above 86,399,900 ms: the configuration is left
as it is. -/
theorem process_plus_at_max (env : Env) (st : State) (hproc : plus_passes_proc st)
    (hu : st.config.getI "update_ms" > 86399900) :
    (process env st "+").state.config = st.config := by
  have hs : starts_with "+" "mouse_" = false := by decide
  have hu' : ¬ st.config.getI "update_ms" ≤ 86399900 := not_le.mpr hu
  rcases hproc with hp | ⟨hf, hsel⟩
  · cases hf : st.config.getB "proc_filtering" <;> cases hc : st.cpu_shown <;>
      cases hm : st.mem_shown <;>
      simp [process, process_try, global_box, proc_box, cpu_box, mem_box, hf, hp, hc, hm, hu',
        empty, Res.bind, call, Outcome.state] <;>
      cases env.fault (.run "mem" true true) <;> simp [Outcome.state]
  · have hsel' : ¬ (st.config.getB "proc_tree" = true ∧ 0 < st.config.getI "proc_selected") :=
      hsel
    cases hp : st.proc_shown <;> cases hc : st.cpu_shown <;> cases hm : st.mem_shown <;>
      simp [process, process_try, global_box, proc_box, proc_chain, cpu_box, mem_box, hf, hp,
        hc, hm, hu', hs, hsel', empty, Res.bind, call, Outcome.state] <;>
      cases env.fault (.run "mem" true true) <;> simp [Outcome.state]

/-- Filter editing goes on through any sequence of keys other than `enter`,
`escape` and `mouse_click`. -/
theorem process_all_filter_edit (steps : List (Env × String)) : ∀ (st : State),
    st.proc_shown = true → st.config.getB "proc_filtering" = true →
    (∀ s ∈ steps, s.2 ≠ "enter" ∧ s.2 ≠ "escape" ∧ s.2 ≠ "mouse_click") →
    (process_all st steps).proc_shown = true ∧
    (process_all st steps).config.getB "proc_filtering" = true ∧
    (process_all st steps).old_filter = st.old_filter := by
  induction steps with
  | nil => intro st hp hf _; exact ⟨hp, hf, rfl⟩
  | cons s rest ih =>
    intro st hp hf hk
    obtain ⟨env, key⟩ := s
    obtain ⟨h1, h2, h3⟩ := hk (env, key) (by simp)
    obtain ⟨hp', hb, ho⟩ := process_filter_edit env st key hp hf h1 h2 h3
    have hf' : (process env st key).state.config.getB "proc_filtering" = true := by
      rw [Config.getB, hb]; exact hf
    obtain ⟨r1, r2, r3⟩ := ih (process env st key).state hp' hf'
      (fun s hs => hk s (by simp [hs]))
    exact ⟨r1, r2, r3.trans ho⟩

/-- A call of `Input::get` that returns a non-empty key has read a non-empty burst. -/
theorem get_nonempty (st : State) (pending : String) (h : (get st pending).1 ≠ "") :
    empty (read_key pending) = false := by
  cases he : empty (read_key pending) with
  | false => rfl
  | true =>
    exfalso
    apply h
    rw [get_eq]
    simp only [he, Bool.not_true, Bool.false_eq_true, if_false]
    cases hk : read_key pending with
    | mk data =>
      rw [hk] at he
      cases data with
      | nil => rfl
      | cons a l => simp [empty] at he

/-- The loop of `Input::poll` ends within the passes it is given: the sleeps it
makes are `min(remaining, 10)` each, at most `ceil(timeout / 10)` of them, and all
of them are made and `false` is returned when nothing wakes the loop. -/
theorem poll_loop_steps (fuel : Nat) : ∀ (w : World) (timeout : Int) (flag : Bool)
    (sleeps : List Int), timeout ≤ fuel →
    ∃ r extra, poll_loop fuel w timeout flag sleeps = some r ∧ r.sleeps = sleeps ++ extra ∧
      extra.length ≤ ((timeout + 9) / 10).toNat ∧
      (∀ k, k < extra.length → extra[k]? = some (min (timeout - 10 * (k : Int)) 10)) ∧
      (flag = false → (∀ j, w.in_avail j = false) → (∀ j, w.raise j = false) →
        r.ret = false ∧ extra.length = ((timeout + 9) / 10).toNat) := by
  induction fuel with
  | zero =>
    intro w timeout flag sleeps hfuel
    have ht : ¬ timeout > 0 := by simp at hfuel; omega
    refine ⟨{ ret := false, interrupt := flag, sleeps := sleeps }, [],
      by simp [poll_loop, ht], by simp, by simp, by simp, ?_⟩
    intro _ _ _
    refine ⟨rfl, ?_⟩
    simp only [List.length_nil]
    omega
  | succ f ih =>
    intro w timeout flag sleeps hfuel
    by_cases ht : timeout > 0
    · cases hflag : flag with
      | true =>
        exact ⟨{ ret := false, interrupt := false, sleeps := sleeps }, [],
          by simp [poll_loop, ht], by simp, by simp, by simp, by simp⟩
      | false =>
        cases hav : w.in_avail 0 with
        | true =>
          refine ⟨{ ret := true, interrupt := false, sleeps := sleeps }, [],
            by simp [poll_loop, ht, hav], by simp, by simp, by simp, ?_⟩
          intro _ h _
          rw [h 0] at hav
          exact absurd hav (by simp)
        | false =>
          obtain ⟨r, extra, h1, h2, h3, h4, h5⟩ := ih w.shift (timeout - 10) (false || w.raise 0)
            (sleeps ++ [if timeout < 10 then timeout else 10]) (by push_cast at hfuel; omega)
          refine ⟨r, (if timeout < 10 then timeout else 10) :: extra, ?_, ?_, ?_, ?_, ?_⟩
          · rw [poll_loop, if_pos ht, if_neg (by simp), hav, if_neg (by simp)]
            exact h1
          · rw [h2]; simp
          · simp only [List.length_cons]
            omega
          · intro k hk
            cases k with
            | zero =>
              simp only [List.getElem?_cons_zero, Option.some.injEq]
              split_ifs with h10
              · simp; omega
              · simp; omega
            | succ k =>
              simp only [List.length_cons, Nat.add_lt_add_iff_right] at hk
              rw [List.getElem?_cons_succ, h4 k hk]
              congr 2
              push_cast
              ring
          · intro _ hq1 hq2
            obtain ⟨r1, r2⟩ := h5 (by simp [hq2 0]) (fun j => hq1 (j + 1)) (fun j => hq2 (j + 1))
            refine ⟨r1, ?_⟩
            simp only [List.length_cons, r2]
            omega
    · refine ⟨{ ret := false, interrupt := flag, sleeps := sleeps }, [],
        by simp [poll_loop, ht], by simp, by simp, by simp, ?_⟩
      intro _ _ _
      refine ⟨rfl, ?_⟩
      simp only [List.length_nil]
      omega

/-- The key `enter` on a selected row whose process is not the detailed one:
the detailed view is opened. -/
theorem process_enter_open (env : Env) (st : State)
    (hp : st.proc_shown = true) (hf : st.config.getB "proc_filtering" = false)
    (hsel : st.config.getI "proc_selected" > 0)
    (hpid : st.config.getI "detailed_pid" ≠ st.config.getI "selected_pid") :
    (process env st "enter").state
      = after_call env (.run "proc" true true)
          { st with config :=
              (((st.config.setI "detailed_pid" (st.config.getI "selected_pid")).setI
                "proc_last_selected" (st.config.getI "proc_selected")).setI
                "proc_selected" 0).setB "show_detailed" true } := by
  have hs : starts_with "enter" "mouse_" = false := by decide
  have h0 : ¬ st.config.getI "proc_selected" = 0 := by omega
  have hsel' : 0 < st.config.getI "proc_selected" := hsel
  simp only [after_call]
  simp [process, process_try, global_box, proc_box, proc_chain, proc_enter, hf, hp, hs, h0, hsel',
    hpid, empty, Res.bind, call]
  cases env.fault (.run "proc" true true) <;>
    simp [Outcome.state, ← hp, Config.getI, Config.setI, Config.setB]

/-- The key `enter` with no selected row while the detailed view is open: the
view is closed and the remembered selection put back. -/
theorem process_enter_close (env : Env) (st : State)
    (hp : st.proc_shown = true) (hf : st.config.getB "proc_filtering" = false)
    (hsel : st.config.getI "proc_selected" = 0)
    (hdet : st.config.getB "show_detailed" = true) :
    (process env st "enter").state
      = after_call env (.run "proc" true true)
          { st with config :=
              ((((if st.config.getI "proc_last_selected" > 0 then
                  st.config.setI "proc_selected" (st.config.getI "proc_last_selected")
                else st.config).setI "proc_last_selected" 0).setI "detailed_pid" 0).setB
                "show_detailed" false) } := by
  have hs : starts_with "enter" "mouse_" = false := by decide
  simp only [after_call]
  simp [process, process_try, global_box, proc_box, proc_chain, proc_enter, hf, hp, hs, hsel,
    hdet, empty, Res.bind, call]
  cases env.fault (.run "proc" true true) <;> simp [Outcome.state, ← hp]

/-- In a vector without duplicates `v_index` finds an entry at its own index. -/
theorem v_index_of_getElem (v : List String) (hnd : v.Nodup) : ∀ (i : Nat) (x : String),
    v[i]? = some x → v_index v x = i := by
  induction v with
  | nil => intro i x h; simp at h
  | cons y ys ih =>
    intro i x h
    rw [List.nodup_cons] at hnd
    cases i with
    | zero =>
      simp only [List.getElem?_cons_zero, Option.some.injEq] at h
      simp [v_index, h]
    | succ k =>
      rw [List.getElem?_cons_succ] at h
      have hmem : x ∈ ys := List.getElem?_mem h
      have hne : ¬ y = x := fun e => hnd.1 (e ▸ hmem)
      simp [v_index, hne, ih hnd.2 k x h]

/-- The index computed for the key `right` is in range and is the next one,
the first after the last. -/
theorem right_index (v : List String) (i : Nat) (x : String) (hlt : i < v.length)
    (hn : v.length < 2 ^ 64) (hx : v[(i + 1) % v.length]? = some x) :
    vec_at v (if ((i : Nat) : Int) + 1 > (((v.length + 2 ^ 64 - 1) % 2 ^ 64 : Nat) : Int)
      then 0 else ((i : Nat) : Int) + 1) = some x := by
  have hmod : (v.length + 2 ^ 64 - 1) % 2 ^ 64 = v.length - 1 := by
    norm_num at hn ⊢
    omega
  rw [hmod]
  by_cases hw : i + 1 = v.length
  · have : ((i : Int) + 1) > ((v.length - 1 : Nat) : Int) := by omega
    rw [if_pos this]
    rw [hw, Nat.mod_self] at hx
    simpa [vec_at] using hx
  · have : ¬ ((i : Int) + 1) > ((v.length - 1 : Nat) : Int) := by omega
    rw [if_neg this]
    rw [Nat.mod_eq_of_lt (by omega)] at hx
    have h0 : (0 : Int) ≤ (i : Int) + 1 := by omega
    have ht : ((i : Int) + 1).toNat = i + 1 := by omega
    simp only [vec_at, h0, if_true, ht, List.get?_eq_getElem?]
    exact hx

/-- The index computed for the key `left` is in range and is the previous one,
the last before the first. -/
theorem left_index (v : List String) (i : Nat) (x : String) (hlt : i < v.length)
    (hx : v[(i + v.length - 1) % v.length]? = some x) :
    vec_at v (if ((i : Nat) : Int) - 1 < 0 then (v.length : Int) - 1 else ((i : Nat) : Int) - 1)
      = some x := by
  by_cases hw : i = 0
  · subst hw
    have e : (0 + v.length - 1) % v.length = v.length - 1 := by
      rw [Nat.zero_add]; exact Nat.mod_eq_of_lt (by omega)
    rw [e] at hx
    have h0 : (0 : Int) ≤ (v.length : Int) - 1 := by omega
    have ht : ((v.length : Int) - 1).toNat = v.length - 1 := by omega
    simp only [vec_at, Nat.cast_zero, zero_sub, Left.neg_neg_iff, zero_lt_one, if_true, h0, ht,
      List.get?_eq_getElem?]
    exact hx
  · have e : (i + v.length - 1) % v.length = i - 1 := by
      have : i + v.length - 1 = (i - 1) + v.length := by omega
      rw [this, Nat.add_mod_right]
      exact Nat.mod_eq_of_lt (by omega)
    rw [e] at hx
    have : ¬ ((i : Int) - 1 < 0) := by omega
    have h0 : (0 : Int) ≤ (i : Int) - 1 := by omega
    have ht : ((i : Int) - 1).toNat = i - 1 := by omega
    simp only [vec_at, this, if_false, h0, if_true, ht, List.get?_eq_getElem?]
    exact hx

theorem proc_chain_right (env : Env) (st : State) (v : List String) (i : Nat) (x : String)
    (h : sorting_at st v i) (hnd : v.Nodup) (hn : v.length < 2 ^ 64)
    (hx : v[(i + 1) % v.length]? = some x) :
    proc_chain env st "right"
      = .next (false, true) { st with config := st.config.setS "proc_sorting" x } := by
  obtain ⟨hp, hf, hv, hi⟩ := h
  have hidx := v_index_of_getElem v hnd i _ hi
  have hlt : i < v.length := by
    rcases Nat.lt_or_ge i v.length with h | h
    · exact h
    · rw [List.getElem?_eq_none h] at hi; exact absurd hi (by simp)
  have hat := right_index v i x hlt hn hx
  rw [proc_chain, if_neg (by simp [hf]), if_neg (by decide), if_pos rfl]
  simp only [hv, hidx, hat]

theorem proc_chain_left (env : Env) (st : State) (v : List String) (i : Nat) (x : String)
    (h : sorting_at st v i) (hnd : v.Nodup)
    (hx : v[(i + v.length - 1) % v.length]? = some x) :
    proc_chain env st "left"
      = .next (false, true) { st with config := st.config.setS "proc_sorting" x } := by
  obtain ⟨hp, hf, hv, hi⟩ := h
  have hidx := v_index_of_getElem v hnd i _ hi
  have hlt : i < v.length := by
    rcases Nat.lt_or_ge i v.length with h | h
    · exact h
    · rw [List.getElem?_eq_none h] at hi; exact absurd hi (by simp)
  have hat := left_index v i x hlt hx
  rw [proc_chain, if_neg (by simp [hf]), if_pos rfl]
  simp only [hv, hidx, hat]

/-- A key that the global actions leave alone and that the process box takes
without returning early: the box asks for its redraw and `Input::process`
returns, or fails with the exception of `Runner::run`. -/
theorem process_proc_taken (env : Env) (st st' : State) (key : String) (redraw : Bool)
    (hp : st.proc_shown = true) (hkey : empty key = false)
    (hq : ¬ (st.config.getB "proc_filtering" = false ∧ key = "q"))
    (hg : global_box env st key = .next () st)
    (hc : proc_chain env st key = .next (false, redraw) st') :
    process env st key =
      match env.fault (.run "proc" true redraw) with
      | none => .returned { st' with calls := st'.calls ++ [.run "proc" true redraw] }
      | some what => .runtime_error ("Input::process(\"" ++ key ++ "\") : " ++ what) st' := by
  simp only [process, hkey, process_try, hq, hg, proc_box, hp, hc, Res.bind, call, if_true,
    if_false, Bool.false_eq_true, Bool.not_false]
  cases env.fault (.run "proc" true redraw) <;> rfl

theorem global_box_other (env : Env) (st : State) (key : String)
    (hk : ¬ (key = "1" ∨ key = "2" ∨ key = "3" ∨ key = "4")) :
    global_box env st key = .next () st := by
  unfold global_box
  split_ifs <;> rfl

theorem process_right_outcome (env : Env) (st : State) (v : List String) (i : Nat) (x : String)
    (h : sorting_at st v i) (hnd : v.Nodup) (hn : v.length < 2 ^ 64)
    (hx : v[(i + 1) % v.length]? = some x) :
    process env st "right" =
      match env.fault (.run "proc" true true) with
      | none => .returned { st with config := st.config.setS "proc_sorting" x,
                                    calls := st.calls ++ [.run "proc" true true] }
      | some what => .runtime_error ("Input::process(\"right\") : " ++ what)
          { st with config := st.config.setS "proc_sorting" x } :=
  process_proc_taken env st _ "right" true h.1 (by decide) (by simp)
    (global_box_other env st "right" (by decide)) (proc_chain_right env st v i x h hnd hn hx)

theorem process_left_outcome (env : Env) (st : State) (v : List String) (i : Nat) (x : String)
    (h : sorting_at st v i) (hnd : v.Nodup)
    (hx : v[(i + v.length - 1) % v.length]? = some x) :
    process env st "left" =
      match env.fault (.run "proc" true true) with
      | none => .returned { st with config := st.config.setS "proc_sorting" x,
                                    calls := st.calls ++ [.run "proc" true true] }
      | some what => .runtime_error ("Input::process(\"left\") : " ++ what)
          { st with config := st.config.setS "proc_sorting" x } :=
  process_proc_taken env st _ "left" true h.1 (by decide) (by simp)
    (global_box_other env st "left" (by decide)) (proc_chain_left env st v i x h hnd hx)

theorem sorting_at_lt {st : State} {v : List String} {i : Nat} (h : sorting_at st v i) :
    i < v.length := by
  rcases Nat.lt_or_ge i v.length with h' | h'
  · exact h'
  · have := h.2.2.2
    rw [List.getElem?_eq_none h'] at this
    exact absurd this (by simp)

theorem sorting_at_set (st : State) (v : List String) (i j : Nat) (x : String) (o : Outcome)
    (h : sorting_at st v i) (hx : v[j]? = some x)
    (ho : o.state.config = st.config.setS "proc_sorting" x ∧ o.state.proc_shown = st.proc_shown
      ∧ o.state.sort_vector = st.sort_vector) :
    sorting_at o.state v j := by
  obtain ⟨hp, hf, hv, _⟩ := h
  obtain ⟨o1, o2, o3⟩ := ho
  refine ⟨o2.trans hp, ?_, o3.trans hv, ?_⟩
  · rw [o1]; exact hf
  · rw [o1, hx]; simp [Config.getS, Config.setS]

theorem right_step (env : Env) (st : State) (v : List String) (i : Nat)
    (h : sorting_at st v i) (hnd : v.Nodup) (hn : v.length < 2 ^ 64) :
    sorting_at (process env st "right").state v ((i + 1) % v.length) := by
  have hlt := sorting_at_lt h
  have hj : (i + 1) % v.length < v.length := Nat.mod_lt _ (by omega)
  have hx : v[(i + 1) % v.length]? = some v[(i + 1) % v.length] := List.getElem?_eq_getElem hj
  apply sorting_at_set st v i _ _ _ h hx
  rw [process_right_outcome env st v i _ h hnd hn hx]
  cases env.fault (.run "proc" true true) <;> exact ⟨rfl, rfl, rfl⟩

theorem left_step (env : Env) (st : State) (v : List String) (i : Nat)
    (h : sorting_at st v i) (hnd : v.Nodup) :
    sorting_at (process env st "left").state v ((i + v.length - 1) % v.length) := by
  have hlt := sorting_at_lt h
  have hj : (i + v.length - 1) % v.length < v.length := Nat.mod_lt _ (by omega)
  have hx : v[(i + v.length - 1) % v.length]? = some v[(i + v.length - 1) % v.length] :=
    List.getElem?_eq_getElem hj
  apply sorting_at_set st v i _ _ _ h hx
  rw [process_left_outcome env st v i _ h hnd hx]
  cases env.fault (.run "proc" true true) <;> exact ⟨rfl, rfl, rfl⟩

theorem right_iter (v : List String) (hnd : v.Nodup) (hn : v.length < 2 ^ 64)
    (envs : List Env) : ∀ (st : State) (i : Nat), sorting_at st v i →
    sorting_at (process_all st (envs.map fun e => (e, "right"))) v
      ((i + envs.length) % v.length) := by
  induction envs with
  | nil =>
    intro st i h
    simpa [process_all, Nat.mod_eq_of_lt (sorting_at_lt h)] using h
  | cons e rest ih =>
    intro st i h
    have h1 := ih _ _ (right_step e st v i h hnd hn)
    simp only [List.map_cons, process_all, List.length_cons]
    have e1 : ((i + 1) % v.length + rest.length) % v.length
        = (i + (rest.length + 1)) % v.length := by
      rw [Nat.mod_add_mod]; congr 1; omega
    rw [← e1]
    exact h1

/-- A key of filter editing that goes to the line editor, followed to the end of
`Input::process`. -/
theorem process_filter_key (env : Env) (st : State) (key : String)
    (hp : st.proc_shown = true) (hf : st.config.getB "proc_filtering" = true)
    (hne : empty key = false)
    (h1 : key ≠ "enter") (h2 : key ≠ "escape") (h3 : key ≠ "mouse_click") :
    process env st key =
      match env.fault (.filter_command key) with
      | some what => .runtime_error ("Input::process(\"" ++ key ++ "\") : " ++ what) st
      | none =>
        if (env.filter_command st.proc_filter key).1 = true then
          match env.fault (.run "proc" true true) with
          | some what => .runtime_error ("Input::process(\"" ++ key ++ "\") : " ++ what)
              { st with
                  proc_filter := (env.filter_command st.proc_filter key).2,
                  calls := st.calls ++ [.filter_command key],
                  config :=
                    if st.config.getS "proc_filter" ≠ (env.filter_command st.proc_filter key).2.text
                    then st.config.setS "proc_filter" (env.filter_command st.proc_filter key).2.text
                    else st.config }
          | none => .returned
              { st with
                  proc_filter := (env.filter_command st.proc_filter key).2,
                  calls := st.calls ++ [.filter_command key, .run "proc" true true],
                  config :=
                    if st.config.getS "proc_filter" ≠ (env.filter_command st.proc_filter key).2.text
                    then st.config.setS "proc_filter" (env.filter_command st.proc_filter key).2.text
                    else st.config }
        else .returned
          { st with
              proc_filter := (env.filter_command st.proc_filter key).2,
              calls := st.calls ++ [.filter_command key] } := by
  simp only [process, hne, process_try, global_box, proc_box, proc_chain, proc_filtering, hf, hp,
    h1, h2, h3, Res.bind, call, if_true, if_false, false_and, or_self, Bool.true_eq_false,
    Bool.false_eq_true]
  cases env.fault (.filter_command key) with
  | some what => rfl
  | none =>
    simp only []
    cases (env.filter_command st.proc_filter key).1 with
    | false => simp
    | true =>
      simp only [if_true]
      split_ifs <;> simp only [Bool.not_false, if_true] <;>
        cases env.fault (.run "proc" true true) <;> simp

/-- The state `Input::process` leaves is the one its `try` block ends in. -/
theorem process_state (env : Env) (st : State) (key : String) (hne : empty key = false) :
    (process env st key).state = (process_try env st key).state := by
  simp only [process, hne, Bool.false_eq_true, if_false]
  cases process_try env st key <;> rfl

/-- The process box never changes a number of the configuration on `+` or `-`. -/
theorem proc_box_pm_ints (env : Env) (st : State) (key : String)
    (hk : key = "+" ∨ key = "-") :
    (proc_box env st key).state.config.ints = st.config.ints := by
  have hs : starts_with key "mouse_" = false := by rcases hk with rfl | rfl <;> decide
  cases hp : st.proc_shown with
  | false => simp [proc_box, hp, Res.state]
  | true =>
    cases hf : st.config.getB "proc_filtering" with
    | true =>
      rcases hk with rfl | rfl <;>
      · simp only [proc_box, hp, proc_chain, hf, proc_filtering, if_true, Res.bind, call]
        simp only [reduceCtorEq, if_false, false_or, String.reduceEq]
        cases env.fault (.filter_command _) with
        | some what => simp [Res.state]
        | none =>
          simp only []
          cases (env.filter_command st.proc_filter _).1 with
          | false => simp [Res.state]
          | true =>
            simp only [if_true]
            split_ifs <;> simp only [Bool.not_false, if_true] <;>
              cases env.fault (.run "proc" true true) <;> simp [Res.state, Config.setS]
    | false =>
      by_cases ht : st.config.getB "proc_tree" = true ∧ st.config.getI "proc_selected" > 0
      · rcases hk with rfl | rfl <;>
        · simp [proc_box, hp, proc_chain, hf, hs, ht, Res.bind, call]
          cases env.fault .atomic_wait with
          | some what => simp [Res.state]
          | none =>
            simp only []
            cases env.fault (.run "proc" true true) <;> simp [Res.state]
      · rcases hk with rfl | rfl <;>
        · have ht' : ¬ (st.config.getB "proc_tree" = true ∧ 0 < st.config.getI "proc_selected") :=
            ht
          simp [proc_box, hp, proc_chain, hf, hs, ht', Res.bind, Res.state]

/-- The cpu box changes `update_ms` by one step at most. -/
theorem cpu_box_pm (env : Env) (st : State) (key : String) :
    interval_step key (st.config.getI "update_ms")
      ((cpu_box env st key).state.config.getI "update_ms") := by
  unfold cpu_box
  cases hc : st.cpu_shown with
  | false => exact Or.inl (by simp [Res.state])
  | true =>
    simp only [if_true]
    by_cases h1 : key = "+" ∧ st.config.getI "update_ms" ≤ 86399900
    · simp only [h1, and_self, if_true, Res.bind, call]
      have hval : ∀ s : State, ∀ add : Int,
          s.config = st.config.setI "update_ms" (st.config.getI "update_ms" + add) →
          s.config.getI "update_ms" = st.config.getI "update_ms" + add := by
        intro s add hs; rw [hs]; simp [Config.getI, Config.setI]
      by_cases hfast : (decide (st.config.getI "update_ms" ≤ 86399000)
          && decide (st.last_press ≥ (clock env 0 + 2 ^ 64 - 200) % 2 ^ 64)
          && history_all st "+") = true
      · have hle : st.config.getI "update_ms" ≤ 86399000 := by
          simp only [Bool.and_eq_true, decide_eq_true_eq] at hfast
          exact hfast.1.1
        refine Or.inr (Or.inl ⟨rfl, Or.inr ⟨?_, hle⟩⟩)
        simp only [hfast, if_true]
        cases env.fault (.run "cpu" true true) <;>
          simp [Res.state, Config.getI, Config.setI]
      · refine Or.inr (Or.inl ⟨rfl, Or.inl ⟨?_, h1.2⟩⟩)
        simp only [hfast, Bool.false_eq_true, if_false]
        cases env.fault (.run "cpu" true true) <;>
          simp [Res.state, Config.getI, Config.setI]
    · simp only [h1, if_false]
      by_cases h2 : key = "-" ∧ st.config.getI "update_ms" ≥ 200
      · simp only [h2, and_self, if_true, Res.bind, call]
        by_cases hfast : (decide (st.config.getI "update_ms" ≥ 2000)
            && decide (st.last_press ≥ (clock env 0 + 2 ^ 64 - 200) % 2 ^ 64)
            && history_all st "-") = true
        · have hle : st.config.getI "update_ms" ≥ 2000 := by
            simp only [Bool.and_eq_true, decide_eq_true_eq] at hfast
            exact hfast.1.1
          refine Or.inr (Or.inr ⟨rfl, Or.inr ⟨?_, hle⟩⟩)
          simp only [hfast, if_true]
          cases env.fault (.run "cpu" true true) <;>
            simp [Res.state, Config.getI, Config.setI]
        · refine Or.inr (Or.inr ⟨rfl, Or.inl ⟨?_, h2.2⟩⟩)
          simp only [hfast, Bool.false_eq_true, if_false]
          cases env.fault (.run "cpu" true true) <;>
            simp [Res.state, Config.getI, Config.setI]
      · simp only [h2, if_false]
        exact Or.inl (by simp [Res.state])

/-- The memory box never changes a number of the configuration. -/
theorem mem_box_ints (env : Env) (st : State) (key : String) :
    (mem_box env st key).state.config.ints = st.config.ints := by
  unfold mem_box
  cases st.mem_shown with
  | false => simp [Res.state]
  | true =>
    simp only [if_true, Res.bind, call]
    split_ifs <;> cases env.fault (.run "mem" true true) <;>
      simp [Res.state, Config.flip, Config.setB]

theorem process_pm_step (env : Env) (st : State) (key : String) (hk : key = "+" ∨ key = "-") :
    interval_step key (st.config.getI "update_ms")
      ((process env st key).state.config.getI "update_ms") := by
  have hne : empty key = false := by rcases hk with rfl | rfl <;> decide
  have hq : ¬ (st.config.getB "proc_filtering" = false ∧ key = "q") := by
    rcases hk with rfl | rfl <;> simp
  have hg : global_box env st key = .next () st :=
    global_box_other env st key (by rcases hk with rfl | rfl <;> decide)
  rw [process_state env st key hne, process_try, if_neg hq, hg]
  simp only [Res.bind]
  have hpi := proc_box_pm_ints env st key hk
  cases hpb : proc_box env st key with
  | next a s =>
    rw [hpb] at hpi
    simp only [Res.state] at hpi
    have hc := cpu_box_pm env s key
    have hu : s.config.getI "update_ms" = st.config.getI "update_ms" := by
      simp only [Config.getI, hpi]
    rw [hu] at hc
    simp only []
    cases hcb : cpu_box env s key with
    | next b s2 =>
      rw [hcb] at hc
      simp only [Res.state] at hc
      simp only []
      have hm := mem_box_ints env s2 key
      have : (mem_box env s2 key).state.config.getI "update_ms" = s2.config.getI "update_ms" := by
        simp only [Config.getI, hm]
      rw [this]
      exact hc
    | ret s2 => rw [hcb] at hc; exact hc
    | exit c s2 => rw [hcb] at hc; exact hc
    | throw w s2 => rw [hcb] at hc; exact hc
  | ret s =>
    rw [hpb] at hpi
    exact Or.inl (by simp only [Res.state] at hpi ⊢; simp only [Config.getI, hpi])
  | exit c s =>
    rw [hpb] at hpi
    exact Or.inl (by simp only [Res.state] at hpi ⊢; simp only [Config.getI, hpi])
  | throw w s =>
    rw [hpb] at hpi
    exact Or.inl (by simp only [Res.state] at hpi ⊢; simp only [Config.getI, hpi])

/-- A block that ends with a return does not hand the key on. -/
theorem bind_ret_not_next {α β : Type} (r : Res α) (a : β) (s : State) :
    r.bind (fun _ st => (Res.ret st : Res β)) ≠ .next a s := by
  cases r <;> simp [Res.bind]

/-- A block followed by steps that clear `keep_going` leaves it cleared. -/
theorem bind_kg {α : Type} (r : Res α) (f : α → State → Res (Bool × Bool)) (kg rd : Bool)
    (s : State) (h : r.bind f = .next (kg, rd) s)
    (hf : ∀ a s1 rd' s', f a s1 = .next (kg, rd') s' → kg = false) : kg = false := by
  cases r with
  | next a s1 => exact hf a s1 rd s h
  | ret s1 => simp [Res.bind] at h
  | exit c s1 => simp [Res.bind] at h
  | throw w s1 => simp [Res.bind] at h

/-- The `enter` body never sets `keep_going`. -/
theorem proc_enter_kg (st s : State) (rd kg r : Bool)
    (h : proc_enter st rd = .next (kg, r) s) : kg = false := by
  unfold proc_enter at h
  simp only [] at h
  split_ifs at h <;> simp at h <;> exact h.1.1

/-- The scroll body never sets `keep_going`. -/
theorem proc_scroll_kg (env : Env) (st s : State) (key : String) (kg r : Bool)
    (h : proc_scroll env st key = .next (kg, r) s) : kg = false := by
  unfold proc_scroll proc_selection at h
  simp only [Res.bind, call] at h
  cases hf : env.fault (.selection key) with
  | some w => rw [hf] at h; simp at h
  | none =>
    rw [hf] at h
    simp only [] at h
    split_ifs at h
    simp at h
    exact h.1.1

/-- A selection move never sets `keep_going`. -/
theorem proc_selection_kg (env : Env) (st s : State) (cmd : String) (kg r : Bool)
    (h : ((proc_selection env st cmd).bind fun x st =>
      if x = -1 then (Res.ret st : Res (Bool × Bool)) else .next (false, false) st)
        = .next (kg, r) s) : kg = false := by
  unfold proc_selection at h
  simp only [Res.bind, call] at h
  cases hf : env.fault (.selection cmd) with
  | some w => rw [hf] at h; simp at h
  | none =>
    rw [hf] at h
    simp only [] at h
    split_ifs at h
    simp at h
    exact h.1.1

/-- The mouse branch sets `keep_going` only with the state as it was. -/
theorem proc_mouse_kg (env : Env) (st s : State) (key : String) (kg r : Bool)
    (h : proc_mouse env st key = .next (kg, r) s) (hk : kg = true) : s = st := by
  unfold proc_mouse at h
  simp only [] at h
  split_ifs at h <;> first
    | exact absurd (proc_enter_kg _ _ _ _ _ h) (by simp [hk])
    | exact absurd (proc_selection_kg _ _ _ _ _ _ h) (by simp [hk])
    | exact absurd (proc_scroll_kg _ _ _ _ _ _ h) (by simp [hk])
    | (simp at h
       first
        | exact absurd (show kg = false from h.1.1) (by simp [hk])
        | exact h.2.symm)

/-- Filter editing never sets `keep_going`. -/
theorem proc_filtering_kg (env : Env) (st s : State) (key : String) (kg r : Bool)
    (h : proc_filtering env st key = .next (kg, r) s) : kg = false := by
  unfold proc_filtering at h
  simp only [Res.bind, call] at h
  split_ifs at h
  · simp at h; exact h.1.1
  · simp at h; exact h.1.1
  · cases hf : env.fault (.filter_command key) with
    | some w => rw [hf] at h; simp at h
    | none =>
      rw [hf] at h
      simp only [] at h
      split_ifs at h <;> simp at h <;> exact h.1.1

/-- The chain of the process box leaves `keep_going` set only with the state as
it was. -/
theorem proc_chain_kg (env : Env) (st s : State) (key : String) (kg r : Bool)
    (h : proc_chain env st key = .next (kg, r) s) (hk : kg = true) : s = st := by
  unfold proc_chain at h
  by_cases c1 : st.config.getB "proc_filtering" = true
  · rw [if_pos c1] at h
    exact absurd (proc_filtering_kg _ _ _ _ _ _ h) (by simp [hk])
  rw [if_neg c1] at h
  by_cases c2 : key = "left"
  · rw [if_pos c2] at h
    dsimp only at h
    split at h <;> simp at h
    exact absurd (show kg = false from h.1.1) (by simp [hk])
  rw [if_neg c2] at h
  by_cases c3 : key = "right"
  · rw [if_pos c3] at h
    dsimp only at h
    split at h <;> simp at h
    exact absurd (show kg = false from h.1.1) (by simp [hk])
  rw [if_neg c3] at h
  by_cases c4 : key = "f"
  · rw [if_pos c4] at h
    simp at h
    exact absurd (show kg = false from h.1.1) (by simp [hk])
  rw [if_neg c4] at h
  by_cases c5 : key = "e"
  · rw [if_pos c5] at h
    simp at h
    exact absurd (show kg = false from h.1.1) (by simp [hk])
  rw [if_neg c5] at h
  by_cases c6 : key = "r"
  · rw [if_pos c6] at h
    simp at h
    exact absurd (show kg = false from h.1.1) (by simp [hk])
  rw [if_neg c6] at h
  by_cases c7 : key = "c"
  · rw [if_pos c7] at h
    simp at h
    exact absurd (show kg = false from h.1.1) (by simp [hk])
  rw [if_neg c7] at h
  by_cases c8 : key = "delete" ∧ empty (st.config.getS "proc_filter") = false
  · rw [if_pos c8] at h
    simp at h
    exact absurd (show kg = false from h.1.1) (by simp [hk])
  rw [if_neg c8] at h
  by_cases c9 : key = "\xc3\xb6"
  · rw [if_pos c9] at h
    exact absurd (bind_kg _ _ _ _ _ h (by
      intro a s1 rd' s' h'
      simp at h'
      exact h'.1.1)) (by simp [hk])
  rw [if_neg c9] at h
  by_cases c10 : starts_with key "mouse_" = true
  · rw [if_pos c10] at h
    exact proc_mouse_kg _ _ _ _ _ _ h hk
  rw [if_neg c10] at h
  by_cases c11 : key = "enter"
  · rw [if_pos c11] at h
    exact absurd (proc_enter_kg _ _ _ _ _ h) (by simp [hk])
  rw [if_neg c11] at h
  by_cases c12 : (key = "+" ∨ key = "-" ∨ key = "space") ∧ st.config.getB "proc_tree" = true
      ∧ st.config.getI "proc_selected" > 0
  · rw [if_pos c12] at h
    exact absurd (bind_kg _ _ _ _ _ h (by
      intro a s1 rd' s' h'
      simp at h'
      exact h'.1.1)) (by simp [hk])
  rw [if_neg c12] at h
  by_cases c13 : key = "t" ∨ key = "k" ∨ key = "s"
  · rw [if_pos c13] at h
    exact absurd h (bind_ret_not_next _ _ _)
  rw [if_neg c13] at h
  by_cases c14 : key = "up" ∨ key = "down" ∨ key = "page_up" ∨ key = "page_down" ∨ key = "home"
      ∨ key = "end"
  · rw [if_pos c14] at h
    exact absurd (proc_scroll_kg _ _ _ _ _ _ h) (by simp [hk])
  rw [if_neg c14] at h
  simp at h
  exact h.2.symm

/-- The process box hands the key on with the state as it was. -/
theorem proc_box_next (env : Env) (st s : State) (key : String) (a : Unit)
    (h : proc_box env st key = .next a s) : s = st := by
  unfold proc_box at h
  split_ifs at h
  · cases hc : proc_chain env st key with
    | next x s1 =>
      obtain ⟨kg, r⟩ := x
      rw [hc] at h
      simp only [Res.bind] at h
      cases kg with
      | false =>
        simp only [Bool.not_false, if_true] at h
        exact absurd h (bind_ret_not_next _ _ _)
      | true =>
        simp at h
        rw [← h]
        exact proc_chain_kg env st s1 key true r hc rfl
    | ret s1 => rw [hc] at h; simp [Res.bind] at h
    | exit c s1 => rw [hc] at h; simp [Res.bind] at h
    | throw w s1 => rw [hc] at h; simp [Res.bind] at h
  · simp at h; exact h.symm

/-- The global actions hand the key on with the state as it was. -/
theorem global_box_next (env : Env) (st s : State) (key : String) (a : Unit)
    (h : global_box env st key = .next a s) : s = st := by
  unfold global_box at h
  split_ifs at h <;> first
    | exact absurd h (bind_ret_not_next _ _ _)
    | (simp at h; exact h.symm)

/-- The cpu box hands the key on with the state as it was. -/
theorem cpu_box_next (env : Env) (st s : State) (key : String) (a : Unit)
    (h : cpu_box env st key = .next a s) : s = st := by
  unfold cpu_box at h
  simp only [] at h
  split_ifs at h <;> first
    | exact absurd h (bind_ret_not_next _ _ _)
    | (simp at h; exact h.symm)

/-! ### The traced `Input::process` with and without failures -/

namespace Traced

/-- The first failing use of two sequences in a row. -/
theorem traced_first_fault_append (env : Env) (l1 l2 : List Access) :
    first_fault env (l1 ++ l2) =
      match first_fault env l1 with
      | some what => some what
      | none => first_fault env l2 := by
  induction l1 with
  | nil => rfl
  | cons c cs ih =>
    simp only [List.cons_append, first_fault]
    cases env.fault c with
    | some w => rfl
    | none => simpa using ih

/-- A block that uses no collaborator runs alike with both kinds of collaborators. -/
theorem traced_sim_same (env : Env) {α : Type} (b : Block α)
    (h : ∀ s, (b s).state.accesses = s.accesses) : Sim env b b :=
  fun s => ⟨[], by simp [h], fun _ => rfl, fun w hw => by simp [first_fault] at hw⟩

/-- The blocks that use no collaborator. -/
theorem traced_sim_pure (env : Env) {α : Type} (a : α) : Sim env (pure a : Block α) (pure a) :=
  traced_sim_same env _ (fun _ => rfl)

theorem traced_sim_globals (env : Env) : Sim env globals globals :=
  traced_sim_same env _ (fun _ => rfl)

theorem traced_sim_update (env : Env) (f : Input.State → Input.State) : Sim env (update f) (update f) :=
  traced_sim_same env _ (fun _ => rfl)

theorem traced_sim_leave (env : Env) {α : Type} : Sim env (leave : Block α) leave :=
  traced_sim_same env _ (fun _ => rfl)

theorem traced_sim_quit (env : Env) {α : Type} (code : Int) : Sim env (quit code : Block α) (quit code) :=
  traced_sim_same env _ (fun _ => rfl)

theorem traced_sim_raise (env : Env) {α : Type} (what : String) :
    Sim env (raise what : Block α) (raise what) :=
  traced_sim_same env _ (fun _ => rfl)

/-- One use of a collaborator, with and without failures. -/
theorem traced_sim_access (env : Env) (a : Access) :
    Sim env (access env a) (access env.reliable a) := by
  intro s
  refine ⟨[a], by simp [access, Env.reliable, Res.state], ?_, ?_⟩
  · intro hn
    simp only [first_fault] at hn
    cases hf : env.fault a with
    | some w => rw [hf] at hn; simp at hn
    | none => simp [access, Env.reliable, hf]
  · intro w hw
    simp only [first_fault] at hw
    cases hf : env.fault a with
    | some w' =>
      rw [hf] at hw
      simp only [Option.some.injEq] at hw
      exact ⟨s, by simp [access, hf, hw]⟩
    | none => rw [hf] at hw; simp at hw

/-- Sequencing keeps the two runs side by side. -/
theorem traced_sim_bind (env : Env) {α β : Type} (b b0 : Block α) (f f0 : α → Block β)
    (h : Sim env b b0) (hf : ∀ a, Sim env (f a) (f0 a)) :
    Sim env (b >>= f) (b0 >>= f0) := by
  intro s
  obtain ⟨new, h1, h2, h3⟩ := h s
  show ∃ new, (Block.bind b0 f0 s).state.accesses = s.accesses ++ new ∧
    (first_fault env new = none → Block.bind b f s = Block.bind b0 f0 s) ∧
    (∀ what, first_fault env new = some what → ∃ s', Block.bind b f s = .throw what s')
  unfold Block.bind
  cases hr0 : b0 s with
  | next a s1 =>
    obtain ⟨new2, g1, g2, g3⟩ := hf a s1
    rw [hr0] at h1 h2
    simp only [Res.state] at h1
    refine ⟨new ++ new2, ?_, ?_, ?_⟩
    · simp only []; rw [g1, h1, List.append_assoc]
    · intro hn
      rw [traced_first_fault_append] at hn
      cases hff : first_fault env new with
      | some w => rw [hff] at hn; simp at hn
      | none =>
        rw [hff] at hn
        rw [h2 hff]
        exact g2 hn
    · intro w hw
      rw [traced_first_fault_append] at hw
      cases hff : first_fault env new with
      | some w' =>
        rw [hff] at hw
        simp only [Option.some.injEq] at hw
        obtain ⟨s', hs'⟩ := h3 w' hff
        exact ⟨s', by rw [hs', ← hw]⟩
      | none =>
        rw [hff] at hw
        rw [h2 hff]
        exact g3 w hw
  | ret s1 =>
    rw [hr0] at h1 h2
    refine ⟨new, by simpa using h1, ?_, ?_⟩
    · intro hn; rw [h2 hn]
    · intro w hw
      obtain ⟨s', hs'⟩ := h3 w hw
      exact ⟨s', by rw [hs']⟩
  | exit c s1 =>
    rw [hr0] at h1 h2
    refine ⟨new, by simpa using h1, ?_, ?_⟩
    · intro hn; rw [h2 hn]
    · intro w hw
      obtain ⟨s', hs'⟩ := h3 w hw
      exact ⟨s', by rw [hs']⟩
  | throw m s1 =>
    rw [hr0] at h1 h2
    refine ⟨new, by simpa using h1, ?_, ?_⟩
    · intro hn; rw [h2 hn]
    · intro w hw
      obtain ⟨s', hs'⟩ := h3 w hw
      exact ⟨s', by rw [hs']⟩

/-- Apart from failures, the collaborators without failures are the same
collaborators. -/
theorem traced_reliable (env : Env) :
    env.reliable.filter_command = env.filter_command ∧ env.reliable.selection = env.selection ∧
    env.reliable.time_ms = env.time_ms ∧ env.reliable.mv_to = env.mv_to ∧
    env.reliable.left_first = env.left_first ∧
    env.reliable.what_out_of_range = env.what_out_of_range ∧
    env.reliable.what_stoi = env.what_stoi := ⟨rfl, rfl, rfl, rfl, rfl, rfl, rfl⟩

/-- Each block of the traced `Input::process` keeps the two runs side by side. -/
theorem traced_sim_call (env : Env) (c : Call) :
    Sim env (call env c) (call env.reliable c) := by
  unfold call
  try simp only [traced_reliable]
  repeat' with_reducible first
    | exact traced_sim_access _ _
    | exact traced_sim_update _ _
    | refine traced_sim_bind _ _ _ _ _ ?_ (fun _ => ?_)

theorem traced_sim_getB (env : Env) (name : String) :
    Sim env (getB env name) (getB env.reliable name) := by
  unfold getB
  try simp only [traced_reliable]
  repeat' with_reducible first
    | exact traced_sim_access _ _
    | exact traced_sim_pure _ _
    | exact traced_sim_globals _
    | refine traced_sim_bind _ _ _ _ _ ?_ (fun _ => ?_)

theorem traced_sim_getI (env : Env) (name : String) :
    Sim env (getI env name) (getI env.reliable name) := by
  unfold getI
  try simp only [traced_reliable]
  repeat' with_reducible first
    | exact traced_sim_access _ _
    | exact traced_sim_pure _ _
    | exact traced_sim_globals _
    | refine traced_sim_bind _ _ _ _ _ ?_ (fun _ => ?_)

theorem traced_sim_getS (env : Env) (name : String) :
    Sim env (getS env name) (getS env.reliable name) := by
  unfold getS
  try simp only [traced_reliable]
  repeat' with_reducible first
    | exact traced_sim_access _ _
    | exact traced_sim_pure _ _
    | exact traced_sim_globals _
    | refine traced_sim_bind _ _ _ _ _ ?_ (fun _ => ?_)

theorem traced_sim_setB (env : Env) (name : String) (value : Bool) :
    Sim env (setB env name value) (setB env.reliable name value) := by
  unfold setB
  try simp only [traced_reliable]
  repeat' with_reducible first
    | exact traced_sim_access _ _
    | exact traced_sim_update _ _
    | refine traced_sim_bind _ _ _ _ _ ?_ (fun _ => ?_)

theorem traced_sim_setI (env : Env) (name : String) (value : Int) :
    Sim env (setI env name value) (setI env.reliable name value) := by
  unfold setI
  try simp only [traced_reliable]
  repeat' with_reducible first
    | exact traced_sim_access _ _
    | exact traced_sim_update _ _
    | refine traced_sim_bind _ _ _ _ _ ?_ (fun _ => ?_)

theorem traced_sim_setS (env : Env) (name : String) (value : String) :
    Sim env (setS env name value) (setS env.reliable name value) := by
  unfold setS
  try simp only [traced_reliable]
  repeat' with_reducible first
    | exact traced_sim_access _ _
    | exact traced_sim_update _ _
    | refine traced_sim_bind _ _ _ _ _ ?_ (fun _ => ?_)

theorem traced_sim_flip (env : Env) (name : String) :
    Sim env (flip env name) (flip env.reliable name) := by
  unfold flip
  try simp only [traced_reliable]
  repeat' with_reducible first
    | exact traced_sim_access _ _
    | exact traced_sim_update _ _
    | refine traced_sim_bind _ _ _ _ _ ?_ (fun _ => ?_)

theorem traced_sim_time_ms (env : Env) (n : Nat) :
    Sim env (time_ms env n) (time_ms env.reliable n) := by
  unfold time_ms
  try simp only [traced_reliable]
  repeat' with_reducible first
    | exact traced_sim_access _ _
    | exact traced_sim_pure _ _
    | refine traced_sim_bind _ _ _ _ _ ?_ (fun _ => ?_)

theorem traced_sim_mv_to (env : Env) (line col : Int) :
    Sim env (mv_to env line col) (mv_to env.reliable line col) := by
  unfold mv_to
  try simp only [traced_reliable]
  repeat' with_reducible first
    | exact traced_sim_access _ _
    | exact traced_sim_pure _ _
    | refine traced_sim_bind _ _ _ _ _ ?_ (fun _ => ?_)

theorem traced_sim_text_edit (env : Env) (text : String) :
    Sim env (text_edit env text) (text_edit env.reliable text) := by
  unfold text_edit
  try simp only [traced_reliable]
  repeat' with_reducible first
    | exact traced_sim_access _ _
    | exact traced_sim_update _ _
    | refine traced_sim_bind _ _ _ _ _ ?_ (fun _ => ?_)

theorem traced_sim_filter_command (env : Env) (key : String) :
    Sim env (filter_command env key) (filter_command env.reliable key) := by
  unfold filter_command
  try simp only [traced_reliable]
  repeat' with_reducible first
    | exact traced_sim_pure _ _
    | exact traced_sim_globals _
    | exact traced_sim_update _ _
    | exact traced_sim_call _ _
    | refine traced_sim_bind _ _ _ _ _ ?_ (fun _ => ?_)

theorem traced_sim_selection (env : Env) (cmd : String) :
    Sim env (selection env cmd) (selection env.reliable cmd) := by
  unfold selection
  try simp only [traced_reliable]
  repeat' with_reducible first
    | exact traced_sim_pure _ _
    | exact traced_sim_globals _
    | exact traced_sim_update _ _
    | exact traced_sim_call _ _
    | refine traced_sim_bind _ _ _ _ _ ?_ (fun _ => ?_)

theorem traced_sim_global_box (env : Env) (key : String) :
    Sim env (global_box env key) (global_box env.reliable key) := by
  unfold global_box
  try simp only [traced_reliable]
  repeat' with_reducible first
    | exact traced_sim_pure _ _
    | exact traced_sim_update _ _
    | exact traced_sim_leave _
    | exact traced_sim_raise _ _
    | exact traced_sim_call _ _
    | refine traced_sim_bind _ _ _ _ _ ?_ (fun _ => ?_)
    | split

theorem traced_sim_enter_at_root (env : Env) :
    Sim env (enter_at_root env) (enter_at_root env.reliable) := by
  unfold enter_at_root
  try simp only [traced_reliable]
  repeat' with_reducible first
    | exact traced_sim_pure _ _
    | exact traced_sim_getB _ _
    | exact traced_sim_getI _ _
    | refine traced_sim_bind _ _ _ _ _ ?_ (fun _ => ?_)
    | split

theorem traced_sim_enter_opens (env : Env) :
    Sim env (enter_opens env) (enter_opens env.reliable) := by
  unfold enter_opens
  try simp only [traced_reliable]
  repeat' with_reducible first
    | exact traced_sim_pure _ _
    | exact traced_sim_getI _ _
    | refine traced_sim_bind _ _ _ _ _ ?_ (fun _ => ?_)
    | split

theorem traced_sim_proc_enter (env : Env) (redraw : Bool) :
    Sim env (proc_enter env redraw) (proc_enter env.reliable redraw) := by
  unfold proc_enter
  try simp only [traced_reliable]
  repeat' with_reducible first
    | exact traced_sim_pure _ _
    | exact traced_sim_leave _
    | exact traced_sim_getB _ _
    | exact traced_sim_getI _ _
    | exact traced_sim_setB _ _ _
    | exact traced_sim_setI _ _ _
    | exact traced_sim_enter_at_root _
    | exact traced_sim_enter_opens _
    | refine traced_sim_bind _ _ _ _ _ ?_ (fun _ => ?_)
    | split

theorem traced_sim_proc_scroll (env : Env) (key : String) :
    Sim env (proc_scroll env key) (proc_scroll env.reliable key) := by
  unfold proc_scroll
  try simp only [traced_reliable]
  repeat' with_reducible first
    | exact traced_sim_pure _ _
    | exact traced_sim_leave _
    | exact traced_sim_getI _ _
    | exact traced_sim_selection _ _
    | refine traced_sim_bind _ _ _ _ _ ?_ (fun _ => ?_)
    | split

theorem traced_sim_selection_move (env : Env) (cmd : String) :
    Sim env (selection_move env cmd) (selection_move env.reliable cmd) := by
  unfold selection_move
  try simp only [traced_reliable]
  repeat' with_reducible first
    | exact traced_sim_pure _ _
    | exact traced_sim_leave _
    | exact traced_sim_selection _ _
    | refine traced_sim_bind _ _ _ _ _ ?_ (fun _ => ?_)
    | split

theorem traced_sim_click_deselects (env : Env) (key : String) :
    Sim env (click_deselects env key) (click_deselects env.reliable key) := by
  unfold click_deselects
  try simp only [traced_reliable]
  repeat' with_reducible first
    | exact traced_sim_pure _ _
    | exact traced_sim_getI _ _
    | refine traced_sim_bind _ _ _ _ _ ?_ (fun _ => ?_)
    | split

theorem traced_sim_proc_mouse (env : Env) (key : String) :
    Sim env (proc_mouse env key) (proc_mouse env.reliable key) := by
  unfold proc_mouse
  try simp only [traced_reliable]
  repeat' with_reducible first
    | exact traced_sim_pure _ _
    | exact traced_sim_globals _
    | exact traced_sim_getB _ _
    | exact traced_sim_getI _ _
    | exact traced_sim_setI _ _ _
    | exact traced_sim_proc_enter _ _
    | exact traced_sim_proc_scroll _ _
    | exact traced_sim_selection_move _ _
    | exact traced_sim_click_deselects _ _
    | refine traced_sim_bind _ _ _ _ _ ?_ (fun _ => ?_)
    | split

theorem traced_sim_proc_filtering (env : Env) (key : String) :
    Sim env (proc_filtering env key) (proc_filtering env.reliable key) := by
  unfold proc_filtering
  try simp only [traced_reliable]
  repeat' with_reducible first
    | exact traced_sim_pure _ _
    | exact traced_sim_globals _
    | exact traced_sim_update _ _
    | exact traced_sim_leave _
    | exact traced_sim_getS _ _
    | exact traced_sim_setB _ _ _
    | exact traced_sim_setS _ _ _
    | exact traced_sim_filter_command _ _
    | refine traced_sim_bind _ _ _ _ _ ?_ (fun _ => ?_)
    | split

theorem traced_sim_set_sorting (env : Env) (cur_i : Int) :
    Sim env (set_sorting env cur_i) (set_sorting env.reliable cur_i) := by
  unfold set_sorting
  try simp only [traced_reliable]
  repeat' with_reducible first
    | exact traced_sim_pure _ _
    | exact traced_sim_globals _
    | exact traced_sim_raise _ _
    | exact traced_sim_setS _ _ _
    | refine traced_sim_bind _ _ _ _ _ ?_ (fun _ => ?_)
    | split

theorem traced_sim_delete_clears (env : Env) (key : String) :
    Sim env (delete_clears env key) (delete_clears env.reliable key) := by
  unfold delete_clears
  try simp only [traced_reliable]
  repeat' with_reducible first
    | exact traced_sim_pure _ _
    | exact traced_sim_getS _ _
    | refine traced_sim_bind _ _ _ _ _ ?_ (fun _ => ?_)
    | split

theorem traced_sim_tree_key (env : Env) (key : String) :
    Sim env (tree_key env key) (tree_key env.reliable key) := by
  unfold tree_key
  try simp only [traced_reliable]
  repeat' with_reducible first
    | exact traced_sim_pure _ _
    | exact traced_sim_getB _ _
    | exact traced_sim_getI _ _
    | refine traced_sim_bind _ _ _ _ _ ?_ (fun _ => ?_)
    | split

theorem traced_sim_proc_chain_tree (env : Env) (key : String) :
    Sim env (proc_chain_tree env key) (proc_chain_tree env.reliable key) := by
  unfold proc_chain_tree
  try simp only [traced_reliable]
  repeat' with_reducible first
    | exact traced_sim_pure _ _
    | exact traced_sim_update _ _
    | exact traced_sim_leave _
    | exact traced_sim_call _ _
    | exact traced_sim_getI _ _
    | exact traced_sim_proc_scroll _ _
    | exact traced_sim_tree_key _ _
    | refine traced_sim_bind _ _ _ _ _ ?_ (fun _ => ?_)
    | split

theorem traced_sim_proc_chain_delete (env : Env) (key : String) :
    Sim env (proc_chain_delete env key) (proc_chain_delete env.reliable key) := by
  unfold proc_chain_delete
  try simp only [traced_reliable]
  repeat' with_reducible first
    | exact traced_sim_pure _ _
    | exact traced_sim_globals _
    | exact traced_sim_update _ _
    | exact traced_sim_call _ _
    | exact traced_sim_setS _ _ _
    | exact traced_sim_mv_to _ _ _
    | exact traced_sim_proc_enter _ _
    | exact traced_sim_proc_mouse _ _
    | exact traced_sim_delete_clears _ _
    | exact traced_sim_proc_chain_tree _ _
    | refine traced_sim_bind _ _ _ _ _ ?_ (fun _ => ?_)
    | split

theorem traced_sim_proc_chain (env : Env) (key : String) :
    Sim env (proc_chain env key) (proc_chain env.reliable key) := by
  unfold proc_chain
  try simp only [traced_reliable]
  repeat' with_reducible first
    | exact traced_sim_pure _ _
    | exact traced_sim_globals _
    | exact traced_sim_update _ _
    | exact traced_sim_getS _ _
    | exact traced_sim_flip _ _
    | exact traced_sim_text_edit _ _
    | exact traced_sim_proc_filtering _ _
    | exact traced_sim_set_sorting _ _
    | exact traced_sim_proc_chain_delete _ _
    | refine traced_sim_bind _ _ _ _ _ ?_ (fun _ => ?_)
    | split

theorem traced_sim_proc_box (env : Env) (key : String) :
    Sim env (proc_box env key) (proc_box env.reliable key) := by
  unfold proc_box
  try simp only [traced_reliable]
  repeat' with_reducible first
    | exact traced_sim_pure _ _
    | exact traced_sim_globals _
    | exact traced_sim_leave _
    | exact traced_sim_call _ _
    | exact traced_sim_proc_chain _ _
    | refine traced_sim_bind _ _ _ _ _ ?_ (fun _ => ?_)
    | split

theorem traced_sim_interval_key (env : Env) (key k : String) (ok : Int → Bool) :
    Sim env (interval_key env key k ok) (interval_key env.reliable key k ok) := by
  unfold interval_key
  try simp only [traced_reliable]
  repeat' with_reducible first
    | exact traced_sim_pure _ _
    | exact traced_sim_getI _ _
    | refine traced_sim_bind _ _ _ _ _ ?_ (fun _ => ?_)
    | split

theorem traced_sim_fast_step (env : Env) (k : String) (inner : Int → Bool) :
    Sim env (fast_step env k inner) (fast_step env.reliable k inner) := by
  unfold fast_step
  try simp only [traced_reliable]
  repeat' with_reducible first
    | exact traced_sim_pure _ _
    | exact traced_sim_globals _
    | exact traced_sim_getI _ _
    | exact traced_sim_time_ms _ _
    | refine traced_sim_bind _ _ _ _ _ ?_ (fun _ => ?_)
    | split

theorem traced_sim_interval_set (env : Env) (add : Int) (reads : Nat) :
    Sim env (interval_set env add reads) (interval_set env.reliable add reads) := by
  unfold interval_set
  try simp only [traced_reliable]
  repeat' with_reducible first
    | exact traced_sim_update _ _
    | exact traced_sim_leave _
    | exact traced_sim_call _ _
    | exact traced_sim_getI _ _
    | exact traced_sim_setI _ _ _
    | exact traced_sim_time_ms _ _
    | refine traced_sim_bind _ _ _ _ _ ?_ (fun _ => ?_)

theorem traced_sim_cpu_box (env : Env) (key : String) :
    Sim env (cpu_box env key) (cpu_box env.reliable key) := by
  unfold cpu_box
  try simp only [traced_reliable]
  repeat' with_reducible first
    | exact traced_sim_pure _ _
    | exact traced_sim_globals _
    | exact traced_sim_interval_key _ _ _ _
    | exact traced_sim_fast_step _ _ _
    | exact traced_sim_interval_set _ _ _
    | refine traced_sim_bind _ _ _ _ _ ?_ (fun _ => ?_)
    | split

theorem traced_sim_mem_box (env : Env) (key : String) :
    Sim env (mem_box env key) (mem_box env.reliable key) := by
  unfold mem_box
  try simp only [traced_reliable]
  repeat' with_reducible first
    | exact traced_sim_pure _ _
    | exact traced_sim_globals _
    | exact traced_sim_leave _
    | exact traced_sim_call _ _
    | exact traced_sim_flip _ _
    | refine traced_sim_bind _ _ _ _ _ ?_ (fun _ => ?_)
    | split

theorem traced_sim_process_try (env : Env) (key : String) :
    Sim env (process_try env key) (process_try env.reliable key) := by
  unfold process_try
  try simp only [traced_reliable]
  repeat' with_reducible first
    | exact traced_sim_pure _ _
    | exact traced_sim_quit _ _
    | exact traced_sim_getB _ _
    | exact traced_sim_global_box _ _
    | exact traced_sim_proc_box _ _
    | exact traced_sim_cpu_box _ _
    | exact traced_sim_mem_box _ _
    | refine traced_sim_bind _ _ _ _ _ ?_ (fun _ => ?_)
    | split

/-- The state after a call of the traced `Input::process` with a key that is
not empty. -/
theorem traced_process_state (env : Env) (s : State) (key : String) (h : empty key = false) :
    (process env s key).state = (process_try env key s).state := by
  simp only [process, h, Bool.false_eq_true, if_false]
  cases process_try env key s <;> rfl

/-- Every call of `Input::process` with a key that is not empty begins with
`Config::getB("proc_filtering")`: with a store that cannot read this value, the
call fails with the wrapped message, whatever the key and the state. -/
theorem traced_process_store_unreadable (env : Env) (s : State) (key what : String)
    (hne : empty key = false) (hf : env.fault (.getB "proc_filtering") = some what) :
    process env s key = .runtime_error ("Input::process(\"" ++ key ++ "\") : " ++ what) s := by
  have h : process_try env key s = .throw what s := by
    unfold process_try getB
    show Block.bind (Block.bind (access env (.getB "proc_filtering")) _) _ s = _
    simp only [Block.bind, access, hf]
  simp only [process, hne, h, Bool.false_eq_true, if_false]

/-! ### The traced `Input::process` beside `Input.process` -/

theorem refines_congr {α : Type} {b : Block α} (r : Input.State → Input.Res α)
    {r' : Input.State → Input.Res α} (h : Refines b r) (e : ∀ st, r st = r' st) : Refines b r' :=
  ⟨fun s => (h.run s).trans (e _)⟩

theorem refines_pure {α : Type} (a : α) : Refines (pure a : Block α) (fun st => .next a st) :=
  ⟨fun _ => rfl⟩

theorem refines_globals : Refines globals (fun st => .next st st) := ⟨fun _ => rfl⟩

theorem refines_update (f : Input.State → Input.State) : Refines (update f) (fun st => .next () (f st)) :=
  ⟨fun _ => rfl⟩

theorem refines_leave {α : Type} : Refines (leave : Block α) (fun st => .ret st) := ⟨fun _ => rfl⟩

theorem refines_quit {α : Type} (code : Int) : Refines (quit code : Block α) (fun st => .exit code st) :=
  ⟨fun _ => rfl⟩

theorem refines_raise {α : Type} (what : String) :
    Refines (raise what : Block α) (fun st => .throw what st) := ⟨fun _ => rfl⟩

theorem refines_bind {α β : Type} {b : Block α} {r : Input.State → Input.Res α}
    {f : α → Block β} {g : α → Input.State → Input.Res β}
    (h : Refines b r) (hf : ∀ a, Refines (f a) (g a)) :
    Refines (b >>= f) (fun st => (r st).bind g) := by
  refine ⟨fun s => ?_⟩
  have h1 := h.run s
  show (Block.bind b f s).untraced = (r s.toState).bind g
  unfold Block.bind
  cases hb : b s with
  | next a s1 =>
    rw [hb] at h1
    simp only [Res.untraced] at h1
    rw [← h1]
    exact (hf a).run s1
  | ret s1 => rw [hb] at h1; simp only [Res.untraced] at h1; rw [← h1]; rfl
  | exit c s1 => rw [hb] at h1; simp only [Res.untraced] at h1; rw [← h1]; rfl
  | throw w s1 => rw [hb] at h1; simp only [Res.untraced] at h1; rw [← h1]; rfl

theorem refines_ite {α : Type} (c : Prop) [Decidable c] {b1 b2 : Block α}
    {r1 r2 : Input.State → Input.Res α} (h1 : Refines b1 r1) (h2 : Refines b2 r2) :
    Refines (if c then b1 else b2) (fun st => if c then r1 st else r2 st) := by
  by_cases h : c
  · simp only [if_pos h]; exact h1
  · simp only [if_neg h]; exact h2

theorem refines_store (env : Env) (h : env.store_works) (a : Access) (ha : ∀ c, a ≠ Access.call c) :
    Refines (access env a) (fun st => .next () st) := by
  refine ⟨fun s => ?_⟩
  simp [access, h a ha, Res.untraced]

theorem refines_call (env : Env) (c : Call) :
    Refines (call env c) (fun st => Input.call env.untraced c st) := by
  refine ⟨fun s => ?_⟩
  show (Block.bind (access env (.call c)) _ s).untraced = _
  unfold Block.bind access Input.call Env.untraced
  simp only
  cases env.fault (.call c) with
  | some w => rfl
  | none => rfl

theorem bind_next {α β : Type} (a : α) (st : Input.State) (f : α → Input.State → Input.Res β) :
    (Input.Res.next a st).bind f = f a st := rfl

theorem bind_ret {α β : Type} (st : Input.State) (f : α → Input.State → Input.Res β) :
    (Input.Res.ret st : Input.Res α).bind f = .ret st := rfl

theorem bind_exit {α β : Type} (code : Int) (st : Input.State)
    (f : α → Input.State → Input.Res β) :
    (Input.Res.exit code st : Input.Res α).bind f = .exit code st := rfl

theorem bind_throw {α β : Type} (what : String) (st : Input.State)
    (f : α → Input.State → Input.Res β) :
    (Input.Res.throw what st : Input.Res α).bind f = .throw what st := rfl

theorem bind_ite {α β : Type} (c : Prop) [Decidable c] (a b : Input.Res α)
    (f : α → Input.State → Input.Res β) :
    (if c then a else b).bind f = if c then a.bind f else b.bind f := by
  split_ifs <;> rfl

theorem bind_bind {α β γ : Type} (r : Input.Res α) (f : α → Input.State → Input.Res β)
    (g : β → Input.State → Input.Res γ) :
    (r.bind f).bind g = r.bind fun a st => (f a st).bind g := by
  cases r <;> rfl

theorem untraced_fields (env : Env) :
    env.untraced.filter_command = env.filter_command ∧ env.untraced.selection = env.selection ∧
    env.untraced.time_ms = env.time_ms ∧ env.untraced.mv_to = env.mv_to ∧
    env.untraced.what_out_of_range = env.what_out_of_range ∧
    env.untraced.what_stoi = env.what_stoi := ⟨rfl, rfl, rfl, rfl, rfl, rfl⟩

theorem refines_getB (env : Env) (h : env.store_works) (name : String) :
    Refines (getB env name)
      (fun st => .next (st.config.getB name) st) := by
  unfold getB
  apply refines_congr
  case h =>
    try simp only []
    repeat' with_reducible first
      | exact refines_store env h _ (by simp)
      | exact refines_pure _
      | exact refines_globals
      | apply refines_bind
      | intro _
  case e =>
    intro st
    rfl

theorem refines_setB (env : Env) (h : env.store_works) (name : String) (value : Bool) :
    Refines (setB env name value)
      (fun st => .next () { st with config := st.config.setB name value }) := by
  unfold setB
  apply refines_congr
  case h =>
    try simp only []
    repeat' with_reducible first
      | exact refines_store env h _ (by simp)
      | exact refines_update _
      | apply refines_bind
      | intro _
  case e =>
    intro st
    rfl

theorem refines_getI (env : Env) (h : env.store_works) (name : String) :
    Refines (getI env name)
      (fun st => .next (st.config.getI name) st) := by
  unfold getI
  apply refines_congr
  case h =>
    try simp only []
    repeat' with_reducible first
      | exact refines_store env h _ (by simp)
      | exact refines_pure _
      | exact refines_globals
      | apply refines_bind
      | intro _
  case e =>
    intro st
    rfl

theorem refines_setI (env : Env) (h : env.store_works) (name : String) (value : Int) :
    Refines (setI env name value)
      (fun st => .next () { st with config := st.config.setI name value }) := by
  unfold setI
  apply refines_congr
  case h =>
    try simp only []
    repeat' with_reducible first
      | exact refines_store env h _ (by simp)
      | exact refines_update _
      | apply refines_bind
      | intro _
  case e =>
    intro st
    rfl

theorem refines_getS (env : Env) (h : env.store_works) (name : String) :
    Refines (getS env name)
      (fun st => .next (st.config.getS name) st) := by
  unfold getS
  apply refines_congr
  case h =>
    try simp only []
    repeat' with_reducible first
      | exact refines_store env h _ (by simp)
      | exact refines_pure _
      | exact refines_globals
      | apply refines_bind
      | intro _
  case e =>
    intro st
    rfl

theorem refines_setS (env : Env) (h : env.store_works) (name : String) (value : String) :
    Refines (setS env name value)
      (fun st => .next () { st with config := st.config.setS name value }) := by
  unfold setS
  apply refines_congr
  case h =>
    try simp only []
    repeat' with_reducible first
      | exact refines_store env h _ (by simp)
      | exact refines_update _
      | apply refines_bind
      | intro _
  case e =>
    intro st
    rfl

theorem refines_flip (env : Env) (h : env.store_works) (name : String) :
    Refines (flip env name)
      (fun st => .next () { st with config := st.config.flip name }) := by
  unfold flip
  apply refines_congr
  case h =>
    try simp only []
    repeat' with_reducible first
      | exact refines_store env h _ (by simp)
      | exact refines_update _
      | apply refines_bind
      | intro _
  case e =>
    intro st
    rfl

theorem refines_time_ms (env : Env) (h : env.store_works) (n : Nat) :
    Refines (time_ms env n)
      (fun st => .next (clock env.untraced n) st) := by
  unfold time_ms
  apply refines_congr
  case h =>
    try simp only []
    repeat' with_reducible first
      | exact refines_store env h _ (by simp)
      | exact refines_pure _
      | apply refines_bind
      | intro _
  case e =>
    intro st
    rfl

theorem refines_mv_to (env : Env) (h : env.store_works) (line col : Int) :
    Refines (mv_to env line col)
      (fun st => .next (env.mv_to line col) st) := by
  unfold mv_to
  apply refines_congr
  case h =>
    try simp only []
    repeat' with_reducible first
      | exact refines_store env h _ (by simp)
      | exact refines_pure _
      | apply refines_bind
      | intro _
  case e =>
    intro st
    rfl

theorem refines_text_edit (env : Env) (h : env.store_works) (text : String) :
    Refines (text_edit env text)
      (fun st => .next () { st with proc_filter := TextEdit.ofText text }) := by
  unfold text_edit
  apply refines_congr
  case h =>
    try simp only []
    repeat' with_reducible first
      | exact refines_store env h _ (by simp)
      | exact refines_update _
      | apply refines_bind
      | intro _
  case e =>
    intro st
    rfl

theorem refines_selection (env : Env) (cmd : String) :
    Refines (selection env cmd)
      (fun st => Input.proc_selection env.untraced st cmd) := by
  unfold selection
  apply refines_congr
  case h =>
    try simp only []
    repeat' with_reducible first
      | exact refines_pure _
      | exact refines_globals
      | exact refines_update _
      | exact refines_call env _
      | apply refines_bind
      | intro _
  case e =>
    intro st
    unfold Input.proc_selection
    rfl

theorem refines_filter_command (env : Env) (key : String) :
    Refines (filter_command env key)
      (fun st => (Input.call env.untraced (.filter_command key) st).bind fun _ st =>
        .next (env.filter_command st.proc_filter key).1
          { st with proc_filter := (env.filter_command st.proc_filter key).2 }) := by
  unfold filter_command
  apply refines_congr
  case h =>
    try simp only []
    repeat' with_reducible first
      | exact refines_pure _
      | exact refines_globals
      | exact refines_update _
      | exact refines_call env _
      | apply refines_bind
      | intro _
  case e =>
    intro st
    rfl

theorem refines_enter_at_root (env : Env) (h : env.store_works) :
    Refines (enter_at_root env)
      (fun st => .next (decide (st.config.getI "proc_selected" = 0)
        && !st.config.getB "show_detailed") st) := by
  unfold enter_at_root
  apply refines_congr
  case h =>
    repeat' with_reducible first
      | exact refines_pure _
      | exact refines_getB env h _
      | exact refines_getI env h _
      | apply refines_ite
      | apply refines_bind
      | intro _
  case e =>
    intro st
    simp only [bind_next, bind_ite]
    split_ifs with c <;> simp [c]

theorem refines_enter_opens (env : Env) (h : env.store_works) :
    Refines (enter_opens env)
      (fun st => .next (decide (st.config.getI "proc_selected" > 0)
        && decide (st.config.getI "detailed_pid" ≠ st.config.getI "selected_pid")) st) := by
  unfold enter_opens
  apply refines_congr
  case h =>
    repeat' with_reducible first
      | exact refines_pure _
      | exact refines_getI env h _
      | apply refines_ite
      | apply refines_bind
      | intro _
  case e =>
    intro st
    simp only [bind_next, bind_ite]
    split_ifs with c <;> simp [c]

theorem refines_proc_enter (env : Env) (h : env.store_works) (redraw : Bool) :
    Refines (proc_enter env redraw)
      (fun st => Input.proc_enter st redraw) := by
  unfold proc_enter
  apply refines_congr
  case h =>
    try simp only []
    repeat' with_reducible first
      | exact refines_pure _
      | exact refines_leave
      | exact refines_getB env h _
      | exact refines_getI env h _
      | exact refines_setB env h _ _
      | exact refines_setI env h _ _
      | exact refines_enter_at_root env h
      | exact refines_enter_opens env h
      | apply refines_ite
      | apply refines_bind
      | intro _
  case e =>
    intro st
    simp only [bind_next, bind_ret, bind_exit, bind_throw, bind_ite, bind_bind, Input.proc_enter]
    split_ifs <;> simp_all

theorem refines_proc_scroll (env : Env) (h : env.store_works) (key : String) :
    Refines (proc_scroll env key)
      (fun st => Input.proc_scroll env.untraced st key) := by
  unfold proc_scroll
  apply refines_congr
  case h =>
    try simp only []
    repeat' with_reducible first
      | exact refines_pure _
      | exact refines_leave
      | exact refines_getI env h _
      | exact refines_selection env _
      | apply refines_ite
      | apply refines_bind
      | intro _
  case e =>
    intro st
    simp only [bind_next, bind_ret, bind_exit, bind_throw, bind_ite, bind_bind, untraced_fields, Input.proc_scroll]

theorem refines_selection_move (env : Env) (cmd : String) :
    Refines (selection_move env cmd)
      (fun st => (Input.proc_selection env.untraced st cmd).bind fun r st =>
        if r = -1 then (Input.Res.ret st : Input.Res (Bool × Bool)) else .next (false, false) st) := by
  unfold selection_move
  apply refines_congr
  case h =>
    try simp only []
    repeat' with_reducible first
      | exact refines_pure _
      | exact refines_leave
      | exact refines_selection env _
      | apply refines_ite
      | apply refines_bind
      | intro _
  case e =>
    intro st
    rfl

theorem refines_proc_mouse (env : Env) (h : env.store_works) (key : String) :
    Refines (proc_mouse env key)
      (fun st => Input.proc_mouse env.untraced st key) := by
  unfold proc_mouse click_deselects
  apply refines_congr
  case h =>
    try simp only []
    repeat' with_reducible first
      | exact refines_pure _
      | exact refines_globals
      | exact refines_getB env h _
      | exact refines_getI env h _
      | exact refines_setI env h _ _
      | exact refines_proc_enter env h _
      | exact refines_proc_scroll env h _
      | exact refines_selection_move env _
      | apply refines_ite
      | apply refines_bind
      | intro _
  case e =>
    intro st
    simp only [bind_next, bind_ret, bind_exit, bind_throw, bind_ite, bind_bind, untraced_fields, Input.proc_mouse]
    split_ifs <;> simp_all

theorem refines_proc_filtering (env : Env) (h : env.store_works) (key : String) :
    Refines (proc_filtering env key)
      (fun st => Input.proc_filtering env.untraced st key) := by
  unfold proc_filtering
  apply refines_congr
  case h =>
    try simp only []
    repeat' with_reducible first
      | exact refines_pure _
      | exact refines_globals
      | exact refines_update _
      | exact refines_leave
      | exact refines_getS env h _
      | exact refines_setB env h _ _
      | exact refines_setS env h _ _
      | exact refines_filter_command env _
      | apply refines_ite
      | apply refines_bind
      | intro _
  case e =>
    intro st
    simp only [bind_next, bind_ret, bind_exit, bind_throw, bind_ite, bind_bind, untraced_fields, Input.proc_filtering, ne_eq, ite_not]

theorem refines_set_sorting (env : Env) (h : env.store_works) (cur_i : Int) :
    Refines (set_sorting env cur_i)
      (fun st =>
        match vec_at st.sort_vector cur_i with
        | none => .throw env.what_out_of_range st
        | some v => .next (false, true) { st with config := st.config.setS "proc_sorting" v }) := by
  refine ⟨fun s => ?_⟩
  unfold set_sorting
  show (Block.bind globals _ s).untraced = _
  simp only [Block.bind, globals]
  cases vec_at s.sort_vector cur_i with
  | none => rfl
  | some v =>
    exact (refines_bind (refines_setS env h "proc_sorting" v) (fun _ => refines_pure (false, true))).run s

theorem refines_proc_chain_tree (env : Env) (h : env.store_works) (key : String) :
    Refines (proc_chain_tree env key)
      (fun st => untraced_chain_tree env.untraced st key) := by
  unfold proc_chain_tree tree_key
  apply refines_congr
  case h =>
    try simp only []
    repeat' with_reducible first
      | exact refines_pure _
      | exact refines_update _
      | exact refines_leave
      | exact refines_call env _
      | exact refines_getB env h _
      | exact refines_getI env h _
      | exact refines_proc_scroll env h _
      | apply refines_ite
      | apply refines_bind
      | intro _
  case e =>
    intro st
    simp only [bind_next, bind_ret, bind_exit, bind_throw, bind_ite, bind_bind, untraced_fields, untraced_chain_tree]
    by_cases c1 : key = "+" ∨ key = "-" ∨ key = "space"
    · by_cases c2 : st.config.getB "proc_tree" = true
      · by_cases c3 : st.config.getI "proc_selected" > 0
        · simp only [c1, c2, c3, if_true, and_self, decide_True]
          refine congrArg _ (funext fun _ => funext fun st => ?_)
          split_ifs <;> rfl
        · simp only [c1, c2, c3, if_true, if_false, and_false, decide_False, Bool.false_eq_true]
      · simp only [c1, c2, if_true, if_false, and_false, false_and, Bool.false_eq_true]
    · simp only [c1, if_false, false_and, Bool.false_eq_true]

theorem refines_proc_chain_delete (env : Env) (h : env.store_works) (key : String) :
    Refines (proc_chain_delete env key)
      (fun st => untraced_chain_delete env.untraced st key) := by
  unfold proc_chain_delete delete_clears
  apply refines_congr
  case h =>
    try simp only []
    repeat' with_reducible first
      | exact refines_pure _
      | exact refines_globals
      | exact refines_update _
      | exact refines_call env _
      | exact refines_getS env h _
      | exact refines_setS env h _ _
      | exact refines_mv_to env h _ _
      | exact refines_proc_enter env h _
      | exact refines_proc_mouse env h _
      | exact refines_proc_chain_tree env h _
      | apply refines_ite
      | apply refines_bind
      | intro _
  case e =>
    intro st
    simp only [bind_next, bind_ret, bind_exit, bind_throw, bind_ite, bind_bind, untraced_fields, untraced_chain_delete]
    by_cases c1 : key = "delete"
    · by_cases c2 : empty (st.config.getS "proc_filter") = false
      · simp only [c1, c2, if_true, and_self, Bool.not_false]
      · simp only [Bool.not_eq_false] at c2
        simp only [c1, c2, if_true, if_false, and_false, Bool.not_true, Bool.false_eq_true,
          Bool.true_eq_false]
        rfl
    · simp only [c1, if_false, false_and, Bool.false_eq_true]
      split_ifs <;> rfl

theorem refines_proc_chain (env : Env) (h : env.store_works) (key : String) :
    Refines (proc_chain env key)
      (fun st => Input.proc_chain env.untraced st key) := by
  unfold proc_chain
  apply refines_congr
  case h =>
    try simp only []
    repeat' with_reducible first
      | exact refines_pure _
      | exact refines_globals
      | exact refines_update _
      | exact refines_getS env h _
      | exact refines_flip env h _
      | exact refines_text_edit env h _
      | exact refines_proc_filtering env h _
      | exact refines_set_sorting env h _
      | exact refines_proc_chain_delete env h _
      | apply refines_ite
      | apply refines_bind
      | intro _
  case e =>
    intro st
    simp only [bind_next, bind_ret, bind_exit, bind_throw, bind_ite, bind_bind, untraced_fields]
    unfold Input.proc_chain
    by_cases c1 : st.config.getB "proc_filtering" = true
    · rw [if_pos c1, if_pos c1]
    rw [if_neg c1, if_neg c1]
    by_cases c2 : key = "left"
    · rw [if_pos c2, if_pos c2]
      rfl
    rw [if_neg c2, if_neg c2]
    by_cases c3 : key = "right"
    · rw [if_pos c3, if_pos c3]
      rfl
    rw [if_neg c3, if_neg c3]
    by_cases c4 : key = "f"
    · rw [if_pos c4, if_pos c4]
    rw [if_neg c4, if_neg c4]
    by_cases c5 : key = "e"
    · rw [if_pos c5, if_pos c5]
    rw [if_neg c5, if_neg c5]
    by_cases c6 : key = "r"
    · rw [if_pos c6, if_pos c6]
    rw [if_neg c6, if_neg c6]
    by_cases c7 : key = "c"
    · rw [if_pos c7, if_pos c7]
    rw [if_neg c7, if_neg c7]
    rfl

theorem refines_proc_box (env : Env) (h : env.store_works) (key : String) :
    Refines (proc_box env key)
      (fun st => Input.proc_box env.untraced st key) := by
  unfold proc_box
  apply refines_congr
  case h =>
    try simp only []
    repeat' with_reducible first
      | exact refines_pure _
      | exact refines_globals
      | exact refines_leave
      | exact refines_call env _
      | exact refines_proc_chain env h _
      | apply refines_ite
      | apply refines_bind
      | intro _
  case e =>
    intro st
    simp only [bind_next, bind_ret, bind_exit, bind_throw, bind_ite, bind_bind, untraced_fields, Input.proc_box]

theorem refines_mem_box (env : Env) (h : env.store_works) (key : String) :
    Refines (mem_box env key)
      (fun st => Input.mem_box env.untraced st key) := by
  unfold mem_box
  apply refines_congr
  case h =>
    try simp only []
    repeat' with_reducible first
      | exact refines_pure _
      | exact refines_globals
      | exact refines_leave
      | exact refines_call env _
      | exact refines_flip env h _
      | apply refines_ite
      | apply refines_bind
      | intro _
  case e =>
    intro st
    simp only [bind_next, bind_ret, bind_exit, bind_throw, bind_ite, bind_bind, untraced_fields, Input.mem_box]
    split_ifs <;> rfl

theorem refines_interval_key (env : Env) (h : env.store_works) (key k : String) (ok : Int → Bool) :
    Refines (interval_key env key k ok)
      (fun st => .next (decide (key = k) && ok (st.config.getI "update_ms")) st) := by
  unfold interval_key
  apply refines_congr
  case h =>
    try simp only []
    repeat' with_reducible first
      | exact refines_pure _
      | exact refines_getI env h _
      | apply refines_ite
      | apply refines_bind
      | intro _
  case e =>
    intro st
    simp only [bind_next, bind_ret, bind_exit, bind_throw, bind_ite, bind_bind, untraced_fields]
    split_ifs with c <;> simp [c]

theorem refines_fast_step (env : Env) (h : env.store_works) (k : String) (inner : Int → Bool) :
    Refines (fast_step env k inner)
      (fun st => .next
        (if inner (st.config.getI "update_ms") then
          (decide (st.last_press ≥ (clock env.untraced 0 + 2 ^ 64 - 200) % 2 ^ 64)
            && history_all st k, 1)
        else (false, 0)) st) := by
  unfold fast_step
  apply refines_congr
  case h =>
    try simp only []
    repeat' with_reducible first
      | exact refines_pure _
      | exact refines_globals
      | exact refines_getI env h _
      | exact refines_time_ms env h _
      | apply refines_ite
      | apply refines_bind
      | intro _
  case e =>
    intro st
    simp only [bind_next, bind_ret, bind_exit, bind_throw, bind_ite, bind_bind, untraced_fields]
    split_ifs <;> rfl

theorem refines_interval_set (env : Env) (h : env.store_works) (add : Int) (reads : Nat) :
    Refines (interval_set env add reads)
      (fun st => (Input.call env.untraced (.run "cpu" true true)
          { st with config := st.config.setI "update_ms" (st.config.getI "update_ms" + add),
                    last_press := clock env.untraced reads }).bind fun _ st => .ret st) := by
  unfold interval_set
  apply refines_congr
  case h =>
    try simp only []
    repeat' with_reducible first
      | exact refines_update _
      | exact refines_leave
      | exact refines_call env _
      | exact refines_getI env h _
      | exact refines_setI env h _ _
      | exact refines_time_ms env h _
      | apply refines_bind
      | intro _
  case e =>
    intro st
    simp only [bind_next, bind_ret, bind_exit, bind_throw, bind_ite, bind_bind, untraced_fields]

theorem refines_cpu_box (env : Env) (h : env.store_works) (key : String) :
    Refines (cpu_box env key)
      (fun st => Input.cpu_box env.untraced st key) := by
  unfold cpu_box
  apply refines_congr
  case h =>
    try simp only []
    repeat' with_reducible first
      | exact refines_pure _
      | exact refines_globals
      | exact refines_interval_key env h _ _ _
      | exact refines_fast_step env h _ _
      | exact refines_interval_set env h _ _
      | apply refines_ite
      | apply refines_bind
      | intro _
  case e =>
    intro st
    simp only [bind_next, bind_ret, bind_exit, bind_throw, bind_ite, bind_bind, untraced_fields]
    unfold Input.cpu_box
    by_cases cs : st.cpu_shown = true
    swap
    · rw [if_neg cs, if_neg cs]
    rw [if_pos cs, if_pos cs]
    dsimp only
    generalize st.config.getI "update_ms" = u
    generalize decide (st.last_press ≥ (clock env.untraced 0 + 2 ^ 64 - 200) % 2 ^ 64) = near
    simp only [Bool.and_eq_true, decide_eq_true_eq]
    by_cases cp : key = "+" ∧ u ≤ 86399900
    · rw [if_pos cp, if_pos cp]
      by_cases u2 : u ≤ 86399000
      · simp only [u2, decide_True, if_true, Bool.true_and, Bool.and_eq_true, true_and]
      · simp only [u2, decide_False, if_false, Bool.false_and, Bool.false_eq_true,
          Bool.and_eq_true, false_and]
    rw [if_neg cp, if_neg cp]
    by_cases cm : key = "-" ∧ u ≥ 200
    · rw [if_pos cm, if_pos cm]
      have e : ∀ (p : Prop) [Decidable p], (u + if p then -1000 else -100)
          = u - (if p then 1000 else 100) := by
        intro p _
        split_ifs <;> omega
      have e2 : u + -100 = u - 100 := by omega
      by_cases u2 : u ≥ 2000
      · simp only [u2, decide_True, if_true, Bool.true_and, Bool.and_eq_true, true_and]
        rw [e]
      · simp only [u2, decide_False, if_false, Bool.false_and, Bool.false_eq_true,
          Bool.and_eq_true, false_and]
        rw [e2]
    rw [if_neg cm, if_neg cm]

theorem refines_global_toggle (env : Env) (box : String) :
    Refines (do
        call env (.toggle_box box)
        update fun st => { st with config := st.config.toggle_box box }
        call env (.term_resize true)
        (leave : Block Unit))
      (fun st =>
        ((Input.call env.untraced (.toggle_box box) st).bind fun _ st =>
          Input.call env.untraced (.term_resize true)
            { st with config := st.config.toggle_box box }).bind fun _ st => .ret st) := by
  apply refines_congr
  case h =>
    repeat' with_reducible first
      | exact refines_update _
      | exact refines_leave
      | exact refines_call env _
      | apply refines_bind
      | intro _
  case e =>
    intro st
    simp only [bind_next, bind_bind]

theorem refines_global_box (env : Env) (key : String) :
    Refines (global_box env key)
      (fun st =>
        if key = "1" ∨ key = "2" ∨ key = "3" ∨ key = "4" then
          (Input.global_toggle env.untraced st key).bind fun _ st => .ret st
        else .next () st) := by
  refine ⟨fun s => ?_⟩
  unfold global_box Input.global_toggle
  by_cases c : key = "1" ∨ key = "2" ∨ key = "3" ∨ key = "4"
  · simp only [if_pos c]
    cases stoi key with
    | error e => rfl
    | ok n =>
      simp only
      cases vec_at boxes (n - 1) with
      | none => rfl
      | some box => exact (refines_global_toggle env box).run s
  · simp only [if_neg c]
    rfl

theorem refines_process_try (env : Env) (h : env.store_works) (key : String) :
    Refines (process_try env key)
      (fun st => Input.process_try env.untraced st key) := by
  unfold process_try
  apply refines_congr
  case h =>
    try simp only []
    repeat' with_reducible first
      | exact refines_pure _
      | exact refines_quit _
      | exact refines_getB env h _
      | exact refines_global_box env _
      | exact refines_proc_box env h _
      | exact refines_cpu_box env h _
      | exact refines_mem_box env h _
      | apply refines_ite
      | apply refines_bind
      | intro _
  case e =>
    intro st
    simp only [bind_next, bind_ret, bind_exit, bind_throw, bind_ite, bind_bind, untraced_fields, Input.process_try, Input.global_box]

/-- When the store, the clock, `Mv::to` and the constructor of the line editor
do not fail, the traced `Input::process` does, apart from the trace of uses, what
`Input.process` does with the same collaborators. -/
theorem traced_process_untraced (env : Env) (h : env.store_works) (s : State) (key : String) :
    (process env s key).untraced = Input.process env.untraced s.toState key := by
  unfold process Input.process
  by_cases c : empty key = true
  · rw [if_pos c, if_pos c]
    rfl
  · rw [if_neg c, if_neg c]
    have hr := (refines_process_try env h key).run s
    rw [← hr]
    cases process_try env key s <;> rfl

end Traced

end Input

/-! # The claims -/

/-- C1 (as stated, refuted): on the burst of two escape bytes followed by `[A`
the first two bytes are not `Fx::e`, nothing is stripped, the four bytes are no
entry of `Key_escapes` and hold more than one code point, so `Input::get`
returns the empty token and not `up`. -/
theorem C1_double_escape_is_not_up :
    (Input.get Input.State.init "\x1b\x1b[A").1 = "" ∧
    (Input.get Input.State.init "\x1b\x1b[A").1 ≠ "up" := by
  decide

/-- C1 (amended): in every state `Input::get` returns `up` for the burst made of
one escape byte followed by `[A`, and the empty token for the burst made of two
escape bytes followed by `[A`. -/
theorem C1_get_up_single_escape (st : Input.State) :
    (Input.get st "\x1b[A").1 = "up" ∧ (Input.get st "\x1b\x1b[A").1 = "" := by
  constructor <;> rfl

/-- C2: with `proc_filtering` false and no menu active, for every column `c` and
line `l` in `int` range written in decimal, `Input::get` on the click burst
(escape byte, `[<0;`, `c`, `;`, `l`, `M`) sets `mouse_pos` to `(c, l)`; it
returns `mouse_click` when no rectangle of `mouse_mappings` contains `(c, l)`, and
otherwise the key of a rectangle of `mouse_mappings` that contains `(c, l)`. -/
theorem C2_mouse_click_position (st : Input.State) (c l : Int)
    (hf : st.config.getB "proc_filtering" = false) (hm : st.menu_active = false)
    (hc : Input.INT_MIN ≤ c ∧ c ≤ Input.INT_MAX) (hl : Input.INT_MIN ≤ l ∧ l ≤ Input.INT_MAX) :
    (Input.get st ("\x1b[<0;" ++ Input.to_string c ++ ";" ++ Input.to_string l ++ "M")).2.mouse_pos
      = (c, l) ∧
    ((∀ e ∈ st.mouse_mappings, ¬ (e.2.col ≤ c ∧ c < e.2.col + e.2.width ∧
        e.2.line ≤ l ∧ l < e.2.line + e.2.height)) →
      (Input.get st ("\x1b[<0;" ++ Input.to_string c ++ ";" ++ Input.to_string l ++ "M")).1
        = "mouse_click") ∧
    ((∃ e ∈ st.mouse_mappings, e.2.col ≤ c ∧ c < e.2.col + e.2.width ∧
        e.2.line ≤ l ∧ l < e.2.line + e.2.height) →
      ∃ e ∈ st.mouse_mappings, (e.2.col ≤ c ∧ c < e.2.col + e.2.width ∧
        e.2.line ≤ l ∧ l < e.2.line + e.2.height) ∧
        (Input.get st ("\x1b[<0;" ++ Input.to_string c ++ ";" ++ Input.to_string l ++ "M")).1
          = e.1) := by
  rw [Input.get_click st c l hf hm hc hl]
  refine ⟨rfl, ?_, ?_⟩
  · intro h
    apply Input.map_click_none
    intro e he
    have := h e he
    simpa [Input.in_rect] using this
  · rintro ⟨e, he, hin⟩
    obtain ⟨e', he', hin', hmap⟩ := Input.map_click_some st.mouse_mappings c l "mouse_click"
      ⟨e, he, by simpa [Input.in_rect] using hin⟩
    refine ⟨e', he', ?_, hmap⟩
    simpa [Input.in_rect] using hin'

/-- C2 at column 10, line 5: without mapped rectangles the position becomes
`(10, 5)` and the token is `mouse_click`. -/
theorem C2_mouse_click_position_witness :
    (Input.get Input.State.init
        ("\x1b[<0;" ++ Input.to_string 10 ++ ";" ++ Input.to_string 5 ++ "M")).2.mouse_pos
      = (10, 5) ∧
    (Input.get Input.State.init
        ("\x1b[<0;" ++ Input.to_string 10 ++ ";" ++ Input.to_string 5 ++ "M")).1
      = "mouse_click" :=
  have h := C2_mouse_click_position Input.State.init 10 5 rfl rfl (by decide) (by decide)
  ⟨h.1, h.2.1 (fun _ he => absurd he (List.not_mem_nil _))⟩

/-- C4 (the code at the failing input): `Input::clear` leaves a history without
any entry, and a later `Input::get` that decodes the key `a` pushes and pops on
this empty history, which stays empty. -/
theorem C4_clear_leaves_no_entries :
    (Input.clear Input.State.init).history = [] ∧
    (Input.clear Input.State.init).history.length ≠ 50 ∧
    (Input.get (Input.clear Input.State.init) "a").1 = "a" ∧
    (Input.get (Input.clear Input.State.init) "a").2.history = [] := by
  decide

/-- C5 (as stated, refuted): with a timeout of 100 ms, the flag `interrupt` set
and bytes already available, `Input::poll` clears the flag and returns `false`,
not `true`. -/
theorem C5_poll_interrupted_returns_false :
    Input.poll { in_avail := fun _ => true, raise := fun _ => false } true 100
      = some { ret := false, interrupt := false, sleeps := [] } := by
  decide

/-- C5 (amended): for a timeout of at least 1, when the flag `interrupt` is true
at the pass of the loop that examines it (pass `k`, reached because the earlier
passes saw neither the flag nor bytes and the time is not over), `Input::poll`
returns `false` and the flag is `false` at the return; and when bytes are
available at the call and the flag is not set, `Input::poll` returns `true`. -/
theorem C5_poll_interrupt_clears_flag (w : Input.World) (interrupt : Bool) (timeout : Int)
    (k : Nat) (ht : 10 * (k : Int) < timeout)
    (hav : ∀ j < k, w.in_avail j = false)
    (hno : ∀ j < k, Input.flag_at w interrupt j = false) :
    (Input.flag_at w interrupt k = true →
      Input.poll w interrupt timeout
        = some { ret := false, interrupt := false, sleeps := List.replicate k 10 }) ∧
    (1 ≤ timeout → interrupt = false → w.in_avail 0 = true →
      Input.poll w interrupt timeout = some { ret := true, interrupt := false, sleeps := [] }) := by
  have h1 : ¬ timeout < 1 := by
    have : (0 : Int) ≤ 10 * (k : Int) := by positivity
    omega
  constructor
  · intro hk
    rw [Input.poll, if_neg h1,
      Input.poll_loop_wake k timeout.toNat w timeout interrupt [] ht (by omega) hav hno
        (Or.inl hk), hk]
    simp
  · intro _ hi ha
    rw [Input.poll, if_neg h1,
      Input.poll_loop_wake 0 timeout.toNat w timeout interrupt [] (by omega) (by omega)
        (fun j hj => absurd hj (Nat.not_lt_zero j)) (fun j hj => absurd hj (Nat.not_lt_zero j))
        (Or.inr ha)]
    simp [Input.flag_at, hi]

/-- C5 (amended) on a world where another thread sets the flag during the second
sleep (the third pass sees it, after two sleeps of 10 ms), and on a world where
bytes are available at the call. -/
theorem C5_poll_interrupt_clears_flag_witness :
    Input.poll { in_avail := fun _ => false, raise := fun j => decide (j = 1) } false 100
      = some { ret := false, interrupt := false, sleeps := [10, 10] } ∧
    Input.poll { in_avail := fun _ => true, raise := fun _ => false } false 100
      = some { ret := true, interrupt := false, sleeps := [] } :=
  ⟨(C5_poll_interrupt_clears_flag
      { in_avail := fun _ => false, raise := fun j => decide (j = 1) } false 100 2
      (by decide) (fun _ _ => rfl) (by decide)).1 (by decide),
   (C5_poll_interrupt_clears_flag
      { in_avail := fun _ => true, raise := fun _ => false } false 100 0
      (by decide) (fun j hj => absurd hj (Nat.not_lt_zero j))
      (fun j hj => absurd hj (Nat.not_lt_zero j))).2 (by decide) rfl rfl⟩

/-- C6 (as stated, refuted): with the process box shown and filter editing off,
the key `f` pressed twice leaves `proc_filtering` true: the second `f` is handed
to the line editor. -/
theorem C6_filter_key_twice_stays_on :
    ({ Input.State.init with proc_shown := true } : Input.State).config.getB "proc_filtering"
      = false ∧
    (Input.process Input.Env.quiet
      (Input.process Input.Env.quiet { Input.State.init with proc_shown := true } "f").state
      "f").state.config.getB "proc_filtering" = true := by
  decide

/-- C6 (amended): starting with filter editing off, the keys `e`, `r`, `c` (with
the process box shown) and `i` (with the memory box shown) pressed twice leave
`proc_tree`, `proc_reversed`, `proc_per_core` and `io_mode` at their original
values; the key `f` pressed twice (process box shown) leaves `proc_filtering`
true. -/
theorem C6_flag_toggled_twice (env1 env2 : Input.Env) (st : Input.State)
    (hf : st.config.getB "proc_filtering" = false) :
    (st.proc_shown = true →
      (Input.process env2 (Input.process env1 st "e").state "e").state.config.getB "proc_tree"
        = st.config.getB "proc_tree" ∧
      (Input.process env2 (Input.process env1 st "r").state "r").state.config.getB "proc_reversed"
        = st.config.getB "proc_reversed" ∧
      (Input.process env2 (Input.process env1 st "c").state "c").state.config.getB "proc_per_core"
        = st.config.getB "proc_per_core" ∧
      (Input.process env2 (Input.process env1 st "f").state "f").state.config.getB "proc_filtering"
        = true) ∧
    (st.mem_shown = true →
      (Input.process env2 (Input.process env1 st "i").state "i").state.config.getB "io_mode"
        = st.config.getB "io_mode") := by
  have hf' : ∀ name : String, name ≠ "proc_filtering" →
      (st.config.flip name).getB "proc_filtering" = false := by
    intro name hn
    simp [Input.Config.flip, Input.Config.getB, Input.Config.setB, Ne.symm hn]
    exact hf
  constructor
  · intro hp
    refine ⟨?_, ?_, ?_, ?_⟩
    · rw [Input.process_flip_proc_tree env1 st hf hp,
        Input.process_flip_proc_tree env2 _ (by simpa using hf' "proc_tree" (by decide))
          (by simpa using hp)]
      simp [Input.Config.flip, Input.Config.getB, Input.Config.setB]
    · rw [Input.process_flip_proc_reversed env1 st hf hp,
        Input.process_flip_proc_reversed env2 _ (by simpa using hf' "proc_reversed" (by decide))
          (by simpa using hp)]
      simp [Input.Config.flip, Input.Config.getB, Input.Config.setB]
    · rw [Input.process_flip_proc_per_core env1 st hf hp,
        Input.process_flip_proc_per_core env2 _
          (by simpa using hf' "proc_per_core" (by decide)) (by simpa using hp)]
      simp [Input.Config.flip, Input.Config.getB, Input.Config.setB]
    · have hon : (Input.process env1 st "f").state.config.getB "proc_filtering" = true := by
        rw [Input.process_filter_on env1 st hf hp]
        simp [Input.Config.flip, Input.Config.getB, Input.Config.setB]
        exact hf
      have hsh : (Input.process env1 st "f").state.proc_shown = true := by
        rw [Input.process_filter_on env1 st hf hp]
        simpa using hp
      have h := (Input.process_filter_edit env2 _ "f" hsh hon (by decide) (by decide)
        (by decide)).2.1
      rw [Input.Config.getB, h]
      exact hon
  · intro hm
    rw [Input.process_flip_io_mode env1 st hf hm,
      Input.process_flip_io_mode env2 _ (by simpa using hf' "io_mode" (by decide))
        (by simpa using hm)]
    simp [Input.Config.flip, Input.Config.getB, Input.Config.setB]

/-- C6 (amended) with the process and memory boxes shown and collaborators that
do not fail. -/
theorem C6_flag_toggled_twice_witness :
    Input.State.shown.config.getB "proc_filtering" = false ∧
    (Input.process Input.Env.quiet (Input.process Input.Env.quiet Input.State.shown "e").state
        "e").state.config.getB "proc_tree" = Input.State.shown.config.getB "proc_tree" ∧
    (Input.process Input.Env.quiet (Input.process Input.Env.quiet Input.State.shown "f").state
        "f").state.config.getB "proc_filtering" = true ∧
    (Input.process Input.Env.quiet (Input.process Input.Env.quiet Input.State.shown "i").state
        "i").state.config.getB "io_mode" = Input.State.shown.config.getB "io_mode" :=
  have h := C6_flag_toggled_twice Input.Env.quiet Input.Env.quiet Input.State.shown rfl
  ⟨rfl, (h.1 rfl).1, (h.1 rfl).2.2.2, h.2 rfl⟩

/-- C7 (as stated, refuted): in the cpu box at 86,399,000 ms, with the last two
entries of the history equal to `+` and the other 48 empty, and the previous
press 100 ms old, the key `+` adds 100 ms, not 1000 ms. -/
theorem C7_last_two_entries_do_not_accelerate :
    (Input.process Input.Env.quiet
      { Input.State.init with
          cpu_shown := true,
          config := Input.State.init.config.setI "update_ms" 86399000,
          history := List.replicate 48 "" ++ ["+", "+"],
          last_press := 900 } "+").state.config.getI "update_ms" = 86399100 := by
  decide

/-- C7 (amended): with the cpu box shown and `+` not taken by an earlier box,
`update_ms` at 86,399,000, every entry of the history equal to `+`, and the
previous press less than 200 ms before the clock reading, `Input::process("+")`
raises `update_ms` by 1000 to 86,400,000, and a further `Input::process("+")`
leaves it there. -/
theorem C7_fast_step_then_cap (env1 env2 : Input.Env) (st : Input.State)
    (hc : st.cpu_shown = true) (hproc : Input.plus_passes_proc st)
    (hu : st.config.getI "update_ms" = 86399000)
    (hh : ∀ e ∈ st.history, e = "+") (hnow : env1.time_ms 0 < 2 ^ 64)
    (h200 : 200 ≤ env1.time_ms 0) (hlt : env1.time_ms 0 < st.last_press + 200) :
    (Input.process env1 st "+").state.config.getI "update_ms" = 86400000 ∧
    (Input.process env2 (Input.process env1 st "+").state "+").state.config.getI "update_ms"
      = 86400000 := by
  have h1 := Input.process_plus_fast env1 st hc hproc hu hh hnow h200 hlt
  have hcfg : (Input.process env1 st "+").state.config
      = st.config.setI "update_ms" 86400000 := by
    rw [h1]; simp
  have hval : (Input.process env1 st "+").state.config.getI "update_ms" = 86400000 := by
    rw [hcfg]; simp [Input.Config.getI, Input.Config.setI]
  have hproc' : Input.plus_passes_proc (Input.process env1 st "+").state := by
    unfold Input.plus_passes_proc at hproc ⊢
    rw [hcfg, h1]
    simpa [Input.Config.getI, Input.Config.getB, Input.Config.setI] using hproc
  refine ⟨hval, ?_⟩
  rw [Input.process_plus_at_max env2 _ hproc' (by rw [hval]; decide)]
  exact hval

/-- C7 (amended) on a history of fifty `+`, the previous press 100 ms old. -/
theorem C7_fast_step_then_cap_witness :
    Input.State.held_plus.config.getI "update_ms" = 86399000 ∧
    (Input.process Input.Env.quiet Input.State.held_plus "+").state.config.getI "update_ms"
      = 86400000 ∧
    (Input.process Input.Env.quiet
      (Input.process Input.Env.quiet Input.State.held_plus "+").state
      "+").state.config.getI "update_ms" = 86400000 :=
  have h := C7_fast_step_then_cap Input.Env.quiet Input.Env.quiet Input.State.held_plus
    rfl (Or.inl rfl) (by decide) (by decide) (by decide) (by decide) (by decide)
  ⟨by decide, h.1, h.2⟩

/-- C8: with the process box shown, filter editing off and committed filter
text `F`: after `Input::process("f")`, then any sequence of keys that the filter
editing hands to the line editor (keys other than `enter`, `escape` and
`mouse_click`), then `Input::process("escape")` or
`Input::process("mouse_click")`, `proc_filtering` is false and `proc_filter` is
`F` again. -/
theorem C8_cancel_restores_filter (env0 envE : Input.Env) (steps : List (Input.Env × String))
    (st : Input.State) (last : String)
    (hp : st.proc_shown = true) (hf : st.config.getB "proc_filtering" = false)
    (hk : ∀ s ∈ steps, s.2 ≠ "enter" ∧ s.2 ≠ "escape" ∧ s.2 ≠ "mouse_click")
    (hl : last = "escape" ∨ last = "mouse_click") :
    (Input.process envE (Input.process_all (Input.process env0 st "f").state steps)
        last).state.config.getB "proc_filtering" = false ∧
    (Input.process envE (Input.process_all (Input.process env0 st "f").state steps)
        last).state.config.getS "proc_filter" = st.config.getS "proc_filter" := by
  have h0 := Input.process_filter_on env0 st hf hp
  have hp0 : (Input.process env0 st "f").state.proc_shown = true := by
    rw [h0]; simpa using hp
  have hf0 : (Input.process env0 st "f").state.config.getB "proc_filtering" = true := by
    rw [h0]
    simp [Input.Config.flip, Input.Config.getB, Input.Config.setB]
    exact hf
  have ho0 : (Input.process env0 st "f").state.old_filter = st.config.getS "proc_filter" := by
    rw [h0]; simp
  obtain ⟨r1, r2, r3⟩ := Input.process_all_filter_edit steps _ hp0 hf0 hk
  obtain ⟨c1, c2⟩ := Input.process_filter_cancel envE _ last r1 r2 hl
  exact ⟨c1, by rw [c2, r3, ho0]⟩

/-- C8 on the keys `a`, `b`, `c`: the edited text `abc` is in `proc_filter` while
the editing goes on, and `escape` puts the committed text (here the empty text)
back. -/
theorem C8_cancel_restores_filter_witness :
    (Input.process_all
      (Input.process Input.Env.quiet { Input.State.init with proc_shown := true } "f").state
      [(Input.Env.quiet, "a"), (Input.Env.quiet, "b"), (Input.Env.quiet, "c")]).config.getS
        "proc_filter" = "abc" ∧
    (Input.process Input.Env.quiet
      (Input.process_all
        (Input.process Input.Env.quiet { Input.State.init with proc_shown := true } "f").state
        [(Input.Env.quiet, "a"), (Input.Env.quiet, "b"), (Input.Env.quiet, "c")])
      "escape").state.config.getB "proc_filtering" = false ∧
    (Input.process Input.Env.quiet
      (Input.process_all
        (Input.process Input.Env.quiet { Input.State.init with proc_shown := true } "f").state
        [(Input.Env.quiet, "a"), (Input.Env.quiet, "b"), (Input.Env.quiet, "c")])
      "escape").state.config.getS "proc_filter" = "" :=
  have h := C8_cancel_restores_filter Input.Env.quiet Input.Env.quiet
    [(Input.Env.quiet, "a"), (Input.Env.quiet, "b"), (Input.Env.quiet, "c")]
    { Input.State.init with proc_shown := true } "escape" rfl rfl (by decide) (Or.inl rfl)
  ⟨by decide, h.1, h.2⟩

/-- C9: with filter editing off, each of the keys `1`, `2`, `3`, `4` toggles the
visibility of one box, `cpu`, `mem`, `net`, `proc` in this order, asks for the
geometry once with `term_resize(true)`, and returns: the visibility of the other
boxes and every other configuration value are unchanged, no redraw is asked
for, and nothing else of the state changes, whatever boxes are shown. The two
collaborators are taken not to fail. -/
theorem C9_digit_toggles_one_box (env : Input.Env) (st : Input.State) (key box : String)
    (hf : st.config.getB "proc_filtering" = false)
    (hk : (key, box) ∈ [("1", "cpu"), ("2", "mem"), ("3", "net"), ("4", "proc")])
    (h1 : env.fault (.toggle_box box) = none) (h2 : env.fault (.term_resize true) = none) :
    ∃ st', Input.process env st key = .returned st' ∧
      st'.config.box_shown box = !st.config.box_shown box ∧
      (∀ other, other ≠ box → st'.config.box_shown other = st.config.box_shown other) ∧
      st'.config.bools = st.config.bools ∧ st'.config.ints = st.config.ints ∧
      st'.config.strings = st.config.strings ∧
      st'.calls = st.calls ++ [.toggle_box box, .term_resize true] ∧
      st' = { st with config := st'.config, calls := st'.calls } := by
  obtain ⟨t1, t2, t3, t4, t5⟩ := Input.toggle_box_frame st.config box
  exact ⟨_, Input.process_digit env st key box hf hk h1 h2, t1, t2, t3, t4, t5, rfl, rfl⟩

/-- C9 on the key `2` with the process box shown: `mem` becomes visible. -/
theorem C9_digit_toggles_one_box_witness :
    ∃ st', Input.process Input.Env.quiet { Input.State.init with proc_shown := true } "2"
        = .returned st' ∧
      st'.config.box_shown "mem" = true ∧
      st'.calls = [.toggle_box "mem", .term_resize true] :=
  have ⟨st', h, hb, _, _, _, _, hc, _⟩ := C9_digit_toggles_one_box Input.Env.quiet
    { Input.State.init with proc_shown := true } "2" "mem" rfl (by decide) rfl rfl
  ⟨st', h, hb, hc⟩

/-- C10: with the process box shown, filter editing off, `proc_selected` at 0
and `show_detailed` false, `Input::process("enter")` returns with the state as
it was: no configuration value changes and no collaborator is called, so no
redraw is asked for. -/
theorem C10_enter_on_root_row (env : Input.Env) (st : Input.State)
    (hp : st.proc_shown = true) (hf : st.config.getB "proc_filtering" = false)
    (hsel : st.config.getI "proc_selected" = 0)
    (hdet : st.config.getB "show_detailed" = false) :
    Input.process env st "enter" = .returned st := by
  have hs : Input.starts_with "enter" "mouse_" = false := by decide
  simp [Input.process, Input.process_try, Input.global_box, Input.proc_box, Input.proc_chain,
    Input.proc_enter, hp, hf, hsel, hdet, hs, Input.empty, Input.Res.bind]

/-- C10 in the initial state with the process box shown. -/
theorem C10_enter_on_root_row_witness :
    (Input.process Input.Env.quiet { Input.State.init with proc_shown := true } "enter").state.calls
      = [] ∧
    (Input.process Input.Env.quiet { Input.State.init with proc_shown := true }
      "enter").state.config.getI "proc_selected" = 0 :=
  have h := C10_enter_on_root_row Input.Env.quiet { Input.State.init with proc_shown := true }
    rfl rfl rfl rfl
  ⟨by rw [h]; rfl, by rw [h]; rfl⟩

/-- C11 (as stated, refuted): in filter editing a click burst makes `Input::get`
return `mouse_click` at once, and the history is left as it was: its newest
entry is not `mouse_click`. -/
theorem C11_click_in_filter_editing_not_recorded :
    Input.State.filtering.config.getB "proc_filtering" = true ∧
    (Input.get Input.State.filtering "\x1b[<0;10;5M").1 = "mouse_click" ∧
    (Input.get Input.State.filtering "\x1b[<0;10;5M").2.history
      = Input.State.filtering.history ∧
    (Input.get Input.State.filtering "\x1b[<0;10;5M").2.history.getLast? ≠ some "mouse_click" := by
  decide

/-- C11 (amended): when the history is not empty and `Input::get` returns a
non-empty token `t`, the call has appended `t` as the newest entry of the history
and removed the oldest entry, unless `proc_filtering` is true and the burst is a
mouse burst (it starts with `[<` after the removal of the escape byte): then the
history is unchanged. -/
theorem C11_token_pushed_on_history (st : Input.State) (pending : String)
    (h : (Input.get st pending).1 ≠ "") (hne : st.history ≠ []) :
    (¬ (Input.starts_with (Input.strip_escape (Input.read_key pending)) "[<" = true ∧
          st.config.getB "proc_filtering" = true) →
      (Input.get st pending).2.history = st.history.tail ++ [(Input.get st pending).1]) ∧
    ((Input.starts_with (Input.strip_escape (Input.read_key pending)) "[<" = true ∧
          st.config.getB "proc_filtering" = true) →
      (Input.get st pending).2.history = st.history) := by
  obtain ⟨h1, h2, _⟩ := Input.get_frame st pending
  have he := Input.get_nonempty st pending h
  constructor
  · intro hm
    rw [h2 (by rintro (h' | h'); exact absurd h' (by simp [he]); exact hm h')]
    cases hh : st.history with
    | nil => exact absurd hh hne
    | cons a l => rfl
  · intro hm
    exact h1 (Or.inr hm)

/-- C11 (amended) on the key `a` in the initial state: `a` becomes the newest of
the fifty entries. -/
theorem C11_token_pushed_on_history_witness :
    (Input.get Input.State.init "a").1 = "a" ∧
    (Input.get Input.State.init "a").2.history
      = Input.State.init.history.tail ++ [(Input.get Input.State.init "a").1] :=
  ⟨by decide,
   (C11_token_pushed_on_history Input.State.init "a" (by decide) (by decide)).1 (by decide)⟩

/-- C12 (the code at the failing inputs): an escape byte followed by an entry of
`Key_escapes` that starts with `O` (`OA`, `OB`, `OC`, `OD`, `OP`, `OQ`, `OR`, `OS`)
does not start with `Fx::e`, keeps its escape byte, is not found in the table and is
cleared: `Input::get` returns the empty token. For the entries that start with
`[` the name of the entry is returned. -/
theorem C12_escape_O_sequences_return_empty :
    (Input.get Input.State.init "\x1bOA").1 = "" ∧
    (∀ e ∈ Input.Key_escapes, Input.starts_with e.1 "O" = true →
      (Input.get Input.State.init ("\x1b" ++ e.1)).1 = "") ∧
    (∀ e ∈ Input.Key_escapes, Input.starts_with e.1 "[" = true →
      (Input.get Input.State.init ("\x1b" ++ e.1)).1 = e.2) := by
  decide

/-- C13: when `update_ms` is in [100, 86,400,000] before `Input::process` is called
with `+` or `-`, it is in [100, 86,400,000] afterwards, whatever the state, the
history, the clock and `last_press` are; the change is 0, +100 or +1000 for `+`
and 0, -100 or -1000 for `-`. -/
theorem C13_interval_stays_in_bounds (env : Input.Env) (st : Input.State) (key : String)
    (hk : key = "+" ∨ key = "-")
    (hlo : 100 ≤ st.config.getI "update_ms") (hhi : st.config.getI "update_ms" ≤ 86400000) :
    100 ≤ (Input.process env st key).state.config.getI "update_ms" ∧
    (Input.process env st key).state.config.getI "update_ms" ≤ 86400000 ∧
    (key = "+" →
      (Input.process env st key).state.config.getI "update_ms" = st.config.getI "update_ms" ∨
      (Input.process env st key).state.config.getI "update_ms"
        = st.config.getI "update_ms" + 100 ∨
      (Input.process env st key).state.config.getI "update_ms"
        = st.config.getI "update_ms" + 1000) ∧
    (key = "-" →
      (Input.process env st key).state.config.getI "update_ms" = st.config.getI "update_ms" ∨
      (Input.process env st key).state.config.getI "update_ms"
        = st.config.getI "update_ms" - 100 ∨
      (Input.process env st key).state.config.getI "update_ms"
        = st.config.getI "update_ms" - 1000) := by
  have h := Input.process_pm_step env st key hk
  have hpm : ("+" : String) ≠ "-" := by decide
  rcases h with h | ⟨hp, h | h⟩ | ⟨hm, h | h⟩
  · rw [h]; exact ⟨hlo, hhi, fun _ => Or.inl rfl, fun _ => Or.inl rfl⟩
  · rw [h.1]
    exact ⟨by omega, by omega, fun _ => Or.inr (Or.inl rfl), fun e => absurd (hp.symm.trans e) hpm⟩
  · rw [h.1]
    exact ⟨by omega, by omega, fun _ => Or.inr (Or.inr rfl), fun e => absurd (hp.symm.trans e) hpm⟩
  · rw [h.1]
    exact ⟨by omega, by omega, fun e => absurd (e.symm.trans hm) hpm, fun _ => Or.inr (Or.inl rfl)⟩
  · rw [h.1]
    exact ⟨by omega, by omega, fun e => absurd (e.symm.trans hm) hpm, fun _ => Or.inr (Or.inr rfl)⟩

/-- C13 on the key `+` at 86,399,000 ms with a history of `+`: the value moves by
1000 to the upper bound. -/
theorem C13_interval_stays_in_bounds_witness :
    100 ≤ (Input.process Input.Env.quiet Input.State.held_plus "+").state.config.getI "update_ms" ∧
    (Input.process Input.Env.quiet Input.State.held_plus "+").state.config.getI "update_ms"
      ≤ 86400000 :=
  have h := C13_interval_stays_in_bounds Input.Env.quiet Input.State.held_plus "+" (Or.inl rfl)
    (by decide) (by decide)
  ⟨h.1, h.2.1⟩

/-- C14: with the process box shown, filter editing off, and a sort vector of
length `n` without duplicates (and of a length that a `size_t` holds) whose entry
`i` is the current `proc_sorting`: `Input::process("right")` sets `proc_sorting` to
the entry `(i + 1) mod n` and `Input::process("left")` to the entry `(i - 1) mod n`
(written `(i + n - 1) mod n`); no index is out of range, so both calls return
normally when `Runner::run` does not fail; `right` followed by `left` restores the
sort key, and so do `n` presses of `right`. -/
theorem C14_sort_key_cycles (env env2 : Input.Env) (envs : List Input.Env) (st : Input.State)
    (i : Nat) (hp : st.proc_shown = true) (hf : st.config.getB "proc_filtering" = false)
    (hnd : st.sort_vector.Nodup) (hn : st.sort_vector.length < 2 ^ 64)
    (hi : st.sort_vector[i]? = some (st.config.getS "proc_sorting")) :
    st.sort_vector[(i + 1) % st.sort_vector.length]?
      = some ((Input.process env st "right").state.config.getS "proc_sorting") ∧
    st.sort_vector[(i + st.sort_vector.length - 1) % st.sort_vector.length]?
      = some ((Input.process env st "left").state.config.getS "proc_sorting") ∧
    (env.fault (.run "proc" true true) = none →
      (∃ s, Input.process env st "right" = .returned s) ∧
      (∃ s, Input.process env st "left" = .returned s)) ∧
    (Input.process env2 (Input.process env st "right").state "left").state.config.getS
      "proc_sorting" = st.config.getS "proc_sorting" ∧
    (envs.length = st.sort_vector.length →
      (Input.process_all st (envs.map fun e => (e, "right"))).config.getS "proc_sorting"
        = st.config.getS "proc_sorting") := by
  have h : Input.sorting_at st st.sort_vector i := ⟨hp, hf, rfl, hi⟩
  have hlt := Input.sorting_at_lt h
  have hr := Input.right_step env st _ i h hnd hn
  have hl := Input.left_step env st _ i h hnd
  have hrl := Input.left_step env2 _ _ _ hr hnd
  refine ⟨hr.2.2.2, hl.2.2.2, ?_, ?_, ?_⟩
  · intro hnf
    have hj : (i + 1) % st.sort_vector.length < st.sort_vector.length :=
      Nat.mod_lt _ (by omega)
    have hj2 : (i + st.sort_vector.length - 1) % st.sort_vector.length < st.sort_vector.length :=
      Nat.mod_lt _ (by omega)
    constructor
    · rw [Input.process_right_outcome env st _ i _ h hnd hn (List.getElem?_eq_getElem hj), hnf]
      exact ⟨_, rfl⟩
    · rw [Input.process_left_outcome env st _ i _ h hnd (List.getElem?_eq_getElem hj2), hnf]
      exact ⟨_, rfl⟩
  · have e : ((i + 1) % st.sort_vector.length + st.sort_vector.length - 1)
        % st.sort_vector.length = i := by
      by_cases hw : i + 1 = st.sort_vector.length
      · have hm : (i + 1) % st.sort_vector.length = 0 := by rw [hw, Nat.mod_self]
        rw [hm, Nat.zero_add, Nat.mod_eq_of_lt (by omega)]
        omega
      · have hm : (i + 1) % st.sort_vector.length = i + 1 := Nat.mod_eq_of_lt (by omega)
        have e2 : i + 1 + st.sort_vector.length - 1 = i + st.sort_vector.length := by omega
        rw [hm, e2, Nat.add_mod_right]
        exact Nat.mod_eq_of_lt hlt
    have := hrl.2.2.2
    rw [e, hi] at this
    exact (Option.some.inj this).symm
  · intro hlen
    have := (Input.right_iter _ hnd hn envs st i h).2.2.2
    rw [hlen, Nat.add_mod_right, Nat.mod_eq_of_lt hlt, hi] at this
    exact (Option.some.inj this).symm

/-- C14 on three sort keys with the last one current: `right` wraps to the first
key, `left` goes to the second, and three presses of `right` come back. -/
theorem C14_sort_key_cycles_witness :
    (Input.process Input.Env.quiet Input.State.sorting "right").state.config.getS "proc_sorting"
      = "pid" ∧
    (Input.process Input.Env.quiet Input.State.sorting "left").state.config.getS "proc_sorting"
      = "program" ∧
    (Input.process_all Input.State.sorting
      ([Input.Env.quiet, Input.Env.quiet, Input.Env.quiet].map fun e => (e, "right"))).config.getS
        "proc_sorting" = Input.State.sorting.config.getS "proc_sorting" :=
  have h := C14_sort_key_cycles Input.Env.quiet Input.Env.quiet
    [Input.Env.quiet, Input.Env.quiet, Input.Env.quiet] Input.State.sorting 2
    rfl rfl (by decide) (by decide) (by decide)
  ⟨(Option.some.inj h.1).symm, (Option.some.inj h.2.1).symm, h.2.2.2.2 rfl⟩

/-- C15 (the code at the failing input): on the mouse burst `[<0;10;xM` after
the escape byte the column 10 is stored, then the line fails to parse: the empty
token is returned with `mouse_pos` at `(10, 4)`, the new column beside the old
line of the position `(3, 4)`. -/
theorem C15_column_stored_line_stale :
    (Input.get { Input.State.init with mouse_pos := (3, 4) } "\x1b[<0;10;xM").1 = "" ∧
    (Input.get { Input.State.init with mouse_pos := (3, 4) } "\x1b[<0;10;xM").2.mouse_pos
      = (10, 4) := by
  decide

/-- C16: with the process box shown, filter editing off, `show_detailed` false,
`proc_selected = s > 0` and `detailed_pid` different from `selected_pid`:
`Input::process("enter")` sets `detailed_pid` to `selected_pid`,
`proc_last_selected` to `s`, `proc_selected` to 0 and `show_detailed` to true; a
second `Input::process("enter")` sets `show_detailed` to false, `detailed_pid` and
`proc_last_selected` to 0 and `proc_selected` to `s`, so that `proc_selected` and
`show_detailed` are back at their original values. -/
theorem C16_enter_opens_then_closes (env1 env2 : Input.Env) (st : Input.State) (s : Int)
    (hp : st.proc_shown = true) (hf : st.config.getB "proc_filtering" = false)
    (hdet : st.config.getB "show_detailed" = false)
    (hs : st.config.getI "proc_selected" = s) (hpos : s > 0)
    (hpid : st.config.getI "detailed_pid" ≠ st.config.getI "selected_pid") :
    ((Input.process env1 st "enter").state.config.getI "detailed_pid"
        = st.config.getI "selected_pid" ∧
      (Input.process env1 st "enter").state.config.getI "proc_last_selected" = s ∧
      (Input.process env1 st "enter").state.config.getI "proc_selected" = 0 ∧
      (Input.process env1 st "enter").state.config.getB "show_detailed" = true) ∧
    ((Input.process env2 (Input.process env1 st "enter").state "enter").state.config.getB
        "show_detailed" = false ∧
      (Input.process env2 (Input.process env1 st "enter").state "enter").state.config.getI
        "detailed_pid" = 0 ∧
      (Input.process env2 (Input.process env1 st "enter").state "enter").state.config.getI
        "proc_last_selected" = 0 ∧
      (Input.process env2 (Input.process env1 st "enter").state "enter").state.config.getI
        "proc_selected" = s) ∧
    ((Input.process env2 (Input.process env1 st "enter").state "enter").state.config.getB
        "show_detailed" = st.config.getB "show_detailed" ∧
      (Input.process env2 (Input.process env1 st "enter").state "enter").state.config.getI
        "proc_selected" = st.config.getI "proc_selected") := by
  have h1 := Input.process_enter_open env1 st hp hf (by rw [hs]; exact hpos) hpid
  have e1 : (Input.process env1 st "enter").state.config
      = (((st.config.setI "detailed_pid" (st.config.getI "selected_pid")).setI
          "proc_last_selected" (st.config.getI "proc_selected")).setI
          "proc_selected" 0).setB "show_detailed" true := by
    rw [h1]; simp
  have hp1 : (Input.process env1 st "enter").state.proc_shown = true := by
    rw [h1]; simpa using hp
  have a1 : (Input.process env1 st "enter").state.config.getI "detailed_pid"
      = st.config.getI "selected_pid" := by
    rw [e1]; simp [Input.Config.getI, Input.Config.setI, Input.Config.setB]
  have a2 : (Input.process env1 st "enter").state.config.getI "proc_last_selected" = s := by
    rw [e1]; simp [Input.Config.getI, Input.Config.setI, Input.Config.setB]; exact hs
  have a3 : (Input.process env1 st "enter").state.config.getI "proc_selected" = 0 := by
    rw [e1]; simp [Input.Config.getI, Input.Config.setI, Input.Config.setB]
  have a4 : (Input.process env1 st "enter").state.config.getB "show_detailed" = true := by
    rw [e1]; simp [Input.Config.getB, Input.Config.setI, Input.Config.setB]
  have a5 : (Input.process env1 st "enter").state.config.getB "proc_filtering" = false := by
    rw [e1]; simp [Input.Config.getB, Input.Config.setI, Input.Config.setB]; exact hf
  have h2 := Input.process_enter_close env2 _ hp1 a5 a3 a4
  have e2 : (Input.process env2 (Input.process env1 st "enter").state "enter").state.config
      = ((((Input.process env1 st "enter").state.config.setI "proc_selected" s).setI
          "proc_last_selected" 0).setI "detailed_pid" 0).setB "show_detailed" false := by
    rw [h2]
    simp only [Input.after_call_config, a2, if_pos hpos]
  refine ⟨⟨a1, a2, a3, a4⟩, ?_, ?_⟩
  · rw [e2]
    simp [Input.Config.getI, Input.Config.getB, Input.Config.setI, Input.Config.setB]
  · rw [e2, hdet, hs]
    simp [Input.Config.getI, Input.Config.getB, Input.Config.setI, Input.Config.setB]

/-- C16 on the third row, process 42: the view opens on 42, and closes with the
third row selected again. -/
theorem C16_enter_opens_then_closes_witness :
    (Input.process Input.Env.quiet Input.State.selected "enter").state.config.getI "detailed_pid"
      = 42 ∧
    (Input.process Input.Env.quiet Input.State.selected "enter").state.config.getB "show_detailed"
      = true ∧
    (Input.process Input.Env.quiet
      (Input.process Input.Env.quiet Input.State.selected "enter").state
      "enter").state.config.getI "proc_selected" = 3 :=
  have h := C16_enter_opens_then_closes Input.Env.quiet Input.Env.quiet Input.State.selected 3
    rfl rfl rfl rfl (by decide) (by decide)
  ⟨h.1.1, h.1.2.2.2, h.2.1.2.2.2⟩

/-- C17: while `proc_filtering` is true and the process box is shown, for every
non-empty key other than `enter`, `escape` and `mouse_click` (`q` and the digits
included): `Input::process` does not exit; the key is passed to
`Proc::filter.command`, and apart from `Runner::run("proc", true, true)` no other
collaborator is called (no box is toggled, no geometry asked for); no
configuration value other than `proc_filter` changes, and `proc_filter` is the
text of the editor when the editor has handled the key; when the editor has not
handled the key the function returns with the configuration as it was and
without a redraw; when the editor fails nothing changes at all. -/
theorem C17_filter_editing_keys (env : Input.Env) (st : Input.State) (key : String)
    (hp : st.proc_shown = true) (hf : st.config.getB "proc_filtering" = true)
    (hne : Input.empty key = false)
    (h1 : key ≠ "enter") (h2 : key ≠ "escape") (h3 : key ≠ "mouse_click") :
    (∀ code s, Input.process env st key ≠ .exited code s) ∧
    ((Input.process env st key).state.config.bools = st.config.bools ∧
      (Input.process env st key).state.config.ints = st.config.ints ∧
      (Input.process env st key).state.config.current_boxes = st.config.current_boxes ∧
      (∀ name, name ≠ "proc_filter" →
        (Input.process env st key).state.config.strings name = st.config.strings name)) ∧
    (∀ c ∈ (Input.process env st key).state.calls,
      c ∈ st.calls ∨ c = .filter_command key ∨ c = .run "proc" true true) ∧
    (∀ what, env.fault (.filter_command key) = some what →
      Input.process env st key
        = .runtime_error ("Input::process(\"" ++ key ++ "\") : " ++ what) st) ∧
    (env.fault (.filter_command key) = none →
      (∃ rest, (Input.process env st key).state.calls
        = st.calls ++ Input.Call.filter_command key :: rest) ∧
      ((env.filter_command st.proc_filter key).1 = true →
        (Input.process env st key).state.config.getS "proc_filter"
          = (env.filter_command st.proc_filter key).2.text) ∧
      ((env.filter_command st.proc_filter key).1 = false →
        Input.process env st key
          = .returned { st with proc_filter := (env.filter_command st.proc_filter key).2,
                                calls := st.calls ++ [.filter_command key] })) := by
  have h := Input.process_filter_key env st key hp hf hne h1 h2 h3
  rw [h]
  cases hfc : env.fault (.filter_command key) with
  | some what =>
    refine ⟨by simp, by simp [Input.Outcome.state], ?_, ?_, by simp⟩
    · intro c hc; exact Or.inl (by simpa [Input.Outcome.state] using hc)
    · intro w hw; simp at hw; rw [hw]
  | none =>
    cases hh : (env.filter_command st.proc_filter key).1 with
    | false =>
      refine ⟨by simp, by simp [Input.Outcome.state], ?_, by simp, fun _ => ⟨⟨[], ?_⟩, ?_, ?_⟩⟩
      · intro c hc
        simp only [Bool.false_eq_true, if_false, Input.Outcome.state, List.mem_append,
          List.mem_singleton] at hc
        rcases hc with hc | hc
        · exact Or.inl hc
        · exact Or.inr (Or.inl hc)
      · simp [Input.Outcome.state]
      · intro hc; exact absurd hc (by simp)
      · intro _; simp
    | true =>
      have hcfg : ∀ cfg : Input.Config,
          cfg = (if st.config.getS "proc_filter" ≠ (env.filter_command st.proc_filter key).2.text
            then st.config.setS "proc_filter" (env.filter_command st.proc_filter key).2.text
            else st.config) →
          (cfg.bools = st.config.bools ∧ cfg.ints = st.config.ints ∧
            cfg.current_boxes = st.config.current_boxes ∧
            (∀ name, name ≠ "proc_filter" → cfg.strings name = st.config.strings name)) ∧
          cfg.getS "proc_filter" = (env.filter_command st.proc_filter key).2.text := by
        intro cfg hc
        by_cases hd : st.config.getS "proc_filter" = (env.filter_command st.proc_filter key).2.text
        · rw [if_neg (by simpa using hd)] at hc
          subst hc
          exact ⟨⟨rfl, rfl, rfl, fun _ _ => rfl⟩, hd⟩
        · rw [if_pos hd] at hc
          subst hc
          refine ⟨⟨rfl, rfl, rfl, ?_⟩, ?_⟩
          · intro name hn; simp [Input.Config.setS, hn]
          · simp [Input.Config.setS, Input.Config.getS]
      cases hr : env.fault (.run "proc" true true) with
      | some what =>
        refine ⟨by simp, ?_, ?_, by simp, fun _ => ⟨⟨[], ?_⟩, ?_, ?_⟩⟩
        · exact (hcfg _ rfl).1
        · intro c hc
          simp only [if_true, Input.Outcome.state, List.mem_append, List.mem_singleton] at hc
          rcases hc with hc | hc
          · exact Or.inl hc
          · exact Or.inr (Or.inl hc)
        · simp [Input.Outcome.state]
        · intro _; exact (hcfg _ rfl).2
        · intro hc; exact absurd hc (by simp)
      | none =>
        refine ⟨by simp, ?_, ?_, by simp, fun _ => ⟨⟨[.run "proc" true true], ?_⟩, ?_, ?_⟩⟩
        · exact (hcfg _ rfl).1
        · intro c hc
          simp only [if_true, Input.Outcome.state, List.mem_append, List.mem_cons,
            List.mem_singleton, List.not_mem_nil, or_false] at hc
          rcases hc with hc | hc | hc
          · exact Or.inl hc
          · exact Or.inr (Or.inl hc)
          · exact Or.inr (Or.inr hc)
        · simp [Input.Outcome.state]
        · intro _; exact (hcfg _ rfl).2
        · intro hc; exact absurd hc (by simp)

/-- C17 on the key `q` in filter editing: no exit, the key is typed into the
filter. -/
theorem C17_filter_editing_keys_witness :
    (Input.process Input.Env.quiet Input.State.filtering "q").state.config.getS "proc_filter"
      = "q" ∧
    (Input.process Input.Env.quiet Input.State.filtering "q").state.calls
      = [.filter_command "q", .run "proc" true true] ∧
    ∀ code s, Input.process Input.Env.quiet Input.State.filtering "q" ≠ .exited code s :=
  have h := C17_filter_editing_keys Input.Env.quiet Input.State.filtering "q" rfl rfl rfl
    (by decide) (by decide) (by decide)
  ⟨by decide, by decide, h.1⟩

/-- C18: for every non-empty key that reaches the memory box (the box is shown,
the key is not the quit key of the global actions, and the global actions, the
process box and the cpu box hand it on), `Input::process` calls
`Runner::run("mem", true, true)` once, whether or not the key is `i`, and nothing
else; it flips `io_mode` when the key is `i` and leaves the configuration as it
was otherwise. It returns after the call, or fails with the exception of the call. -/
theorem C18_memory_box_refresh (env : Input.Env) (st : Input.State) (key : String)
    (hne : Input.empty key = false) (hm : st.mem_shown = true)
    (hq : ¬ (st.config.getB "proc_filtering" = false ∧ key = "q"))
    (hg : ∃ a s, Input.global_box env st key = .next a s)
    (hp : ∃ a s, Input.proc_box env st key = .next a s)
    (hc : ∃ a s, Input.cpu_box env st key = .next a s) :
    Input.process env st key =
      (match env.fault (.run "mem" true true) with
      | none => .returned
          { st with config := if key = "i" then st.config.flip "io_mode" else st.config,
                    calls := st.calls ++ [.run "mem" true true] }
      | some what => .runtime_error ("Input::process(\"" ++ key ++ "\") : " ++ what)
          { st with config := if key = "i" then st.config.flip "io_mode" else st.config }) ∧
    (Input.process env st key).state.config.getB "io_mode"
      = (if key = "i" then !st.config.getB "io_mode" else st.config.getB "io_mode") := by
  obtain ⟨a1, s1, hg⟩ := hg
  obtain ⟨a2, s2, hp⟩ := hp
  obtain ⟨a3, s3, hc⟩ := hc
  have e1 := Input.global_box_next env st s1 key a1 hg
  have e2 := Input.proc_box_next env st s2 key a2 hp
  have e3 := Input.cpu_box_next env st s3 key a3 hc
  subst e1 e2 e3
  have hproc : Input.process env s3 key =
      (match env.fault (.run "mem" true true) with
      | none => .returned
          { s3 with config := if key = "i" then s3.config.flip "io_mode" else s3.config,
                    calls := s3.calls ++ [.run "mem" true true] }
      | some what => .runtime_error ("Input::process(\"" ++ key ++ "\") : " ++ what)
          { s3 with config := if key = "i" then s3.config.flip "io_mode" else s3.config }) := by
    simp only [Input.process, hne, Input.process_try, hq, hg, hp, hc, Input.Res.bind,
      if_false, Bool.false_eq_true]
    rw [Input.mem_box, if_pos hm]
    by_cases hi : key = "i"
    · simp only [hi, if_true, Input.Res.bind, Input.call]
      cases env.fault (.run "mem" true true) <;> rfl
    · simp only [hi, if_false, Input.Res.bind, Input.call]
      cases env.fault (.run "mem" true true) <;> rfl
  refine ⟨hproc, ?_⟩
  rw [hproc]
  by_cases hi : key = "i"
  · simp only [hi, if_true]
    cases env.fault (.run "mem" true true) <;>
      simp [Input.Outcome.state, Input.Config.flip, Input.Config.getB, Input.Config.setB]
  · simp only [hi, if_false]
    cases env.fault (.run "mem" true true) <;> simp [Input.Outcome.state]

/-- C18 on the keys `x` and `i` with the process and memory boxes shown: one call
of `Runner::run("mem", true, true)` each, `io_mode` flipped by `i` only. -/
theorem C18_memory_box_refresh_witness :
    Input.process Input.Env.quiet Input.State.shown "x"
      = .returned { Input.State.shown with calls := [.run "mem" true true] } ∧
    Input.process Input.Env.quiet Input.State.shown "i"
      = .returned { Input.State.shown with
          config := Input.State.shown.config.flip "io_mode",
          calls := [.run "mem" true true] } :=
  ⟨(C18_memory_box_refresh Input.Env.quiet Input.State.shown "x" rfl rfl (by decide)
      ⟨(), _, rfl⟩ ⟨(), _, rfl⟩ ⟨(), _, rfl⟩).1,
   (C18_memory_box_refresh Input.Env.quiet Input.State.shown "i" rfl rfl (by decide)
      ⟨(), _, rfl⟩ ⟨(), _, rfl⟩ ⟨(), _, rfl⟩).1⟩

/-- C19: for every non-empty key, when one of the uses of a collaborator that
`Input::process(key)` makes fails (a read or a write of the configuration store,
a reading of the clock, `Mv::to`, the constructor of the line editor, or one of
the other calls; the uses are those of the run in which none fails, up to the
first one that fails, with the message `what`), `Input::process` fails with a
runtime error whose message is `Input::process("` + key + `") : ` + `what`, and so
does not return normally; and `Input::process("")` returns with the state, trace
of uses included, as it was. -/
theorem C19_collaborator_failure_is_wrapped (env : Input.Traced.Env) (s : Input.Traced.State)
    (key what : String) (hne : Input.empty key = false)
    (hw : Input.Traced.first_fault env
      ((Input.Traced.process env.reliable s key).state.accesses.drop s.accesses.length)
        = some what) :
    (∃ s', Input.Traced.process env s key
      = .runtime_error ("Input::process(\"" ++ key ++ "\") : " ++ what) s') ∧
    (∀ s', Input.Traced.process env s key ≠ .returned s') ∧
    Input.Traced.process env s "" = .returned s := by
  obtain ⟨new, h1, _, h3⟩ := Input.Traced.traced_sim_process_try env key s
  rw [Input.Traced.traced_process_state env.reliable s key hne, h1, List.drop_left] at hw
  obtain ⟨s', hs⟩ := h3 what hw
  have hp : Input.Traced.process env s key
      = .runtime_error ("Input::process(\"" ++ key ++ "\") : " ++ what) s' := by
    simp only [Input.Traced.process, hne, hs, Bool.false_eq_true, if_false]
  refine ⟨⟨s', hp⟩, ?_, rfl⟩
  intro s''
  rw [hp]
  simp

/-- C19 on the key `enter` when the store cannot read `proc_selected`
(`Config::getI("proc_selected")` throws `no such key`), and on the key `e` when
`Runner::run("proc", true, true)` throws `boom`. -/
theorem C19_collaborator_failure_is_wrapped_witness :
    ((∃ s', Input.Traced.process Input.Traced.Env.broken_store Input.Traced.State.shown "enter"
      = .runtime_error ("Input::process(\"" ++ "enter" ++ "\") : " ++ "no such key") s') ∧
    (∀ s', Input.Traced.process Input.Traced.Env.broken_store Input.Traced.State.shown "enter"
      ≠ .returned s')) ∧
    ((∃ s', Input.Traced.process Input.Traced.Env.broken_redraw Input.Traced.State.shown "e"
      = .runtime_error ("Input::process(\"" ++ "e" ++ "\") : " ++ "boom") s') ∧
    (∀ s', Input.Traced.process Input.Traced.Env.broken_redraw Input.Traced.State.shown "e"
      ≠ .returned s')) :=
  have h := C19_collaborator_failure_is_wrapped Input.Traced.Env.broken_store
    Input.Traced.State.shown "enter" "no such key" rfl (by decide)
  have g := C19_collaborator_failure_is_wrapped Input.Traced.Env.broken_redraw
    Input.Traced.State.shown "e" "boom" rfl (by decide)
  ⟨⟨h.1, h.2.1⟩, ⟨g.1, g.2.1⟩⟩

/-- C20: for every `timeout`, `Input::poll` returns. Below 1 it does not sleep.
From 1 on it sleeps at most `ceil(timeout / 10)` times, the sleep of pass `k` being
`min(timeout - 10 k, 10)` ms (10 ms, and the rest for the last one); when the flag
is not set, no thread sets it and no bytes become available, it makes all these
sleeps and returns `false`. -/
theorem C20_poll_terminates (w : Input.World) (interrupt : Bool) (timeout : Int) :
    ∃ r, Input.poll w interrupt timeout = some r ∧
      (timeout < 1 → r.sleeps = []) ∧
      (1 ≤ timeout →
        r.sleeps.length ≤ ((timeout + 9) / 10).toNat ∧
        (∀ k, k < r.sleeps.length → r.sleeps[k]? = some (min (timeout - 10 * (k : Int)) 10)) ∧
        (interrupt = false → (∀ j, w.in_avail j = false) → (∀ j, w.raise j = false) →
          r.ret = false ∧ r.sleeps.length = ((timeout + 9) / 10).toNat)) := by
  by_cases ht : timeout < 1
  · exact ⟨{ ret := w.in_avail 0, interrupt := interrupt, sleeps := [] },
      by simp [Input.poll, ht], fun _ => rfl, fun h => absurd ht (by omega)⟩
  · obtain ⟨r, extra, h1, h2, h3, h4, h5⟩ :=
      Input.poll_loop_steps timeout.toNat w timeout interrupt [] (by omega)
    rw [List.nil_append] at h2
    refine ⟨r, by simp [Input.poll, ht, h1], fun h => absurd h ht, fun _ => ?_⟩
    rw [h2]
    exact ⟨h3, h4, h5⟩

/-- C20 on a timeout of 25 ms with nothing happening: sleeps of 10, 10 and 5 ms,
then `false`. -/
theorem C20_poll_terminates_witness :
    Input.poll { in_avail := fun _ => false, raise := fun _ => false } false 25
      = some { ret := false, interrupt := false, sleeps := [10, 10, 5] } ∧
    ∃ r, Input.poll { in_avail := fun _ => false, raise := fun _ => false } false 25 = some r ∧
      r.ret = false ∧ r.sleeps.length = 3 :=
  have ⟨r, h, _, h2⟩ :=
    C20_poll_terminates { in_avail := fun _ => false, raise := fun _ => false } false 25
  ⟨by decide, r, h, ((h2 (by decide)).2.2 rfl (fun _ => rfl) (fun _ => rfl)).1,
    ((h2 (by decide)).2.2 rfl (fun _ => rfl) (fun _ => rfl)).2⟩
